import Mathlib

/-!
# go-cuesheet: reader and writer of CUE sheets

A shallow embedding of `cuesheet/cuesheet.go`.

* A Go `string` is a sequence of bytes; it is modelled as `List Nat`, one
  element per byte.  Every function below only compares bytes with ASCII
  constants, so nothing depends on the elements being below 256.
* A run-time panic of the Go code (index out of range, slice bounds out of
  range) is an `Except.error`; so is the exhaustion of the recursion fuel of
  the three line loops, under a tag of its own, so that the two can never be
  confused.
* The reader is modelled twice.  The source saves and restores the reader
  (`before := *b` ... `*b = before`) to push a line back.  `readTrack`,
  `readTracks` and `ReadFile` read the stream of unread bytes, where the
  restored reader gives the bytes of the line again; this is what the source
  does as long as the line was read without a refill of the buffer.
  `buffered.readTrack`, `buffered.readTracks` and `buffered.ReadFile` read
  through the 4096-byte array of `bufio.Reader` itself, with the saved
  positions restored over the array as the read has left it; they are the
  code on texts of any length.  The two readings give the same result on
  every text of at most 4096 bytes (`buffered_ReadFile_short`).
* The underlying stream never fails: the only `err` that `ReadString('\n')`
  reports is `io.EOF`.
-/

namespace cuesheet

/-- The ways in which an evaluation can fail to return: the two run-time
panics the Go code can raise, and the exhaustion of the fuel of a loop. -/
inductive Fault where
  | indexOutOfRange
  | sliceBounds
  | outOfFuel
  deriving DecidableEq, Repr

/-- The bytes of an ASCII literal. -/
def bytes (s : String) : List Nat := s.toList.map Char.toNat

/-- Membership in `delims = "\t\n\r "`. -/
def isDelim (c : Nat) : Bool := c == 9 || c == 10 || c == 13 || c == 32

/-- `eol = "\n"`. -/
def eol : List Nat := [10]

/-- `framesPerSecond = 75`. -/
def framesPerSecond : Nat := 75

/-- `strings.TrimLeft(s, delims)`. -/
def TrimLeft (s : List Nat) : List Nat := s.dropWhile isDelim

/-- `strings.TrimRight(s, delims)`. -/
def TrimRight (s : List Nat) : List Nat := (s.reverse.dropWhile isDelim).reverse

/-- `strings.Trim(s, delims)`. -/
def Trim (s : List Nat) : List Nat := TrimRight (TrimLeft s)

/-- `strings.ContainsAny(s, delims)`. -/
def ContainsAny (s : List Nat) : Bool := s.any isDelim

/-- `strings.HasPrefix(s, p)`. -/
def HasPrefix (s p : List Nat) : Bool := p.isPrefixOf s

/-- `strings.Split(s, sep)` for a one-byte separator. -/
def Split (sep : Nat) : List Nat → List (List Nat)
  | [] => [[]]
  | c :: cs =>
    if c = sep then [] :: Split sep cs
    else
      match Split sep cs with
      | [] => [[c]]
      | h :: t => (c :: h) :: t

/-- The digit loop of `strconv.ParseUint(s, 10, 32)`: a byte that is not a
decimal digit is a syntax error (value 0), a value above `2^32 - 1` is a
range error (value `2^32 - 1`).  The flag is `err == nil`. -/
def parseDigits : List Nat → Nat → Nat × Bool
  | [], n => (n, true)
  | c :: cs, n =>
    if 48 ≤ c ∧ c ≤ 57 then
      let n1 := n * 10 + (c - 48)
      if n1 > 4294967295 then (4294967295, false) else parseDigits cs n1
    else (0, false)

/-- `strconv.ParseUint(s, 10, 32)`: the value and whether `err == nil`. -/
def ParseUint (s : List Nat) : Nat × Bool :=
  if s = [] then (0, false) else parseDigits s 0

/-- The digit loop of `strconv.FormatUint(n, 10)`. -/
def formatBits : Nat → Nat → List Nat → List Nat
  | 0, _, acc => acc
  | fuel + 1, n, acc =>
    if n < 10 then (48 + n) :: acc
    else formatBits fuel (n / 10) ((48 + n % 10) :: acc)

/-- `strconv.FormatUint(n, 10)`: the decimal representation of `n`. -/
def FormatUint (n : Nat) : List Nat := formatBits (n + 1) n []

/-- `leftPad(s, padStr, overallLen)`.  The Go integers are modelled by
naturals; the two agree when `padStr` is not empty, has at most `overallLen`
bytes, and the padded string has at least `overallLen` bytes, which holds
at every call (`padStr = "0"`, `overallLen = 2`). -/
def leftPad (s padStr : List Nat) (overallLen : Nat) : List Nat :=
  let padCountInt := 1 + ((overallLen - padStr.length) / padStr.length)
  let retStr := (List.replicate padCountInt padStr).flatten ++ s
  retStr.drop (retStr.length - overallLen)

/-- `isQuoted(s)`: indexing `s[0]` panics on the empty string. -/
def isQuoted (s : List Nat) : Except Fault Bool :=
  match s with
  | [] => .error .indexOutOfRange
  | c :: _ => .ok (c == 34 || c == 39)

/-- `quote(s, quote)`: the body of the loop, over the bytes of `s`. -/
def quoteBody (q : Nat) : List Nat → List Nat
  | [] => []
  | c :: cs =>
    if c = q ∨ c = 92 then 92 :: c :: quoteBody q cs
    else c :: quoteBody q cs

/-- `quote(s, quote)`. -/
def quote (s : List Nat) (q : Nat) : List Nat := q :: quoteBody q s ++ [q]

/-- The loop of `unquote`: `t` is `s[i:]`, the result is the value of `i`
when the loop is left. -/
def unquoteScan (q : Nat) : List Nat → Nat → Nat
  | [], i => i
  | c :: cs, i =>
    if c = q then i
    else if c = 92 then
      match cs with
      | [] => i + 2
      | _ :: cs' => unquoteScan q cs' (i + 2)
    else unquoteScan q cs (i + 1)

/-- `unquote(s)`: `s[0]` panics on the empty string, and `s[1:i]` panics when
the loop has stepped over the end of `s`. -/
def unquote (s : List Nat) : Except Fault (List Nat) :=
  match s with
  | [] => .error .indexOutOfRange
  | q :: t =>
    let i := unquoteScan q t 1
    if i ≤ s.length then .ok ((s.take i).drop 1) else .error .sliceBounds

/-- The index of the first byte `c` of `s`, or `s.length` when there is none. -/
def indexByte (c : Nat) : List Nat → Nat
  | [] => 0
  | x :: xs => if x = c then 0 else indexByte c xs + 1

/-- `ReadString(s)`: the field read and the new value of the cursor `*s`. -/
def ReadString (s : List Nat) : Except Fault (List Nat × List Nat) := do
  let s := TrimLeft s
  if (← isQuoted s) then
    let v ← unquote s
    if v.length + 2 ≤ s.length then pure (v, s.drop (v.length + 2))
    else throw .sliceBounds
  else
    let i := indexByte 32 s
    if i < s.length then pure (s.take i, s.drop (i + 1))
    else pure (s, [])

/-- `ReadUint(s)`. -/
def ReadUint (s : List Nat) : Except Fault (Nat × List Nat) := do
  let (v, s) ← ReadString s
  let (n, ok) := ParseUint v
  if ok then pure (n, s) else pure (0, s)

/-- `ReadFrame(s)`; the errors of the three `ParseUint` are dropped, the
arithmetic is that of `uint64`. -/
def ReadFrame (s : List Nat) : Except Fault (Nat × List Nat) := do
  let (f, s) ← ReadString s
  match Split 58 f with
  | [v0, v1, v2] =>
    let mm := (ParseUint v0).1
    let ss := (ParseUint v1).1
    let ff := (ParseUint v2).1
    pure (((mm * 60 + ss) * framesPerSecond + ff) % 2 ^ 64, s)
  | _ => pure (0, s)

/-- `FormatString(s)`. -/
def FormatString (s : List Nat) : List Nat :=
  if ContainsAny s then quote s 34 else s

/-- `FormatTrackNumber(n)`. -/
def FormatTrackNumber (n : Nat) : List Nat := leftPad (FormatUint n) [48] 2

/-- `FormatFrame(frame)`. -/
def FormatFrame (frame : Nat) : List Nat :=
  let n := frame / framesPerSecond
  let mm := n / 60
  let ss := n % 60
  let ff := frame % framesPerSecond
  leftPad (FormatUint mm) [48] 2 ++ [58] ++
    leftPad (FormatUint ss) [48] 2 ++ [58] ++
    leftPad (FormatUint ff) [48] 2

/-- `Flags`: `None = 0`, and `1 << iota` for the four flags. -/
def None : Nat := 0

/-- `Dcp = 1 << 1`. -/
def Dcp : Nat := 2

/-- `Four_ch = 1 << 2`. -/
def Four_ch : Nat := 4

/-- `Pre = 1 << 3`. -/
def Pre : Nat := 8

/-- `Scms = 1 << 4`. -/
def Scms : Nat := 16

/-- `type TrackIndex struct`. -/
structure TrackIndex where
  Number : Nat
  Frame : Nat
  deriving DecidableEq, Repr

/-- `type Track struct`. -/
structure Track where
  TrackNumber : Nat
  TrackDataType : List Nat
  Flags : Nat
  Isrc : List Nat
  Title : List Nat
  Performer : List Nat
  SongWriter : List Nat
  Pregap : Nat
  Postgap : Nat
  Index : List TrackIndex
  deriving DecidableEq, Repr

/-- `type File struct`. -/
structure File where
  FileName : List Nat
  FileType : List Nat
  Tracks : List Track
  deriving DecidableEq, Repr

/-- `type Cuesheet struct`. -/
structure Cuesheet where
  Rem : List (List Nat)
  Catalog : List Nat
  CdTextFile : List Nat
  Title : List Nat
  Performer : List Nat
  SongWriter : List Nat
  Pregap : Nat
  Postgap : Nat
  File : List File
  deriving DecidableEq, Repr

/-- The zero value `Track{}`. -/
def Track.zero : Track := ⟨0, [], None, [], [], [], [], 0, 0, []⟩

/-- The zero value `Cuesheet{}`. -/
def Cuesheet.zero : Cuesheet := ⟨[], [], [], [], [], [], 0, 0, []⟩

/-- `(*bufio.Reader).ReadString('\n')` as a reading of the stream `b` of unread
bytes: the line, its newline included, and the bytes left; `none` is `io.EOF`,
when no newline is left.  The buffer of the reader is modelled by
`bufio.Reader.ReadString` below. -/
def bufioReadString (b : List Nat) : Option (List Nat × List Nat) :=
  let i := indexByte 10 b
  if i < b.length then some (b.take (i + 1), b.drop (i + 1)) else none

/-- The loop `for len(line) > 0` of the `FLAGS` case of `readTrack`. -/
def readFlags : Nat → List Nat → Nat → Except Fault Nat
  | 0, _, _ => .error .outOfFuel
  | fuel + 1, line, flags =>
    if line.length > 0 then do
      let (tok, line) ← ReadString line
      if tok = bytes "DCP" then readFlags fuel line (flags ||| Dcp)
      else if tok = bytes "4CH" then readFlags fuel line (flags ||| Four_ch)
      else if tok = bytes "PRE" then readFlags fuel line (flags ||| Pre)
      else if tok = bytes "SCMS" then readFlags fuel line (flags ||| Scms)
      else readFlags fuel line flags
    else pure flags

/-- The body of the `switch command` of `readTrack`, for a recognised command:
the new value of the track; `none` is the `default` case, `break L`. -/
def trackCommand (command line : List Nat) (track : Track) :
    Except Fault (Option Track) :=
  if command = bytes "FLAGS" then do
    let flags ← readFlags (line.length + 1) line None
    pure (some { track with Flags := flags })
  else if command = bytes "ISRC" then
    pure (some { track with Isrc := line })
  else if command = bytes "TITLE" then do
    let v ← unquote line
    pure (some { track with Title := v })
  else if command = bytes "PERFORMER" then do
    let v ← unquote line
    pure (some { track with Performer := v })
  else if command = bytes "SONGWRITER" then do
    let v ← unquote line
    pure (some { track with SongWriter := v })
  else if command = bytes "PREGAP" then do
    let (f, _) ← ReadFrame line
    pure (some { track with Pregap := f })
  else if command = bytes "POSTGAP" then do
    let (f, _) ← ReadFrame line
    pure (some { track with Postgap := f })
  else if command = bytes "INDEX" then do
    let (n, line) ← ReadUint line
    let (f, _) ← ReadFrame line
    pure (some { track with Index := track.Index ++ [⟨n, f⟩] })
  else pure none

/-- `readTrack(b, track)` over the stream of unread bytes: the track and the
bytes left unread.  In the branch of a line without the four spaces the
source runs `*b = before`; here the line is unread again, which is what the
restored reader holds when the line was read without a refill of the buffer.
`buffered.readTrack` below restores the saved positions over the buffer as it
is; on a text of at most 4096 bytes the two readings give the same result
(`buffered_ReadFile_short`), on a longer text they can differ. -/
def readTrack : Nat → List Nat → Track → Except Fault (Track × List Nat)
  | 0, _, _ => .error .outOfFuel
  | fuel + 1, b, track =>
    match bufioReadString b with
    | none => pure (track, b)
    | some (line, b') =>
      if !HasPrefix line (bytes "    ") then pure (track, b)
      else do
        let line := Trim line
        let (command, line) ← ReadString line
        match ← trackCommand command line track with
        | some track' => readTrack fuel b' track'
        | none => pure (track, b')

/-- `readTracks(b)` over the stream of unread bytes: the tracks and the bytes
left unread.  As in `readTrack`, the line without the two spaces is unread
again where the source runs `*b = before`; `buffered.readTracks` below
restores the saved positions over the buffer as it is. -/
def readTracks : Nat → List Nat → List Track → Except Fault (List Track × List Nat)
  | 0, _, _ => .error .outOfFuel
  | fuel + 1, b, tracks =>
    match bufioReadString b with
    | none => pure (tracks, b)
    | some (line, b') =>
      if !HasPrefix line (bytes "  ") then pure (tracks, b)
      else do
        let line := Trim line
        let (command, line) ← ReadString line
        if command = bytes "TRACK" then do
          let (n, line) ← ReadUint line
          let (dataType, _) ← ReadString line
          let track := { Track.zero with TrackNumber := n, TrackDataType := dataType }
          let (track, b'') ← readTrack (b'.length + 1) b' track
          readTracks fuel b'' (tracks ++ [track])
        else pure (tracks, b')

/-- The loop of `ReadFile` over the stream of unread bytes. -/
def readFileLoop : Nat → List Nat → Cuesheet → Except Fault Cuesheet
  | 0, _, _ => .error .outOfFuel
  | fuel + 1, b, cuesheet =>
    match bufioReadString b with
    | none => pure cuesheet
    | some (line, b') => do
      let line := Trim line
      let (command, line) ← ReadString line
      if command = bytes "REM" then
        readFileLoop fuel b' { cuesheet with Rem := cuesheet.Rem ++ [line] }
      else if command = bytes "CATALOG" then
        readFileLoop fuel b' { cuesheet with Catalog := line }
      else if command = bytes "CDTEXTFILE" then do
        let (v, _) ← ReadString line
        readFileLoop fuel b' { cuesheet with CdTextFile := v }
      else if command = bytes "TITLE" then do
        let (v, _) ← ReadString line
        readFileLoop fuel b' { cuesheet with Title := v }
      else if command = bytes "PERFORMER" then do
        let (v, _) ← ReadString line
        readFileLoop fuel b' { cuesheet with Performer := v }
      else if command = bytes "SONGWRITER" then do
        let (v, _) ← ReadString line
        readFileLoop fuel b' { cuesheet with SongWriter := v }
      else if command = bytes "PREGAP" then do
        let (f, _) ← ReadFrame line
        readFileLoop fuel b' { cuesheet with Pregap := f }
      else if command = bytes "POSTGAP" then do
        let (f, _) ← ReadFrame line
        readFileLoop fuel b' { cuesheet with Postgap := f }
      else if command = bytes "FILE" then do
        let (fname, line) ← ReadString line
        let (ftype, _) ← ReadString line
        let (tracks, b'') ← readTracks (b'.length + 1) b' []
        readFileLoop fuel b'' { cuesheet with File := cuesheet.File ++ [⟨fname, ftype, tracks⟩] }
      else readFileLoop fuel b' cuesheet

/-- `ReadFile(r)` on a stream holding the bytes `r`, over the stream of unread
bytes.  Every turn of a loop reads at least one byte, so `r.length + 1` turns
are never used up.  It is `buffered.ReadFile` on every text of at most 4096
bytes (`buffered_ReadFile_short`). -/
def ReadFile (r : List Nat) : Except Fault Cuesheet :=
  readFileLoop (r.length + 1) r Cuesheet.zero

/-- The `FLAGS` line of a track in `WriteFile`. -/
def writeFlags (flags : Nat) : List Nat :=
  if flags ≠ None then
    bytes "    FLAGS" ++
      (if flags &&& Dcp ≠ 0 then bytes " DCP" else []) ++
      (if flags &&& Four_ch ≠ 0 then bytes " 4CH" else []) ++
      (if flags &&& Pre ≠ 0 then bytes " PRE" else []) ++
      (if flags &&& Scms ≠ 0 then bytes " SCMS" else []) ++ eol
  else []

/-- The `INDEX` line of `WriteFile`. -/
def writeIndex (index : TrackIndex) : List Nat :=
  bytes "    INDEX " ++ FormatTrackNumber index.Number ++ bytes " " ++
    FormatFrame index.Frame ++ eol

/-- The body of the loop over `file.Tracks` in `WriteFile`. -/
def writeTrack (track : Track) : List Nat :=
  bytes "  TRACK " ++ FormatTrackNumber track.TrackNumber ++ bytes " " ++
    track.TrackDataType ++ eol ++
  writeFlags track.Flags ++
  (if track.Isrc.length > 0 then bytes "    ISRC " ++ track.Isrc ++ eol else []) ++
  (if track.Title.length > 0 then
    bytes "    TITLE " ++ FormatString track.Title ++ eol else []) ++
  (if track.Performer.length > 0 then
    bytes "    PERFORMER " ++ FormatString track.Performer ++ eol else []) ++
  (if track.SongWriter.length > 0 then
    bytes "    SONGWRITER " ++ FormatString track.SongWriter ++ eol else []) ++
  (if track.Pregap > 0 then bytes "    PREGAP " ++ FormatFrame track.Pregap ++ eol else []) ++
  (if track.Postgap > 0 then bytes "    POSTGAP " ++ FormatFrame track.Postgap ++ eol else []) ++
  (track.Index.map writeIndex).flatten

/-- The body of the loop over `cuesheet.File` in `WriteFile`. -/
def writeFile (file : File) : List Nat :=
  bytes "FILE " ++ FormatString file.FileName ++ bytes " " ++ file.FileType ++ eol ++
  (file.Tracks.map writeTrack).flatten

/-- `WriteFile(w, cuesheet)`: the bytes written to `w`; the function always
returns `nil`. -/
def WriteFile (cuesheet : Cuesheet) : List Nat :=
  (cuesheet.Rem.map (fun rem => bytes "REM " ++ rem ++ eol)).flatten ++
  (if cuesheet.Catalog.length > 0 then bytes "CATALOG " ++ cuesheet.Catalog ++ eol else []) ++
  (if cuesheet.CdTextFile.length > 0 then
    bytes "CDTEXTFILE " ++ FormatString cuesheet.CdTextFile ++ eol else []) ++
  (if cuesheet.Title.length > 0 then
    bytes "TITLE " ++ FormatString cuesheet.Title ++ eol else []) ++
  (if cuesheet.Performer.length > 0 then
    bytes "PERFORMER " ++ FormatString cuesheet.Performer ++ eol else []) ++
  (if cuesheet.SongWriter.length > 0 then
    bytes "SONGWRITER " ++ FormatString cuesheet.SongWriter ++ eol else []) ++
  (if cuesheet.Pregap > 0 then bytes "PREGAP " ++ FormatFrame cuesheet.Pregap ++ eol else []) ++
  (if cuesheet.Postgap > 0 then bytes "POSTGAP " ++ FormatFrame cuesheet.Postgap ++ eol else []) ++
  (cuesheet.File.map writeFile).flatten

deriving instance DecidableEq for Except

/-- The data of `TestCuesheet` in `cuesheet_test.go`. -/
def testSheet : Cuesheet :=
  { Rem := [bytes "GENRE \"Electronica\"", bytes "DATE \"2015\""],
    Catalog := bytes "1234567890123", CdTextFile := bytes "test.cdt",
    Title := bytes "Test Album Title", Performer := bytes "Test Album Performer",
    SongWriter := bytes "Test Album SongWriter", Pregap := 0, Postgap := 0,
    File := [⟨bytes "test.wav", bytes "WAVE",
      [⟨1, bytes "AUDIO", None, bytes "ABCDE1234567", bytes "Test Title", bytes "Test Performer",
         bytes "Test SongWriter", 0, 0, [⟨1, 0⟩]⟩,
       ⟨2, bytes "MODE1/2048", Dcp, bytes "ABCDE1234567", bytes "Test Title", bytes "Test Performer",
         bytes "Test SongWriter", 0, 0, [⟨1, 2715⟩]⟩]⟩] }

/-- A sheet with one file and one track whose title has no whitespace. -/
def plainTitleSheet : Cuesheet :=
  { Cuesheet.zero with
    File := [⟨bytes "a.wav", bytes "WAVE",
      [{ Track.zero with TrackNumber := 1, TrackDataType := bytes "AUDIO",
                         Title := bytes "abc" }]⟩] }

/-- The `Flags` value with the given flags set: a combination of `Dcp`,
`Four_ch`, `Pre` and `Scms`. -/
def flagsOf (d f p s : Bool) : Nat :=
  (if d then Dcp else 0) ||| (if f then Four_ch else 0) |||
    (if p then Pre else 0) ||| (if s then Scms else 0)

/-- The five lines of the end-to-end example. -/
def exampleText : List Nat :=
  bytes "REM DATE 2015\n" ++ bytes "TITLE \"Test Album\"\n" ++
    bytes "FILE \"test.wav\" WAVE\n" ++ bytes "  TRACK 01 AUDIO\n" ++
    bytes "    INDEX 01 00:00:00\n"

/-- A text made of whole lines: it is empty or ends with a newline. -/
def Complete (b : List Nat) : Prop := b = [] ∨ ∃ b0, b = b0 ++ [10]

/-- The text of a sequence of lines, each ended by a newline. -/
def linesText (ls : List (List Nat)) : List Nat := (ls.map (fun l => l ++ [10])).flatten

/-- The line `l` has no command `FILE`: whatever first field `ReadString` reads
from the trimmed line, it is not `FILE`. -/
def NoFileCommand (l : List Nat) : Prop :=
  ∀ command rest, ReadString (Trim l) = .ok (command, rest) → command ≠ bytes "FILE"

/-- The commands of the disc level. -/
def discCommands : List (List Nat) :=
  [bytes "REM", bytes "CATALOG", bytes "CDTEXTFILE", bytes "TITLE", bytes "PERFORMER",
   bytes "SONGWRITER", bytes "PREGAP", bytes "POSTGAP", bytes "FILE"]

/-- The commands of the track level. -/
def trackCommands : List (List Nat) :=
  [bytes "FLAGS", bytes "ISRC", bytes "TITLE", bytes "PERFORMER", bytes "SONGWRITER",
   bytes "PREGAP", bytes "POSTGAP", bytes "INDEX"]

/-- The first field of a text that starts with neither a delimiter nor a
quote: the bytes before its first space. -/
def firstField (s : List Nat) : List Nat := s.take (indexByte 32 s)

/-- The bit of a token of a `FLAGS` line: the `switch` in the loop of the
`FLAGS` case of `readTrack`. -/
def flagBit (tok : List Nat) : Nat :=
  if tok = bytes "DCP" then Dcp
  else if tok = bytes "4CH" then Four_ch
  else if tok = bytes "PRE" then Pre
  else if tok = bytes "SCMS" then Scms
  else 0

/-- A token: not empty, free of delimiters, and not starting with a quote. -/
def Token (s : List Nat) : Prop :=
  s ≠ [] ∧ (∀ c ∈ s, isDelim c = false) ∧ s.head? ≠ some 34 ∧ s.head? ≠ some 39

/-- A text with no line feed and no leading or trailing delimiter. -/
def RawText (s : List Nat) : Prop := 10 ∉ s ∧ TrimLeft s = s ∧ TrimRight s = s

/-- A text with no line feed that is either free of delimiters and not
starting with a quote, or holds a delimiter and no double quote or backslash. -/
def Field (s : List Nat) : Prop :=
  10 ∉ s ∧
    (((∀ c ∈ s, isDelim c = false) ∧ s.head? ≠ some 34 ∧ s.head? ≠ some 39) ∨
     (ContainsAny s = true ∧ 34 ∉ s ∧ 92 ∉ s))

/-- A text that is empty, or holds a space, tab or carriage return and no line
feed, double quote or backslash. -/
def TrackText (s : List Nat) : Prop :=
  s = [] ∨ ((32 ∈ s ∨ 9 ∈ s ∨ 13 ∈ s) ∧ 10 ∉ s ∧ 34 ∉ s ∧ 92 ∉ s)

/-- The conditions of the round trip on one track: the number is at most 99,
the data type is a token, the flags are a combination of the four flags, the
ISRC is a raw text, the title, performer and songwriter are empty or quoted,
the frames are below 450000 and the numbers of the indexes at most 99. -/
def RepresentableTrack (t : Track) : Prop :=
  t.TrackNumber ≤ 99 ∧ Token t.TrackDataType ∧ (∃ d f p s, t.Flags = flagsOf d f p s) ∧
  RawText t.Isrc ∧ TrackText t.Title ∧ TrackText t.Performer ∧ TrackText t.SongWriter ∧
  t.Pregap < 450000 ∧ t.Postgap < 450000 ∧
  ∀ i ∈ t.Index, i.Number ≤ 99 ∧ i.Frame < 450000

/-- The conditions of the round trip on one file: the name is a field that is
not empty, the type is a token, and the tracks meet their conditions. -/
def RepresentableFile (file : File) : Prop :=
  Field file.FileName ∧ file.FileName ≠ [] ∧ Token file.FileType ∧
  ∀ t ∈ file.Tracks, RepresentableTrack t

/-- The sheets of the round trip: the `Rem` entries and the catalog are raw
texts, the other texts of the disc are fields, the frames are below 450000,
and the files meet their conditions. -/
def Representable (D : Cuesheet) : Prop :=
  (∀ r ∈ D.Rem, RawText r) ∧ RawText D.Catalog ∧
  Field D.CdTextFile ∧ Field D.Title ∧ Field D.Performer ∧ Field D.SongWriter ∧
  D.Pregap < 450000 ∧ D.Postgap < 450000 ∧
  ∀ file ∈ D.File, RepresentableFile file

/-- The attribute lines of a track, by their content. -/
inductive Attr where
  | flags (tokens : List (List Nat))
  | isrc (text : List Nat)
  | title (s : List Nat)
  | performer (s : List Nat)
  | songWriter (s : List Nat)
  | pregap (frame : Nat)
  | postgap (frame : Nat)
  | index (number frame : Nat)

/-- The text of an attribute line after its indentation: the command and its
fields, the tokens of `FLAGS` each after one space, the texts of `TITLE`,
`PERFORMER` and `SONGWRITER` between double quotes. -/
def Attr.body : Attr → List Nat
  | .flags tokens => bytes "FLAGS" ++ (tokens.map (fun t => 32 :: t)).flatten
  | .isrc text => bytes "ISRC " ++ text
  | .title s => bytes "TITLE " ++ 34 :: s ++ [34]
  | .performer s => bytes "PERFORMER " ++ 34 :: s ++ [34]
  | .songWriter s => bytes "SONGWRITER " ++ 34 :: s ++ [34]
  | .pregap frame => bytes "PREGAP " ++ FormatFrame frame
  | .postgap frame => bytes "POSTGAP " ++ FormatFrame frame
  | .index number frame =>
    bytes "INDEX " ++ FormatTrackNumber number ++ 32 :: FormatFrame frame

/-- An attribute line, indented by four spaces, without its newline. -/
def Attr.line (a : Attr) : List Nat := bytes "    " ++ a.body

/-- The well-formed attribute lines: the tokens of `FLAGS` are tokens, the
text of `ISRC` is not empty and has no line feed and no trailing delimiter,
the quoted texts have no line feed, double quote or backslash, the numbers
are below 100 and the frames below 450000. -/
def Attr.WF : Attr → Prop
  | .flags tokens => ∀ t ∈ tokens, Token t
  | .isrc text => text ≠ [] ∧ 10 ∉ text ∧ TrimRight text = text
  | .title s => 10 ∉ s ∧ 34 ∉ s ∧ 92 ∉ s
  | .performer s => 10 ∉ s ∧ 34 ∉ s ∧ 92 ∉ s
  | .songWriter s => 10 ∉ s ∧ 34 ∉ s ∧ 92 ∉ s
  | .pregap frame => frame < 450000
  | .postgap frame => frame < 450000
  | .index number frame => number < 100 ∧ frame < 450000

/-- The attribute that a well-formed attribute line gives to a track. -/
def Attr.apply (a : Attr) (track : Track) : Track :=
  match a with
  | .flags tokens =>
    { track with Flags := flagsOf (decide (bytes "DCP" ∈ tokens)) (decide (bytes "4CH" ∈ tokens))
                            (decide (bytes "PRE" ∈ tokens)) (decide (bytes "SCMS" ∈ tokens)) }
  | .isrc text => { track with Isrc := text }
  | .title s => { track with Title := s }
  | .performer s => { track with Performer := s }
  | .songWriter s => { track with SongWriter := s }
  | .pregap frame => { track with Pregap := frame }
  | .postgap frame => { track with Postgap := frame }
  | .index number frame => { track with Index := track.Index ++ [⟨number, frame⟩] }

/-- What a well-formed attribute line does to the sheet when the loop of the
disc level reads it: `TITLE`, `PERFORMER`, `SONGWRITER`, `PREGAP` and `POSTGAP`
are commands of the disc level too, the others are unknown there. -/
def Attr.applyDisc (a : Attr) (cuesheet : Cuesheet) : Cuesheet :=
  match a with
  | .title s => { cuesheet with Title := s }
  | .performer s => { cuesheet with Performer := s }
  | .songWriter s => { cuesheet with SongWriter := s }
  | .pregap frame => { cuesheet with Pregap := frame }
  | .postgap frame => { cuesheet with Postgap := frame }
  | _ => cuesheet

/-- The tokens that `WriteFile` writes on the `FLAGS` line of a track. -/
def flagTokens (flags : Nat) : List (List Nat) :=
  (if flags &&& Dcp ≠ 0 then [bytes "DCP"] else []) ++
    (if flags &&& Four_ch ≠ 0 then [bytes "4CH"] else []) ++
    (if flags &&& Pre ≠ 0 then [bytes "PRE"] else []) ++
    (if flags &&& Scms ≠ 0 then [bytes "SCMS"] else [])

/-- The attribute lines that `WriteFile` writes for a track, in their order. -/
def trackAttrs (t : Track) : List Attr :=
  (if t.Flags ≠ None then [Attr.flags (flagTokens t.Flags)] else []) ++
  (if t.Isrc.length > 0 then [Attr.isrc t.Isrc] else []) ++
  (if t.Title.length > 0 then [Attr.title t.Title] else []) ++
  (if t.Performer.length > 0 then [Attr.performer t.Performer] else []) ++
  (if t.SongWriter.length > 0 then [Attr.songWriter t.SongWriter] else []) ++
  (if t.Pregap > 0 then [Attr.pregap t.Pregap] else []) ++
  (if t.Postgap > 0 then [Attr.postgap t.Postgap] else []) ++
  t.Index.map (fun i => Attr.index i.Number i.Frame)

/-! ## The reader over the buffer of `bufio`

`ReadFile` reads its lines through a `bufio.Reader` and pushes a line back by
saving and restoring the reader (`before := *b` ... `*b = before`).  The copy
holds the indices `r` and `w` and the pending error, but it shares the byte
array of the buffer and the underlying reader with `*b`.  The definitions of
this section model the buffer itself, so that the restored reader is exactly
what the source leaves: the saved indices over the array as it is now.  The
definitions `readTrack`, `readTracks` and `ReadFile` above are the reading of
the same loops over the stream of unread bytes; the two agree as long as no
line that is pushed back was read across a refill of the buffer. -/

namespace bufio

/-- `defaultBufSize`, the size of the buffer of `bufio.NewReader`. -/
def defaultBufSize : Nat := 4096

/-- The fields of `bufio.Reader` that `ReadString` uses: the byte array
`buf`, the read and write positions `r` and `w`, and `err`, which is `true`
when `io.EOF` is pending (the underlying reader reports no other error).
`rd` is the underlying reader: the bytes it has not delivered yet. -/
structure Reader where
  buf : List Nat
  rd : List Nat
  r : Nat
  w : Nat
  err : Bool
  deriving DecidableEq, Repr

/-- `bufio.NewReader(rd)` for a reader `rd` that holds the given bytes: a
zeroed array of `defaultBufSize` bytes, nothing buffered. -/
def NewReader (rd : List Nat) : Reader :=
  ⟨List.replicate defaultBufSize 0, rd, 0, 0, false⟩

/-- `b.Buffered()`: `b.w - b.r`. -/
def Reader.Buffered (b : Reader) : Nat := b.w - b.r

/-- The bytes `b.buf[b.r:b.w]`. -/
def Reader.window (b : Reader) : List Nat := (b.buf.drop b.r).take (b.w - b.r)

/-- The first part of `fill`: `if b.r > 0 { copy(b.buf, b.buf[b.r:b.w]);
b.w -= b.r; b.r = 0 }`.  The bytes of the array past the copy stay as they
were. -/
def Reader.slide (b : Reader) : Reader :=
  if b.r > 0 then
    { b with buf := b.window ++ b.buf.drop (b.w - b.r), w := b.w - b.r, r := 0 }
  else b

/-- The second part of `fill`: `n, err := b.rd.Read(b.buf[b.w:])`, for an
underlying reader such as `strings.Reader`, `bytes.Buffer` or a regular file:
it copies as many of its bytes as fit and returns `n > 0` without error, or
it has no byte left and returns `0, io.EOF`.  So the loop of `fill` over empty
reads ends at its first turn.  `ReadSlice` calls `fill` only when the buffer
is not full, so there is room for at least one byte. -/
def Reader.read (b : Reader) : Reader :=
  if b.rd.length = 0 then { b with err := true }
  else
    let n := min b.rd.length (b.buf.length - b.w)
    { b with buf := b.buf.take b.w ++ b.rd.take n ++ b.buf.drop (b.w + n),
             rd := b.rd.drop n, w := b.w + n }

/-- `b.fill()`. -/
def Reader.fill (b : Reader) : Reader := b.slide.read

/-- The error values that `ReadSlice` returns. -/
inductive Err where
  | nil
  | EOF
  | ErrBufferFull
  deriving DecidableEq, Repr

/-- `b.ReadSlice('\n')`, with the search start `s` of its loop as an
argument: the slice, the error and the reader.  Every turn but the last calls
`fill`, which takes bytes from `rd` or sets `err`. -/
def Reader.ReadSlice : Nat → Nat → Reader → Except Fault (List Nat × Err × Reader)
  | 0, _, _ => .error .outOfFuel
  | fuel + 1, s, b =>
    let i := indexByte 10 ((b.buf.drop (b.r + s)).take (b.w - (b.r + s)))
    if i < b.w - (b.r + s) then
      pure ((b.buf.drop b.r).take (i + s + 1), Err.nil, { b with r := b.r + (i + s) + 1 })
    else if b.err then
      pure (b.window, Err.EOF, { b with r := b.w, err := false })
    else if b.Buffered ≥ b.buf.length then
      pure (b.buf, Err.ErrBufferFull, { b with r := b.w })
    else Reader.ReadSlice fuel (b.w - b.r) b.fill

/-- `b.collectFragments('\n')` with the fragments joined, as `ReadString`
joins them: the bytes read, whether the error is `io.EOF`, and the reader. -/
def Reader.collectFragments : Nat → List Nat → Reader →
    Except Fault (List Nat × Bool × Reader)
  | 0, _, _ => .error .outOfFuel
  | fuel + 1, full, b => do
    let (frag, e, b) ← b.ReadSlice (b.rd.length + 3) 0
    if e = Err.nil then pure (full ++ frag, false, b)
    else if e ≠ Err.ErrBufferFull then pure (full ++ frag, true, b)
    else Reader.collectFragments fuel (full ++ frag) b

/-- `b.ReadString('\n')`: the line, whether `err == io.EOF`, and the reader.
Every turn of `collectFragments` but the first two takes a whole buffer from
`rd`. -/
def Reader.ReadString (b : Reader) : Except Fault (List Nat × Bool × Reader) :=
  Reader.collectFragments (b.rd.length + 3) [] b

/-- `*b = before`, where `before := *b` was taken earlier: the positions and
the pending error go back to the saved ones; the array of the buffer and the
underlying reader are shared with the copy and stay as they are now. -/
def Reader.assign (b before : Reader) : Reader :=
  { b with r := before.r, w := before.w, err := before.err }

/-- The number of bytes that the reader can still return. -/
def Reader.size (b : Reader) : Nat := b.Buffered + b.rd.length

/-- The conditions under which `ReadString` is called: the positions are in
order and inside the array, the array is not empty, no error is pending. -/
def Reader.WF (b : Reader) : Prop :=
  b.r ≤ b.w ∧ b.w ≤ b.buf.length ∧ 0 < b.buf.length ∧ b.err = false

/-- The reader `b` over the stream of `b` followed by the bytes `t`. -/
def Reader.ext (b : Reader) (t : List Nat) : Reader := { b with rd := b.rd ++ t }

/-- The reader `b2` is the reader `b1` with the bytes `t`, which hold no
newline, after the last byte of its stream: either the two readers differ
in that only, or `b1` has taken all the bytes of its underlying reader and
the two windows differ after a common part in bytes without newline. -/
def Extends (t : List Nat) (b1 b2 : Reader) : Prop :=
  b1.WF ∧ b2.WF ∧
    (b2 = b1.ext t ∨
      (b1.rd = [] ∧ 10 ∉ b2.rd ∧ ∃ U Y1 Y2, b1.window = U ++ Y1 ∧ b2.window = U ++ Y2 ∧
        10 ∉ Y1 ∧ 10 ∉ Y2))

/-- The reader `b` has taken all the bytes of its underlying reader and its
window holds the stream `s` of unread bytes, or both hold no newline, so that
both are at the end of the lines. -/
def Sim (b : Reader) (s : List Nat) : Prop :=
  b.WF ∧ b.rd = [] ∧ (b.window = s ∨ (10 ∉ b.window ∧ 10 ∉ s))

/-- The reader `b` is as `Sim` says, or it has nothing buffered and the
stream `s` is in its underlying reader and fits into the array. -/
def Sim0 (b : Reader) (s : List Nat) : Prop :=
  Sim b s ∨ (b.WF ∧ b.r = b.w ∧ b.rd = s ∧ s.length ≤ b.buf.length)

end bufio

namespace buffered

/-- `readTrack(b, track)` over the buffer: the track and the reader. -/
def readTrack : Nat → bufio.Reader → Track → Except Fault (Track × bufio.Reader)
  | 0, _, _ => .error .outOfFuel
  | fuel + 1, b, track => do
    let before := b
    let (line, eof, b) ← b.ReadString
    if eof then pure (track, b)
    else if !HasPrefix line (bytes "    ") then pure (track, b.assign before)
    else
      let line := Trim line
      let (command, line) ← ReadString line
      match ← trackCommand command line track with
      | some track' => readTrack fuel b track'
      | none => pure (track, b)

/-- `readTracks(b)` over the buffer: the tracks and the reader. -/
def readTracks : Nat → bufio.Reader → List Track →
    Except Fault (List Track × bufio.Reader)
  | 0, _, _ => .error .outOfFuel
  | fuel + 1, b, tracks => do
    let before := b
    let (line, eof, b) ← b.ReadString
    if eof then pure (tracks, b)
    else if !HasPrefix line (bytes "  ") then pure (tracks, b.assign before)
    else
      let line := Trim line
      let (command, line) ← ReadString line
      if command = bytes "TRACK" then do
        let (n, line) ← ReadUint line
        let (dataType, _) ← ReadString line
        let track := { Track.zero with TrackNumber := n, TrackDataType := dataType }
        let (track, b) ← readTrack (b.size + 1) b track
        readTracks fuel b (tracks ++ [track])
      else pure (tracks, b)

/-- The loop of `ReadFile` over the buffer. -/
def readFileLoop : Nat → bufio.Reader → Cuesheet → Except Fault Cuesheet
  | 0, _, _ => .error .outOfFuel
  | fuel + 1, b, cuesheet => do
    let (line, eof, b) ← b.ReadString
    if eof then pure cuesheet
    else
      let line := Trim line
      let (command, line) ← ReadString line
      if command = bytes "REM" then
        readFileLoop fuel b { cuesheet with Rem := cuesheet.Rem ++ [line] }
      else if command = bytes "CATALOG" then
        readFileLoop fuel b { cuesheet with Catalog := line }
      else if command = bytes "CDTEXTFILE" then do
        let (v, _) ← ReadString line
        readFileLoop fuel b { cuesheet with CdTextFile := v }
      else if command = bytes "TITLE" then do
        let (v, _) ← ReadString line
        readFileLoop fuel b { cuesheet with Title := v }
      else if command = bytes "PERFORMER" then do
        let (v, _) ← ReadString line
        readFileLoop fuel b { cuesheet with Performer := v }
      else if command = bytes "SONGWRITER" then do
        let (v, _) ← ReadString line
        readFileLoop fuel b { cuesheet with SongWriter := v }
      else if command = bytes "PREGAP" then do
        let (f, _) ← ReadFrame line
        readFileLoop fuel b { cuesheet with Pregap := f }
      else if command = bytes "POSTGAP" then do
        let (f, _) ← ReadFrame line
        readFileLoop fuel b { cuesheet with Postgap := f }
      else if command = bytes "FILE" then do
        let (fname, line) ← ReadString line
        let (ftype, _) ← ReadString line
        let (tracks, b) ← readTracks (b.size + 1) b []
        readFileLoop fuel b
          { cuesheet with File := cuesheet.File ++ [⟨fname, ftype, tracks⟩] }
      else readFileLoop fuel b cuesheet

/-- `ReadFile(r)` for a reader `r` that holds the given bytes, read through
`bufio.NewReader(r)`.  Every turn of a loop takes at least one byte from the
reader, so `r.length + 1` turns are never used up. -/
def ReadFile (r : List Nat) : Except Fault Cuesheet :=
  readFileLoop (r.length + 1) (bufio.NewReader r) Cuesheet.zero

end buffered

/-- Two evaluations agree: both fail with the same panic, or both return and
what they return is related by `P`. -/
def Agree {α β : Type} (P : α → β → Prop) (x : Except Fault α) (y : Except Fault β) :
    Prop :=
  (∃ e, e ≠ Fault.outOfFuel ∧ x = .error e ∧ y = .error e) ∨
    (∃ a b, x = .ok a ∧ y = .ok b ∧ P a b)

/-- A file with one audio track. -/
def oneFile : File :=
  ⟨bytes "a", bytes "WAVE",
    [{ Track.zero with TrackNumber := 1, TrackDataType := bytes "AUDIO" }]⟩

/-- A sheet with one comment of `k` letters `x` and two files of one track. -/
def paddedSheet (k : Nat) : Cuesheet :=
  { Cuesheet.zero with Rem := [List.replicate k 120], File := [oneFile, oneFile] }

/-- The lines of `WriteFile (paddedSheet k)`. -/
def paddedLines (k : Nat) : List (List Nat) :=
  [bytes "REM " ++ List.replicate k 120, bytes "FILE a WAVE", bytes "  TRACK 01 AUDIO",
   bytes "FILE a WAVE", bytes "  TRACK 01 AUDIO"]

/-- A line with a command that the disc level does not know. -/
def unknownLine : List Nat := bytes "BOGUS 0123456789012345678901"

/-! ## Evaluations of the reader and the writer -/

set_option maxRecDepth 100000

/-- C10: `ReadFile` on the five lines of the end-to-end example returns, without
error, the sheet with `Rem = ["DATE 2015"]`, `Title = "Test Album"`, one file
`test.wav` of type `WAVE` with one track 1 `AUDIO` with one index `{1, 0}`, and
every other field empty or zero. -/
theorem ReadFile_example :
    ReadFile (bytes "REM DATE 2015\n" ++ bytes "TITLE \"Test Album\"\n" ++
        bytes "FILE \"test.wav\" WAVE\n" ++ bytes "  TRACK 01 AUDIO\n" ++
        bytes "    INDEX 01 00:00:00\n") =
      .ok { Rem := [bytes "DATE 2015"], Catalog := [], CdTextFile := [],
            Title := bytes "Test Album", Performer := [], SongWriter := [],
            Pregap := 0, Postgap := 0,
            File := [{ FileName := bytes "test.wav", FileType := bytes "WAVE",
                       Tracks := [{ TrackNumber := 1, TrackDataType := bytes "AUDIO",
                                    Flags := None, Isrc := [], Title := [], Performer := [],
                                    SongWriter := [], Pregap := 0, Postgap := 0,
                                    Index := [{ Number := 1, Frame := 0 }] }] }] } := by
  decide

/-- The round trip of `TestCuesheet`: the sheet of the test is read back as it
was written. -/
theorem TestCuesheet_roundtrip : ReadFile (WriteFile testSheet) = .ok testSheet := by
  decide

/-- C3: a blank line, a bare `TITLE` and a field whose quote is not closed each
make `ReadFile` panic instead of returning a sheet. -/
theorem ReadFile_malformed_panics :
    ReadFile (bytes "\n") = .error .indexOutOfRange ∧
    ReadFile (bytes "TITLE\n") = .error .indexOutOfRange ∧
    ReadFile (bytes "TITLE \"abc\n") = .error .sliceBounds := by
  decide

/-- C4: after a `FILE` line and a `  TRACK 01 AUDIO` line, the lines
`    TITLE abc`, `    PERFORMER abc` and `    SONGWRITER abc` store `bc`, the
token without its first byte, in the three fields of the track. -/
theorem readTrack_unquoted_token :
    ReadFile (bytes "FILE \"a.wav\" WAVE\n" ++ bytes "  TRACK 01 AUDIO\n" ++
        bytes "    TITLE abc\n" ++ bytes "    PERFORMER abc\n" ++
        bytes "    SONGWRITER abc\n") =
      .ok { Cuesheet.zero with
            File := [⟨bytes "a.wav", bytes "WAVE",
              [{ Track.zero with TrackNumber := 1, TrackDataType := bytes "AUDIO",
                                 Title := bytes "bc", Performer := bytes "bc",
                                 SongWriter := bytes "bc" }]⟩] } := by
  decide

/-- C1: the sheet with one file `a.wav` and one track 1 `AUDIO` titled `abc`
is written with the line `    TITLE abc` and read back with the title `bc`:
the round trip does not return the sheet written. -/
theorem roundtrip_plain_title :
    WriteFile plainTitleSheet =
      bytes "FILE a.wav WAVE\n" ++ bytes "  TRACK 01 AUDIO\n" ++ bytes "    TITLE abc\n" ∧
    ReadFile (WriteFile plainTitleSheet) =
      .ok { Cuesheet.zero with
            File := [⟨bytes "a.wav", bytes "WAVE",
              [{ Track.zero with TrackNumber := 1, TrackDataType := bytes "AUDIO",
                                 Title := bytes "bc" }]⟩] } ∧
    ReadFile (WriteFile plainTitleSheet) ≠ .ok plainTitleSheet := by
  decide

/-- C6: `FormatString` writes `a"b c` as `"a\"b c"`, and `ReadString` reads
that back as `a\"b c`, with the backslash still in it. -/
theorem ReadString_keeps_escapes :
    FormatString (bytes "a\"b c") = bytes "\"a\\\"b c\"" ∧
    ReadString (FormatString (bytes "a\"b c")) = .ok (bytes "a\\\"b c", []) ∧
    ReadString (FormatString (bytes "a\"b c")) ≠ .ok (bytes "a\"b c", []) := by
  decide

/-- C2, counterexample: the frame 450000 (100 minutes) is formatted as
`00:00:00` and read back as 0. -/
theorem ReadFrame_FormatFrame_450000 :
    FormatFrame 450000 = bytes "00:00:00" ∧
    ReadFrame (FormatFrame 450000) = .ok (0, []) ∧
    ReadFrame (FormatFrame 450000) ≠ .ok (450000, []) := by
  decide

/-- C7, counterexample: the decimal representation of 100 is `100`, and
`FormatTrackNumber 100` is `00`. -/
theorem FormatTrackNumber_100 :
    FormatUint 100 = bytes "100" ∧ FormatTrackNumber 100 = bytes "00" ∧
    FormatTrackNumber 100 ≠ FormatUint 100 := by
  decide

/-! ## Decimal numbers of two digits -/

theorem formatBits_acc (fuel n : Nat) (acc : List Nat) :
    formatBits fuel n acc = formatBits fuel n [] ++ acc := by
  induction fuel generalizing n acc with
  | zero => simp [formatBits]
  | succ fuel ih =>
    simp only [formatBits]
    split
    · simp
    · rw [ih, ih (n / 10) [48 + n % 10]]
      simp

/-- The last two bytes of a decimal representation. -/
theorem formatBits_low (fuel n : Nat) (h : 10 ≤ n) :
    ∃ front, formatBits (fuel + 2) n [] = front ++ [48 + n / 10 % 10, 48 + n % 10] := by
  have h1 : ¬ n < 10 := by omega
  simp only [formatBits, h1, if_false]
  split
  · exact ⟨[], by congr 2; omega⟩
  · rw [formatBits_acc]
    exact ⟨_, rfl⟩

theorem leftPad_two (s : List Nat) :
    leftPad s [48] 2 = ([48, 48] ++ s).drop s.length := by
  simp [leftPad, List.replicate]

theorem leftPad_FormatUint (n : Nat) :
    leftPad (FormatUint n) [48] 2 = [48 + n / 10 % 10, 48 + n % 10] := by
  rw [leftPad_two]
  by_cases h : n < 10
  · have h0 : n / 10 % 10 = 0 := by omega
    have h1 : n % 10 = n := by omega
    simp [FormatUint, formatBits, h, h0, h1]
  · obtain ⟨k, rfl⟩ : ∃ k, n = k + 1 := ⟨n - 1, by omega⟩
    obtain ⟨front, hf⟩ := formatBits_low k (k + 1) (by omega)
    rw [FormatUint, hf]
    simp

/-- A byte that is a decimal digit is no delimiter. -/
theorem isDelim_digit (d : Nat) (h : 48 ≤ d) : isDelim d = false := by
  have h1 : d ≠ 9 := by omega
  have h2 : d ≠ 10 := by omega
  have h3 : d ≠ 13 := by omega
  have h4 : d ≠ 32 := by omega
  simp [isDelim, h1, h2, h3, h4]

/-- `ParseUint` on two decimal digits. -/
theorem ParseUint_two (x y : Nat) (hx : x < 10) (hy : y < 10) :
    ParseUint [48 + x, 48 + y] = (x * 10 + y, true) := by
  have h1 : 48 + x ≤ 57 := by omega
  have h2 : 48 + y ≤ 57 := by omega
  have h3 : ¬ 4294967295 < x * 10 + y := by omega
  have h4 : ¬ 4294967295 < x := by omega
  simp [ParseUint, parseDigits, h1, h2, h3, h4]

/-! ## Fields without quotes -/

/-- No byte `c` in `s`: the search runs to the end. -/
theorem indexByte_not_mem (c : Nat) (s : List Nat) (h : c ∉ s) :
    indexByte c s = s.length := by
  induction s with
  | nil => rfl
  | cons x xs ih =>
    have hx : x ≠ c := fun e => h (by simp [e])
    have hxs : c ∉ xs := fun e => h (by simp [e])
    simp [indexByte, hx, ih hxs]

/-- A field that starts with neither a delimiter nor a quote and holds no
space is read whole, and the cursor is left empty. -/
theorem ReadString_token (c : Nat) (s : List Nat) (hd : isDelim c = false)
    (hq : c ≠ 34 ∧ c ≠ 39) (hs : 32 ∉ c :: s) :
    ReadString (c :: s) = .ok (c :: s, []) := by
  have hi := indexByte_not_mem 32 (c :: s) hs
  simp only [ReadString, TrimLeft, List.dropWhile, hd, isQuoted, hi]
  simp [hq.1, hq.2, bind, Except.bind, pure, Except.pure]

/-! ## The frame codec -/

/-- The text of a frame: two digits for each of the three parts. -/
theorem FormatFrame_digits (f : Nat) :
    FormatFrame f =
      [48 + f / 75 / 60 / 10 % 10, 48 + f / 75 / 60 % 10, 58,
       48 + f / 75 % 60 / 10 % 10, 48 + f / 75 % 60 % 10, 58,
       48 + f % 75 / 10 % 10, 48 + f % 75 % 10] := by
  simp [FormatFrame, leftPad_FormatUint, framesPerSecond]

/-- `ReadFrame` on a text `MM:SS:FF` of six decimal digits. -/
theorem ReadFrame_digits (a b c d e g : Nat) (ha : a < 10) (hb : b < 10) (hc : c < 10)
    (hd : d < 10) (he : e < 10) (hg : g < 10) :
    ReadFrame [48 + a, 48 + b, 58, 48 + c, 48 + d, 58, 48 + e, 48 + g] =
      .ok (((a * 10 + b) * 60 + (c * 10 + d)) * 75 + (e * 10 + g), []) := by
  have hs : (32 : Nat) ∉ [48 + a, 48 + b, 58, 48 + c, 48 + d, 58, 48 + e, 48 + g] := by
    simp only [List.mem_cons, List.mem_nil_iff, or_false, not_or]
    omega
  have h1 : 48 + a ≠ 58 := by omega
  have h2 : 48 + b ≠ 58 := by omega
  have h3 : 48 + c ≠ 58 := by omega
  have h4 : 48 + d ≠ 58 := by omega
  have h5 : 48 + e ≠ 58 := by omega
  have h6 : 48 + g ≠ 58 := by omega
  have hsplit : Split 58 [48 + a, 48 + b, 58, 48 + c, 48 + d, 58, 48 + e, 48 + g] =
      [[48 + a, 48 + b], [48 + c, 48 + d], [48 + e, 48 + g]] := by
    simp [Split, h1, h2, h3, h4, h5, h6]
  have hlt : ((a * 10 + b) * 60 + (c * 10 + d)) * 75 + (e * 10 + g) < 2 ^ 64 := by
    norm_num
    omega
  rw [ReadFrame, ReadString_token _ _ (isDelim_digit _ (by omega)) (by omega) hs]
  simp only [bind, Except.bind, hsplit, ParseUint_two, ha, hb, hc, hd, he, hg, pure,
    Except.pure, framesPerSecond, Nat.mod_eq_of_lt hlt]

/-- Reading a formatted frame keeps the frame modulo 100 minutes. -/
theorem ReadFrame_FormatFrame_mod (f : Nat) :
    ReadFrame (FormatFrame f) = .ok (f % 450000, []) := by
  rw [FormatFrame_digits, ReadFrame_digits _ _ _ _ _ _ (Nat.mod_lt _ (by decide))
    (Nat.mod_lt _ (by decide)) (Nat.mod_lt _ (by decide)) (Nat.mod_lt _ (by decide))
    (Nat.mod_lt _ (by decide)) (Nat.mod_lt _ (by decide))]
  have e1 : ∀ n : Nat, n / 10 % 10 * 10 + n % 10 = n % 100 := fun n => by omega
  rw [e1, e1, e1]
  congr 2
  omega

/-- C2, amended: for every frame below 450000 (100 minutes), `ReadFrame` on
the text `FormatFrame f` returns `f` and leaves the cursor empty. -/
theorem ReadFrame_FormatFrame_below (f : Nat) (h : f < 450000) :
    ReadFrame (FormatFrame f) = .ok (f, []) := by
  rw [ReadFrame_FormatFrame_mod, Nat.mod_eq_of_lt h]

/-- C2, witness: the frame 2715 of the test data. -/
theorem ReadFrame_FormatFrame_below_witness :
    (2715 : Nat) < 450000 ∧ ReadFrame (FormatFrame 2715) = .ok (2715, []) :=
  ⟨by decide, ReadFrame_FormatFrame_below 2715 (by decide)⟩

/-- C7, amended: for every `n`, `FormatTrackNumber n` is the two low decimal
digits of `n`: `0` and the digit when `n < 10`, the decimal representation of
`n` itself when `10 ≤ n < 100`. -/
theorem FormatTrackNumber_two_digits (n : Nat) :
    FormatTrackNumber n = [48 + n / 10 % 10, 48 + n % 10] ∧
    (n < 10 → FormatTrackNumber n = [48, 48 + n]) ∧
    (10 ≤ n → n < 100 → FormatTrackNumber n = FormatUint n) := by
  have key := leftPad_FormatUint n
  refine ⟨key, fun h => ?_, fun h1 h2 => ?_⟩
  · have h0 : n / 10 % 10 = 0 := by omega
    have h1 : n % 10 = n := by omega
    rw [FormatTrackNumber, key, h0, h1]
  · obtain ⟨k, rfl⟩ : ∃ k, n = k + 1 := ⟨n - 1, by omega⟩
    have h3 : ¬ k + 1 < 10 := by omega
    have h4 : (k + 1) / 10 < 10 := by omega
    have h5 : (k + 1) / 10 % 10 = (k + 1) / 10 := by omega
    rw [FormatTrackNumber, key, h5]
    obtain ⟨j, rfl⟩ : ∃ j, k = j + 1 := ⟨k - 1, by omega⟩
    simp [FormatUint, formatBits, h3, h4]

/-- C7, witness: the numbers 7 and 42. -/
theorem FormatTrackNumber_two_digits_witness :
    FormatTrackNumber 7 = [48, 48 + 7] ∧ FormatTrackNumber 42 = FormatUint 42 :=
  ⟨(FormatTrackNumber_two_digits 7).2.1 (by decide),
   (FormatTrackNumber_two_digits 42).2.2 (by decide) (by decide)⟩

/-! ## Quoted fields -/

/-- The scan of `unquote` stops at the quote. -/
theorem unquoteScan_hit (q : Nat) (cs : List Nat) (i : Nat) :
    unquoteScan q (q :: cs) i = i := by
  unfold unquoteScan
  simp

/-- The scan of `unquote` steps over a backslash and the byte after it. -/
theorem unquoteScan_escape (q c : Nat) (cs : List Nat) (i : Nat) (h : q ≠ 92) :
    unquoteScan q (92 :: c :: cs) i = unquoteScan q cs (i + 2) := by
  conv => lhs; unfold unquoteScan
  simp [h.symm]

/-- The scan of `unquote` steps over any other byte. -/
theorem unquoteScan_plain (q c : Nat) (cs : List Nat) (i : Nat) (h1 : c ≠ q) (h2 : c ≠ 92) :
    unquoteScan q (c :: cs) i = unquoteScan q cs (i + 1) := by
  conv => lhs; unfold unquoteScan
  simp [h1, h2]

/-- The scan of `unquote` over an escaped text stops at the closing quote. -/
theorem unquoteScan_quoteBody (s rest : List Nat) (i : Nat) :
    unquoteScan 34 (quoteBody 34 s ++ 34 :: rest) i = i + (quoteBody 34 s).length := by
  induction s generalizing i with
  | nil => simp [quoteBody, unquoteScan_hit]
  | cons c cs ih =>
    by_cases h : c = 34 ∨ c = 92
    · rw [quoteBody, if_pos h, List.cons_append, List.cons_append,
        unquoteScan_escape _ _ _ _ (by decide), ih]
      simp only [List.length_cons]
      omega
    · have h1 : c ≠ 34 := fun e => h (Or.inl e)
      have h2 : c ≠ 92 := fun e => h (Or.inr e)
      rw [quoteBody, if_neg h, List.cons_append, unquoteScan_plain _ _ _ _ h1 h2, ih]
      simp only [List.length_cons]
      omega

/-- `ReadString` on a text made by `quote` returns the text between the
quotes, escapes included, and leaves the cursor empty. -/
theorem ReadString_quote (s : List Nat) :
    ReadString (quote s 34) = .ok (quoteBody 34 s, []) := by
  have hscan := unquoteScan_quoteBody s [] 1
  have hd : isDelim 34 = false := by decide
  simp only [ReadString, quote, TrimLeft, List.dropWhile, hd, isQuoted, unquote]
  simp [bind, Except.bind, pure, Except.pure, hscan, Nat.add_comm 1]

/-- A text with no double quote and no backslash is escaped to itself. -/
theorem quoteBody_plain (s : List Nat) (h1 : 34 ∉ s) (h2 : 92 ∉ s) :
    quoteBody 34 s = s := by
  induction s with
  | nil => rfl
  | cons c cs ih =>
    have hc1 : c ≠ 34 := fun e => h1 (by simp [e])
    have hc2 : c ≠ 92 := fun e => h2 (by simp [e])
    have t1 : 34 ∉ cs := fun e => h1 (by simp [e])
    have t2 : 92 ∉ cs := fun e => h2 (by simp [e])
    simp [quoteBody, hc1, hc2, ih t1 t2]

/-- C5: for every string `s` that holds a space and holds neither a double
quote nor a backslash, `FormatString s` is `s` between two double quotes, and
`ReadString` on it returns `s` and leaves the cursor empty. -/
theorem ReadString_FormatString_space (s : List Nat) (hsp : 32 ∈ s) (hq : 34 ∉ s)
    (hb : 92 ∉ s) :
    FormatString s = 34 :: s ++ [34] ∧ ReadString (FormatString s) = .ok (s, []) := by
  have hc : ContainsAny s = true := by
    simp only [ContainsAny, List.any_eq_true]
    exact ⟨32, hsp, by decide⟩
  have hf : FormatString s = quote s 34 := by simp [FormatString, hc]
  refine ⟨?_, ?_⟩
  · rw [hf, quote, quoteBody_plain s hq hb]
  · rw [hf, ReadString_quote, quoteBody_plain s hq hb]

/-- C5, witness: the title `Test Album` of the example. -/
theorem ReadString_FormatString_space_witness :
    FormatString (bytes "Test Album") = 34 :: bytes "Test Album" ++ [34] ∧
    ReadString (FormatString (bytes "Test Album")) = .ok (bytes "Test Album", []) :=
  ReadString_FormatString_space (bytes "Test Album") (by decide) (by decide) (by decide)

/-! ## Cursors without a field -/

/-- Only delimiters: nothing is left after the trim. -/
theorem TrimLeft_delims (s : List Nat) (h : ∀ c ∈ s, isDelim c = true) : TrimLeft s = [] := by
  induction s with
  | nil => rfl
  | cons c cs ih =>
    have hc : isDelim c = true := h c (by simp)
    have hcs : ∀ x ∈ cs, isDelim x = true := fun x hx => h x (by simp [hx])
    have := ih hcs
    simp only [TrimLeft] at this
    simp [TrimLeft, List.dropWhile, hc, this]

/-- C9: on every cursor that is empty or holds only delimiters, `ReadString`
panics with an index out of range: it returns no string. -/
theorem ReadString_exhausted (s : List Nat) (h : ∀ c ∈ s, isDelim c = true) :
    ReadString s = .error .indexOutOfRange := by
  simp [ReadString, TrimLeft_delims s h, isQuoted, bind, Except.bind]

/-- C9, witness: the empty cursor and a cursor of four delimiters. -/
theorem ReadString_exhausted_witness :
    ReadString [] = .error .indexOutOfRange ∧
    ReadString (bytes " \t\r\n") = .error .indexOutOfRange :=
  ⟨ReadString_exhausted [] (by decide), ReadString_exhausted (bytes " \t\r\n") (by decide)⟩

/-! ## Malformed frames -/

/-- C8: on every cursor whose next field `v` does not split on `:` into
exactly three parts, `ReadFrame` returns the frame 0 and leaves the cursor
where the reading of the field left it; and a next field exists on every
cursor whose first byte after the leading delimiters is not a quote. -/
theorem ReadFrame_malformed :
    (∀ s v rest : List Nat, ReadString s = .ok (v, rest) → (Split 58 v).length ≠ 3 →
      ReadFrame s = .ok (0, rest)) ∧
    (∀ (s : List Nat) (c : Nat) (t : List Nat), TrimLeft s = c :: t → c ≠ 34 → c ≠ 39 →
      ∃ v rest, ReadString s = .ok (v, rest)) := by
  constructor
  · intro s v rest hr hlen
    rw [ReadFrame, hr]
    simp only [bind, Except.bind]
    split
    · rename_i heq
      rw [heq] at hlen
      simp at hlen
    · rfl
  · intro s c t ht h1 h2
    simp only [ReadString, ht, isQuoted, bind, Except.bind]
    have hq : (c == 34 || c == 39) = false := by simp [h1, h2]
    rw [hq]
    by_cases hi : indexByte 32 (c :: t) < (c :: t).length
    · exact ⟨_, _, by simp only [Bool.false_eq_true, if_false, hi, if_true]; rfl⟩
    · exact ⟨_, _, by simp only [Bool.false_eq_true, if_false, hi]; rfl⟩

/-- C8, witness: the fields `bogus`, `12:34` and `1:2:3:4`, each followed by
another field `x`. -/
theorem ReadFrame_malformed_witness :
    ReadFrame (bytes "bogus x") = .ok (0, bytes "x") ∧
    ReadFrame (bytes "12:34 x") = .ok (0, bytes "x") ∧
    ReadFrame (bytes "1:2:3:4 x") = .ok (0, bytes "x") ∧
    (∃ v rest, ReadString (bytes "  bogus x") = .ok (v, rest)) :=
  ⟨ReadFrame_malformed.1 (bytes "bogus x") (bytes "bogus") (bytes "x") (by decide) (by decide),
   ReadFrame_malformed.1 (bytes "12:34 x") (bytes "12:34") (bytes "x") (by decide) (by decide),
   ReadFrame_malformed.1 (bytes "1:2:3:4 x") (bytes "1:2:3:4") (bytes "x") (by decide)
     (by decide),
   ReadFrame_malformed.2 (bytes "  bogus x") 98 (bytes "ogus x") (by decide) (by decide)
     (by decide)⟩

/-! ## The fuel of the loops is never used up -/

/-- The trim never makes a string longer. -/
theorem TrimLeft_length (s : List Nat) : (TrimLeft s).length ≤ s.length :=
  (List.dropWhile_suffix isDelim).length_le

/-- `unquote` fails with a panic only. -/
theorem unquote_noFuel (s : List Nat) : unquote s ≠ .error .outOfFuel := by
  unfold unquote
  split
  · simp
  · simp only []
    split <;> simp

/-- `ReadString` fails with a panic only. -/
theorem ReadString_noFuel (s : List Nat) : ReadString s ≠ .error .outOfFuel := by
  unfold ReadString
  cases ht : TrimLeft s with
  | nil => simp [isQuoted, bind, Except.bind]
  | cons c t =>
    simp only [isQuoted, bind, Except.bind]
    split
    · cases hu : unquote (c :: t) with
      | error e =>
        have := unquote_noFuel (c :: t)
        rw [hu] at this
        simpa using this
      | ok w =>
        simp only []
        split <;> simp [pure, Except.pure, throw, throwThe, MonadExceptOf.throw]
    · split <;> simp [pure, Except.pure]

/-- A field that is read takes at least one byte off the cursor. -/
theorem ReadString_shorter (s v rest : List Nat) (h : ReadString s = .ok (v, rest)) :
    rest.length < s.length := by
  have hl := TrimLeft_length s
  unfold ReadString at h
  cases ht : TrimLeft s with
  | nil => simp [ht, isQuoted, bind, Except.bind] at h
  | cons c t =>
    rw [ht] at hl
    simp only [ht, isQuoted, bind, Except.bind] at h
    split at h
    · cases hu : unquote (c :: t) with
      | error e => simp [hu] at h
      | ok w =>
        simp only [hu] at h
        split at h
        · simp only [pure, Except.pure, Except.ok.injEq, Prod.mk.injEq] at h
          rw [← h.2, List.length_drop]
          simp only [List.length_cons] at hl ⊢
          omega
        · simp [throw, throwThe, MonadExceptOf.throw] at h
    · split at h
      · simp only [pure, Except.pure, Except.ok.injEq, Prod.mk.injEq] at h
        rw [← h.2, List.length_drop]
        simp only [List.length_cons] at hl ⊢
        omega
      · simp only [pure, Except.pure, Except.ok.injEq, Prod.mk.injEq] at h
        rw [← h.2]
        simp only [List.length_cons, List.length_nil] at hl ⊢
        omega

/-- A sequence of two steps runs out of fuel only if one of them does. -/
theorem bind_noFuel {α β : Type} (x : Except Fault α) (f : α → Except Fault β)
    (hx : x ≠ .error .outOfFuel) (hf : ∀ a, x = .ok a → f a ≠ .error .outOfFuel) :
    (x >>= f) ≠ .error .outOfFuel := by
  cases x with
  | error e => simpa [bind, Except.bind] using hx
  | ok a => simpa [bind, Except.bind] using hf a rfl

/-- A sequence of two steps that returns: both steps return. -/
theorem bind_eq_ok {α β : Type} (x : Except Fault α) (f : α → Except Fault β) (r : β)
    (h : (x >>= f) = .ok r) : ∃ a, x = .ok a ∧ f a = .ok r := by
  cases x with
  | error e => simp [bind, Except.bind] at h
  | ok a => exact ⟨a, rfl, by simpa [bind, Except.bind] using h⟩

/-- `ReadUint` fails with a panic only. -/
theorem ReadUint_noFuel (s : List Nat) : ReadUint s ≠ .error .outOfFuel := by
  unfold ReadUint
  refine bind_noFuel _ _ (ReadString_noFuel s) ?_
  rintro ⟨v, r⟩ -
  simp only []
  split <;> simp [pure, Except.pure]

/-- `ReadFrame` fails with a panic only. -/
theorem ReadFrame_noFuel (s : List Nat) : ReadFrame s ≠ .error .outOfFuel := by
  unfold ReadFrame
  refine bind_noFuel _ _ (ReadString_noFuel s) ?_
  rintro ⟨v, r⟩ -
  simp only []
  split <;> simp [pure, Except.pure]

/-- The number read by `ReadUint` leaves a shorter cursor. -/
theorem ReadUint_shorter (s : List Nat) (n : Nat) (rest : List Nat)
    (h : ReadUint s = .ok (n, rest)) : rest.length < s.length := by
  unfold ReadUint at h
  obtain ⟨⟨v, r⟩, h1, h2⟩ := bind_eq_ok _ _ _ h
  have hlt := ReadString_shorter s v r h1
  simp only [] at h2
  split at h2 <;>
    · simp only [pure, Except.pure, Except.ok.injEq, Prod.mk.injEq] at h2
      rw [← h2.2]
      exact hlt

/-- The loop over the tokens of a `FLAGS` line has fuel enough. -/
theorem readFlags_noFuel (fuel : Nat) (line : List Nat) (flags : Nat)
    (h : line.length < fuel) : readFlags fuel line flags ≠ .error .outOfFuel := by
  induction fuel generalizing line flags with
  | zero => omega
  | succ fuel ih =>
    unfold readFlags
    split
    · refine bind_noFuel _ _ (ReadString_noFuel line) ?_
      rintro ⟨tok, line'⟩ hr
      have hlt := ReadString_shorter line tok line' hr
      have hf : line'.length < fuel := by omega
      simp only []
      split
      · exact ih _ _ hf
      · split
        · exact ih _ _ hf
        · split
          · exact ih _ _ hf
          · split
            · exact ih _ _ hf
            · exact ih _ _ hf
    · simp [pure, Except.pure]

/-- The commands of a track fail with a panic only. -/
theorem trackCommand_noFuel (command line : List Nat) (track : Track) :
    trackCommand command line track ≠ .error .outOfFuel := by
  unfold trackCommand
  split
  · refine bind_noFuel _ _ (readFlags_noFuel _ _ _ (Nat.lt_succ_self _)) ?_
    intro a _
    simp [pure, Except.pure]
  split
  · simp [pure, Except.pure]
  split
  · refine bind_noFuel _ _ (unquote_noFuel _) ?_
    intro a _
    simp [pure, Except.pure]
  split
  · refine bind_noFuel _ _ (unquote_noFuel _) ?_
    intro a _
    simp [pure, Except.pure]
  split
  · refine bind_noFuel _ _ (unquote_noFuel _) ?_
    intro a _
    simp [pure, Except.pure]
  split
  · refine bind_noFuel _ _ (ReadFrame_noFuel _) ?_
    rintro ⟨f, r⟩ _
    simp [pure, Except.pure]
  split
  · refine bind_noFuel _ _ (ReadFrame_noFuel _) ?_
    rintro ⟨f, r⟩ _
    simp [pure, Except.pure]
  split
  · refine bind_noFuel _ _ (ReadUint_noFuel _) ?_
    rintro ⟨n, r⟩ _
    refine bind_noFuel _ _ (ReadFrame_noFuel _) ?_
    rintro ⟨f, r'⟩ _
    simp [pure, Except.pure]
  · simp [pure, Except.pure]

/-- A line that is read takes at least one byte off the stream. -/
theorem bufioReadString_shorter (b line b' : List Nat)
    (h : bufioReadString b = some (line, b')) : b'.length < b.length := by
  unfold bufioReadString at h
  simp only [] at h
  split at h
  · simp only [Option.some.injEq, Prod.mk.injEq] at h
    rw [← h.2, List.length_drop]
    omega
  · simp at h

/-- `readTrack` never gives bytes back to the stream. -/
theorem readTrack_length (fuel : Nat) (b : List Nat) (track t : Track) (b'' : List Nat)
    (h : readTrack fuel b track = .ok (t, b'')) : b''.length ≤ b.length := by
  induction fuel generalizing b track with
  | zero => simp [readTrack] at h
  | succ fuel ih =>
    unfold readTrack at h
    cases hb : bufioReadString b with
    | none =>
      simp only [hb, pure, Except.pure, Except.ok.injEq, Prod.mk.injEq] at h
      rw [← h.2]
    | some p =>
      obtain ⟨line, b'⟩ := p
      have hlt := bufioReadString_shorter b line b' hb
      simp only [hb] at h
      split at h
      · simp only [pure, Except.pure, Except.ok.injEq, Prod.mk.injEq] at h
        rw [← h.2]
      · obtain ⟨⟨command, line'⟩, -, h2⟩ := bind_eq_ok _ _ _ h
        obtain ⟨o, -, h3⟩ := bind_eq_ok _ _ _ h2
        cases o with
        | none =>
          simp only [pure, Except.pure, Except.ok.injEq, Prod.mk.injEq] at h3
          rw [← h3.2]
          omega
        | some track' =>
          have := ih b' track' h3
          omega

/-- The loop of `readTrack` has fuel enough. -/
theorem readTrack_noFuel (fuel : Nat) (b : List Nat) (track : Track) (h : b.length < fuel) :
    readTrack fuel b track ≠ .error .outOfFuel := by
  induction fuel generalizing b track with
  | zero => omega
  | succ fuel ih =>
    unfold readTrack
    cases hb : bufioReadString b with
    | none => simp [pure, Except.pure]
    | some p =>
      obtain ⟨line, b'⟩ := p
      have hlt := bufioReadString_shorter b line b' hb
      simp only []
      split
      · simp [pure, Except.pure]
      · refine bind_noFuel _ _ (ReadString_noFuel _) ?_
        rintro ⟨command, line'⟩ -
        refine bind_noFuel _ _ (trackCommand_noFuel _ _ _) ?_
        intro o _
        cases o with
        | none => simp [pure, Except.pure]
        | some track' => exact ih b' track' (by omega)

/-- `readTracks` never gives bytes back to the stream. -/
theorem readTracks_length (fuel : Nat) (b : List Nat) (tracks ts : List Track)
    (b'' : List Nat) (h : readTracks fuel b tracks = .ok (ts, b'')) :
    b''.length ≤ b.length := by
  induction fuel generalizing b tracks with
  | zero => simp [readTracks] at h
  | succ fuel ih =>
    unfold readTracks at h
    cases hb : bufioReadString b with
    | none =>
      simp only [hb, pure, Except.pure, Except.ok.injEq, Prod.mk.injEq] at h
      rw [← h.2]
    | some p =>
      obtain ⟨line, b'⟩ := p
      have hlt := bufioReadString_shorter b line b' hb
      simp only [hb] at h
      split at h
      · simp only [pure, Except.pure, Except.ok.injEq, Prod.mk.injEq] at h
        rw [← h.2]
      · obtain ⟨⟨command, line'⟩, -, h2⟩ := bind_eq_ok _ _ _ h
        simp only [] at h2
        split at h2
        · obtain ⟨⟨n, line2⟩, -, h3⟩ := bind_eq_ok _ _ _ h2
          obtain ⟨⟨dataType, line3⟩, -, h4⟩ := bind_eq_ok _ _ _ h3
          obtain ⟨⟨track, b2⟩, h5, h6⟩ := bind_eq_ok _ _ _ h4
          have l1 := readTrack_length _ _ _ _ _ h5
          have l2 := ih b2 _ h6
          omega
        · simp only [pure, Except.pure, Except.ok.injEq, Prod.mk.injEq] at h2
          rw [← h2.2]
          omega

/-- The loop of `readTracks` has fuel enough. -/
theorem readTracks_noFuel (fuel : Nat) (b : List Nat) (tracks : List Track)
    (h : b.length < fuel) : readTracks fuel b tracks ≠ .error .outOfFuel := by
  induction fuel generalizing b tracks with
  | zero => omega
  | succ fuel ih =>
    unfold readTracks
    cases hb : bufioReadString b with
    | none => simp [pure, Except.pure]
    | some p =>
      obtain ⟨line, b'⟩ := p
      have hlt := bufioReadString_shorter b line b' hb
      simp only []
      split
      · simp [pure, Except.pure]
      · refine bind_noFuel _ _ (ReadString_noFuel _) ?_
        rintro ⟨command, line'⟩ -
        simp only []
        split
        · refine bind_noFuel _ _ (ReadUint_noFuel _) ?_
          rintro ⟨n, line2⟩ -
          refine bind_noFuel _ _ (ReadString_noFuel _) ?_
          rintro ⟨dataType, line3⟩ -
          refine bind_noFuel _ _ (readTrack_noFuel _ _ _ (Nat.lt_succ_self _)) ?_
          rintro ⟨track, b2⟩ h5
          have l1 := readTrack_length _ _ _ _ _ h5
          exact ih b2 _ (by omega)
        · simp [pure, Except.pure]

/-- The loop of `ReadFile` has fuel enough. -/
theorem readFileLoop_noFuel (fuel : Nat) (b : List Nat) (cuesheet : Cuesheet)
    (h : b.length < fuel) : readFileLoop fuel b cuesheet ≠ .error .outOfFuel := by
  induction fuel generalizing b cuesheet with
  | zero => omega
  | succ fuel ih =>
    unfold readFileLoop
    cases hb : bufioReadString b with
    | none => simp [pure, Except.pure]
    | some p =>
      obtain ⟨line, b'⟩ := p
      have hlt := bufioReadString_shorter b line b' hb
      have hf : b'.length < fuel := by omega
      simp only []
      refine bind_noFuel _ _ (ReadString_noFuel _) ?_
      rintro ⟨command, line'⟩ -
      simp only []
      split
      · exact ih _ _ hf
      split
      · exact ih _ _ hf
      split
      · refine bind_noFuel _ _ (ReadString_noFuel _) ?_
        rintro ⟨v, r⟩ -
        exact ih _ _ hf
      split
      · refine bind_noFuel _ _ (ReadString_noFuel _) ?_
        rintro ⟨v, r⟩ -
        exact ih _ _ hf
      split
      · refine bind_noFuel _ _ (ReadString_noFuel _) ?_
        rintro ⟨v, r⟩ -
        exact ih _ _ hf
      split
      · refine bind_noFuel _ _ (ReadString_noFuel _) ?_
        rintro ⟨v, r⟩ -
        exact ih _ _ hf
      split
      · refine bind_noFuel _ _ (ReadFrame_noFuel _) ?_
        rintro ⟨v, r⟩ -
        exact ih _ _ hf
      split
      · refine bind_noFuel _ _ (ReadFrame_noFuel _) ?_
        rintro ⟨v, r⟩ -
        exact ih _ _ hf
      split
      · refine bind_noFuel _ _ (ReadString_noFuel _) ?_
        rintro ⟨fname, line2⟩ -
        refine bind_noFuel _ _ (ReadString_noFuel _) ?_
        rintro ⟨ftype, line3⟩ -
        refine bind_noFuel _ _ (readTracks_noFuel _ _ _ (Nat.lt_succ_self _)) ?_
        rintro ⟨tracks, b2⟩ h5
        have l1 := readTracks_length _ _ _ _ _ h5
        exact ih b2 _ (by omega)
      · exact ih _ _ hf

/-- `ReadFile` returns a sheet or panics: the fuel of its loops is never
used up, whatever the text. -/
theorem ReadFile_noFuel (r : List Nat) : ReadFile r ≠ .error .outOfFuel :=
  readFileLoop_noFuel _ _ _ (Nat.lt_succ_self _)

/-! ## The result does not depend on the fuel -/

/-- Two sequences with the same first step and second steps that agree on
what the first returns. -/
theorem bind_congr_ok {α β : Type} (x : Except Fault α) (f g : α → Except Fault β)
    (h : ∀ a, x = .ok a → f a = g a) : (x >>= f) = (x >>= g) := by
  cases x with
  | error e => rfl
  | ok a => simpa [bind, Except.bind] using h a rfl

/-- The tokens of a `FLAGS` line: any fuel above the length of the line
gives the same flags. -/
theorem readFlags_fuel (f1 f2 : Nat) (line : List Nat) (flags : Nat)
    (h1 : line.length < f1) (h2 : line.length < f2) :
    readFlags f1 line flags = readFlags f2 line flags := by
  induction f1 generalizing f2 line flags with
  | zero => omega
  | succ f1 ih =>
    cases f2 with
    | zero => omega
    | succ f2 =>
      unfold readFlags
      split
      · refine bind_congr_ok _ _ _ ?_
        rintro ⟨tok, line'⟩ hr
        have hlt := ReadString_shorter line tok line' hr
        simp only []
        rw [ih f2 line' _ (by omega) (by omega), ih f2 line' _ (by omega) (by omega),
          ih f2 line' _ (by omega) (by omega), ih f2 line' _ (by omega) (by omega),
          ih f2 line' flags (by omega) (by omega)]
      · rfl

/-- The lines of a track: any fuel above the length of the stream gives the
same track. -/
theorem readTrack_fuel (f1 f2 : Nat) (b : List Nat) (track : Track)
    (h1 : b.length < f1) (h2 : b.length < f2) :
    readTrack f1 b track = readTrack f2 b track := by
  induction f1 generalizing f2 b track with
  | zero => omega
  | succ f1 ih =>
    cases f2 with
    | zero => omega
    | succ f2 =>
      unfold readTrack
      cases hb : bufioReadString b with
      | none => rfl
      | some p =>
        obtain ⟨line, b'⟩ := p
        have hlt := bufioReadString_shorter b line b' hb
        simp only []
        split
        · rfl
        · refine bind_congr_ok _ _ _ ?_
          rintro ⟨command, line'⟩ -
          refine bind_congr_ok _ _ _ ?_
          intro o _
          cases o with
          | none => rfl
          | some track' => exact ih f2 b' track' (by omega) (by omega)

/-- The tracks of a file: any fuel above the length of the stream gives the
same tracks. -/
theorem readTracks_fuel (f1 f2 : Nat) (b : List Nat) (tracks : List Track)
    (h1 : b.length < f1) (h2 : b.length < f2) :
    readTracks f1 b tracks = readTracks f2 b tracks := by
  induction f1 generalizing f2 b tracks with
  | zero => omega
  | succ f1 ih =>
    cases f2 with
    | zero => omega
    | succ f2 =>
      unfold readTracks
      cases hb : bufioReadString b with
      | none => rfl
      | some p =>
        obtain ⟨line, b'⟩ := p
        have hlt := bufioReadString_shorter b line b' hb
        simp only []
        split
        · rfl
        · refine bind_congr_ok _ _ _ ?_
          rintro ⟨command, line'⟩ -
          simp only []
          split
          · refine bind_congr_ok _ _ _ ?_
            rintro ⟨n, line2⟩ -
            refine bind_congr_ok _ _ _ ?_
            rintro ⟨dataType, line3⟩ -
            refine bind_congr_ok _ _ _ ?_
            rintro ⟨track, b2⟩ h5
            have l1 := readTrack_length _ _ _ _ _ h5
            exact ih f2 b2 _ (by omega) (by omega)
          · rfl

/-- The lines of a sheet: any fuel above the length of the stream gives the
same sheet. -/
theorem readFileLoop_fuel (f1 f2 : Nat) (b : List Nat) (cuesheet : Cuesheet)
    (h1 : b.length < f1) (h2 : b.length < f2) :
    readFileLoop f1 b cuesheet = readFileLoop f2 b cuesheet := by
  induction f1 generalizing f2 b cuesheet with
  | zero => omega
  | succ f1 ih =>
    cases f2 with
    | zero => omega
    | succ f2 =>
      unfold readFileLoop
      cases hb : bufioReadString b with
      | none => rfl
      | some p =>
        obtain ⟨line, b'⟩ := p
        have hlt := bufioReadString_shorter b line b' hb
        have hb' : ∀ c, readFileLoop f1 b' c = readFileLoop f2 b' c :=
          fun c => ih f2 b' c (by omega) (by omega)
        simp only []
        refine bind_congr_ok _ _ _ ?_
        rintro ⟨command, line'⟩ -
        simp only []
        by_cases c0 : command = bytes "REM"
        · rw [if_pos c0, if_pos c0]
          exact hb' _
        rw [if_neg c0, if_neg c0]
        by_cases c1 : command = bytes "CATALOG"
        · rw [if_pos c1, if_pos c1]
          exact hb' _
        rw [if_neg c1, if_neg c1]
        by_cases c2 : command = bytes "CDTEXTFILE"
        · rw [if_pos c2, if_pos c2]
          refine bind_congr_ok _ _ _ ?_
          rintro ⟨v, r⟩ -
          exact hb' _
        rw [if_neg c2, if_neg c2]
        by_cases c3 : command = bytes "TITLE"
        · rw [if_pos c3, if_pos c3]
          refine bind_congr_ok _ _ _ ?_
          rintro ⟨v, r⟩ -
          exact hb' _
        rw [if_neg c3, if_neg c3]
        by_cases c4 : command = bytes "PERFORMER"
        · rw [if_pos c4, if_pos c4]
          refine bind_congr_ok _ _ _ ?_
          rintro ⟨v, r⟩ -
          exact hb' _
        rw [if_neg c4, if_neg c4]
        by_cases c5 : command = bytes "SONGWRITER"
        · rw [if_pos c5, if_pos c5]
          refine bind_congr_ok _ _ _ ?_
          rintro ⟨v, r⟩ -
          exact hb' _
        rw [if_neg c5, if_neg c5]
        by_cases c6 : command = bytes "PREGAP"
        · rw [if_pos c6, if_pos c6]
          refine bind_congr_ok _ _ _ ?_
          rintro ⟨v, r⟩ -
          exact hb' _
        rw [if_neg c6, if_neg c6]
        by_cases c7 : command = bytes "POSTGAP"
        · rw [if_pos c7, if_pos c7]
          refine bind_congr_ok _ _ _ ?_
          rintro ⟨v, r⟩ -
          exact hb' _
        rw [if_neg c7, if_neg c7]
        by_cases c8 : command = bytes "FILE"
        · rw [if_pos c8, if_pos c8]
          refine bind_congr_ok _ _ _ ?_
          rintro ⟨fname, line2⟩ -
          refine bind_congr_ok _ _ _ ?_
          rintro ⟨ftype, line3⟩ -
          refine bind_congr_ok _ _ _ ?_
          rintro ⟨tracks, b2⟩ h5
          have l1 := readTracks_length _ _ _ _ _ h5
          exact ih f2 b2 _ (by omega) (by omega)
        rw [if_neg c8, if_neg c8]
        exact hb' _

/-! ## The writer -/

/-- C11, counterexample: the example text is not written back byte for byte. -/
theorem reformat_example_differs :
    (ReadFile exampleText).map WriteFile ≠ .ok exampleText := by
  decide

/-- C11, amended: `WriteFile` on the sheet read from the example text writes
the five lines back with the file name without its quotes, `FILE test.wav WAVE`,
and every other byte as it was; the text with that `FILE` line is written back
byte for byte. -/
theorem reformat_example :
    (ReadFile exampleText).map WriteFile =
      .ok (bytes "REM DATE 2015\n" ++ bytes "TITLE \"Test Album\"\n" ++
        bytes "FILE test.wav WAVE\n" ++ bytes "  TRACK 01 AUDIO\n" ++
        bytes "    INDEX 01 00:00:00\n") ∧
    (ReadFile (bytes "REM DATE 2015\n" ++ bytes "TITLE \"Test Album\"\n" ++
        bytes "FILE test.wav WAVE\n" ++ bytes "  TRACK 01 AUDIO\n" ++
        bytes "    INDEX 01 00:00:00\n")).map WriteFile =
      .ok (bytes "REM DATE 2015\n" ++ bytes "TITLE \"Test Album\"\n" ++
        bytes "FILE test.wav WAVE\n" ++ bytes "  TRACK 01 AUDIO\n" ++
        bytes "    INDEX 01 00:00:00\n") := by
  decide

/-- C16: a sheet with nothing but a disc-level `Pregap = p` and `Postgap = q` is
written as the `PREGAP` line when `p > 0` followed by the `POSTGAP` line when
`q > 0`; the zero sheet is written as the empty text; and a track with nothing
but its number, data type and gaps is written as its `TRACK` line followed by
the two gap lines under the same rule. -/
theorem WriteFile_gaps (p q n : Nat) (fname ftype dataType : List Nat) :
    WriteFile { Cuesheet.zero with Pregap := p, Postgap := q } =
      (if p > 0 then bytes "PREGAP " ++ FormatFrame p ++ bytes "\n" else []) ++
      (if q > 0 then bytes "POSTGAP " ++ FormatFrame q ++ bytes "\n" else []) ∧
    WriteFile Cuesheet.zero = [] ∧
    WriteFile { Cuesheet.zero with
        File := [⟨fname, ftype, [{ Track.zero with TrackNumber := n, TrackDataType := dataType,
                                                   Pregap := p, Postgap := q }]⟩] } =
      bytes "FILE " ++ FormatString fname ++ bytes " " ++ ftype ++ bytes "\n" ++
      (bytes "  TRACK " ++ FormatTrackNumber n ++ bytes " " ++ dataType ++ bytes "\n") ++
      (if p > 0 then bytes "    PREGAP " ++ FormatFrame p ++ bytes "\n" else []) ++
      (if q > 0 then bytes "    POSTGAP " ++ FormatFrame q ++ bytes "\n" else []) := by
  have hb : bytes "\n" = eol := rfl
  refine ⟨?_, ?_, ?_⟩
  · simp [WriteFile, Cuesheet.zero, hb]
  · simp [WriteFile, Cuesheet.zero]
  · simp [WriteFile, writeFile, writeTrack, writeFlags, Cuesheet.zero, Track.zero, hb, None]

/-- The `FLAGS` line of a combination of the four flags. -/
theorem writeFlags_flagsOf (d f p s : Bool) :
    writeFlags (flagsOf d f p s) =
      if d || f || p || s then
        bytes "    FLAGS" ++ (if d then bytes " DCP" else []) ++
          (if f then bytes " 4CH" else []) ++ (if p then bytes " PRE" else []) ++
          (if s then bytes " SCMS" else []) ++ bytes "\n"
      else [] := by
  cases d <;> cases f <;> cases p <;> cases s <;> decide

/-- C12: for every track whose `Flags` is a combination of `Dcp`, `Four_ch`,
`Pre` and `Scms`, `WriteFile` writes, directly after the `TRACK` line, nothing
when the combination is empty and otherwise the one line `    FLAGS` followed
by ` DCP`, ` 4CH`, ` PRE`, ` SCMS`, one for each flag set, in that order. -/
theorem WriteFile_flags (d f p s : Bool) (fname ftype : List Nat) (track : Track)
    (h : track.Flags = flagsOf d f p s) :
    WriteFile { Cuesheet.zero with File := [⟨fname, ftype, [track]⟩] } =
      bytes "FILE " ++ FormatString fname ++ bytes " " ++ ftype ++ bytes "\n" ++
      (bytes "  TRACK " ++ FormatTrackNumber track.TrackNumber ++ bytes " " ++
        track.TrackDataType ++ bytes "\n") ++
      (if d || f || p || s then
        bytes "    FLAGS" ++ (if d then bytes " DCP" else []) ++
          (if f then bytes " 4CH" else []) ++ (if p then bytes " PRE" else []) ++
          (if s then bytes " SCMS" else []) ++ bytes "\n"
      else []) ++
      ((if track.Isrc.length > 0 then bytes "    ISRC " ++ track.Isrc ++ bytes "\n" else []) ++
       (if track.Title.length > 0 then
         bytes "    TITLE " ++ FormatString track.Title ++ bytes "\n" else []) ++
       (if track.Performer.length > 0 then
         bytes "    PERFORMER " ++ FormatString track.Performer ++ bytes "\n" else []) ++
       (if track.SongWriter.length > 0 then
         bytes "    SONGWRITER " ++ FormatString track.SongWriter ++ bytes "\n" else []) ++
       (if track.Pregap > 0 then
         bytes "    PREGAP " ++ FormatFrame track.Pregap ++ bytes "\n" else []) ++
       (if track.Postgap > 0 then
         bytes "    POSTGAP " ++ FormatFrame track.Postgap ++ bytes "\n" else []) ++
       (track.Index.map writeIndex).flatten) := by
  have hb : bytes "\n" = eol := rfl
  have hz : WriteFile { Cuesheet.zero with File := [⟨fname, ftype, [track]⟩] } =
      writeFile ⟨fname, ftype, [track]⟩ := by
    simp [WriteFile, Cuesheet.zero]
  rw [hz, ← writeFlags_flagsOf, ← h, hb]
  simp only [writeFile, writeTrack, List.map_cons, List.map_nil, List.flatten_cons,
    List.flatten_nil, List.append_nil, List.append_assoc]

/-- C12, witness: a track with `Pre` and `Dcp` set is written with the line
`    FLAGS DCP PRE`. -/
theorem WriteFile_flags_witness :
    WriteFile { Cuesheet.zero with File := [⟨bytes "a.wav", bytes "WAVE",
        [{ Track.zero with TrackNumber := 1, TrackDataType := bytes "AUDIO",
                           Flags := Pre ||| Dcp }]⟩] } =
      bytes "FILE a.wav WAVE\n" ++ bytes "  TRACK 01 AUDIO\n" ++ bytes "    FLAGS DCP PRE\n" := by
  have h := WriteFile_flags true false true false (bytes "a.wav") (bytes "WAVE")
    { Track.zero with TrackNumber := 1, TrackDataType := bytes "AUDIO", Flags := Pre ||| Dcp }
    (by decide)
  rw [h]
  decide

/-! ## The bounded frame codec -/

/-- C18: `FormatFrame f` has eight bytes for every `f`; for `f < 450000` it is
`MM:SS:FF` with two decimal digits for each of `MM < 100`, `SS < 60` and
`FF < 75`, where `(MM * 60 + SS) * 75 + FF = f`, and `ReadFrame` reads it back
as `f`. -/
theorem FormatFrame_bounded (f : Nat) :
    (FormatFrame f).length = 8 ∧
    (f < 450000 → ∃ mm ss ff, mm < 100 ∧ ss < 60 ∧ ff < 75 ∧ (mm * 60 + ss) * 75 + ff = f ∧
      FormatFrame f = [48 + mm / 10, 48 + mm % 10, 58, 48 + ss / 10, 48 + ss % 10, 58,
        48 + ff / 10, 48 + ff % 10] ∧
      ReadFrame (FormatFrame f) = .ok (f, [])) := by
  refine ⟨by rw [FormatFrame_digits]; rfl, fun h => ?_⟩
  refine ⟨f / 75 / 60, f / 75 % 60, f % 75, by omega, by omega, by omega, by omega, ?_, ?_⟩
  · rw [FormatFrame_digits]
    have e1 : f / 75 / 60 / 10 % 10 = f / 75 / 60 / 10 := by omega
    have e2 : f / 75 % 60 / 10 % 10 = f / 75 % 60 / 10 := by omega
    have e3 : f % 75 / 10 % 10 = f % 75 / 10 := by omega
    rw [e1, e2, e3]
  · rw [ReadFrame_FormatFrame_mod, Nat.mod_eq_of_lt h]

/-- C18, witness: the frame 2715 is written `00:36:15`. -/
theorem FormatFrame_bounded_witness :
    ∃ mm ss ff, mm < 100 ∧ ss < 60 ∧ ff < 75 ∧ (mm * 60 + ss) * 75 + ff = 2715 ∧
      FormatFrame 2715 = [48 + mm / 10, 48 + mm % 10, 58, 48 + ss / 10, 48 + ss % 10, 58,
        48 + ff / 10, 48 + ff % 10] ∧
      ReadFrame (FormatFrame 2715) = .ok (2715, []) :=
  (FormatFrame_bounded 2715).2 (by decide)

/-! ## The end of the stream -/

/-- The search finds the first byte `c` exactly when there is one. -/
theorem indexByte_lt_iff (c : Nat) (s : List Nat) : indexByte c s < s.length ↔ c ∈ s := by
  induction s with
  | nil => simp [indexByte]
  | cons x xs ih =>
    by_cases h : x = c
    · simp [indexByte, h]
    · have h' : ¬ c = x := fun e => h e.symm
      simp [indexByte, h, h', ih]

/-- The search does not look past the first byte `c`. -/
theorem indexByte_append (c : Nat) (s t : List Nat) (h : c ∈ s) :
    indexByte c (s ++ t) = indexByte c s := by
  induction s with
  | nil => simp at h
  | cons x xs ih =>
    by_cases hx : x = c
    · simp [indexByte, hx]
    · have hc : c ∈ xs := by
        rcases List.mem_cons.1 h with e | e
        · exact absurd e.symm hx
        · exact e
      simp [indexByte, hx, ih hc]

/-- Without a newline the stream is at its end. -/
theorem bufioReadString_none (b : List Nat) (h : 10 ∉ b) : bufioReadString b = none := by
  have := (indexByte_lt_iff 10 b).not.2 h
  simp [bufioReadString, this]

/-- A line that is read has its newline in the stream. -/
theorem bufioReadString_mem (b line b' : List Nat) (h : bufioReadString b = some (line, b')) :
    10 ∈ b := by
  by_contra hn
  rw [bufioReadString_none b hn] at h
  simp at h

/-- A line that is read is read all the same when bytes follow the stream. -/
theorem bufioReadString_append (b line b' t : List Nat)
    (h : bufioReadString b = some (line, b')) :
    bufioReadString (b ++ t) = some (line, b' ++ t) := by
  have hm := bufioReadString_mem b line b' h
  have hlt := (indexByte_lt_iff 10 b).2 hm
  have hlt' : indexByte 10 b < (b ++ t).length := by
    rw [List.length_append]
    omega
  simp only [bufioReadString, hlt, if_true, Option.some.injEq, Prod.mk.injEq] at h
  simp only [bufioReadString, indexByte_append 10 b t hm, hlt', if_true, Option.some.injEq,
    Prod.mk.injEq]
  refine ⟨?_, ?_⟩
  · rw [← h.1, List.take_append_of_le_length (by omega)]
  · rw [← h.2, List.drop_append_of_le_length (by omega)]

/-- A text of whole lines that has no line left is empty. -/
theorem Complete.eq_nil (b : List Nat) (hc : Complete b) (h : bufioReadString b = none) :
    b = [] := by
  rcases hc with e | ⟨b0, e⟩
  · exact e
  · have hm : 10 ∈ b := by simp [e]
    have hlt := (indexByte_lt_iff 10 b).2 hm
    simp [bufioReadString, hlt] at h

/-- After a line, a text of whole lines is a text of whole lines. -/
theorem Complete.drop (b : List Nat) (n : Nat) (hc : Complete b) : Complete (b.drop n) := by
  rcases hc with e | ⟨b0, e⟩
  · left
    simp [e]
  · by_cases hn : n ≤ b0.length
    · right
      exact ⟨b0.drop n, by rw [e, List.drop_append_of_le_length hn]⟩
    · left
      rw [List.drop_eq_nil_iff, e]
      simp
      omega

/-- What is left after a line of a text of whole lines is one. -/
theorem Complete.rest (b line b' : List Nat) (hc : Complete b)
    (h : bufioReadString b = some (line, b')) : Complete b' := by
  unfold bufioReadString at h
  simp only [] at h
  split at h
  · simp only [Option.some.injEq, Prod.mk.injEq] at h
    rw [← h.2]
    exact Complete.drop b _ hc
  · simp at h

/-- Mapping over a sequence of two steps. -/
theorem map_bind {α β γ : Type} (g : β → γ) (x : Except Fault α) (f : α → Except Fault β) :
    Except.map g (x >>= f) = x >>= fun a => Except.map g (f a) := by
  cases x <;> rfl

/-- Bytes without a newline after a text of whole lines change nothing for
`readTrack` but the stream that is left. -/
theorem readTrack_append (f1 f2 : Nat) (b t : List Nat) (track : Track) (hc : Complete b)
    (ht : 10 ∉ t) (h1 : b.length < f1) (h2 : (b ++ t).length < f2) :
    readTrack f2 (b ++ t) track =
      Except.map (fun p => (p.1, p.2 ++ t)) (readTrack f1 b track) := by
  induction f1 generalizing f2 b track with
  | zero => omega
  | succ f1 ih =>
    cases f2 with
    | zero => omega
    | succ f2 =>
      unfold readTrack
      cases hb : bufioReadString b with
      | none =>
        have e := Complete.eq_nil b hc hb
        subst e
        simp only [List.nil_append, bufioReadString_none t ht]
        rfl
      | some p =>
        obtain ⟨line, b'⟩ := p
        have hlt := bufioReadString_shorter b line b' hb
        have hc' := Complete.rest b line b' hc hb
        rw [bufioReadString_append b line b' t hb]
        simp only []
        split
        · rfl
        · rw [map_bind]
          refine bind_congr_ok _ _ _ ?_
          rintro ⟨command, line'⟩ -
          simp only []
          rw [map_bind]
          refine bind_congr_ok _ _ _ ?_
          intro o _
          cases o with
          | none => rfl
          | some track' =>
            simp only [List.length_append] at h2
            exact ih f2 b' track' hc' (by omega) (by simp only [List.length_append]; omega)

/-- `readTrack` stops at the start of a line. -/
theorem readTrack_complete (fuel : Nat) (b : List Nat) (track t : Track) (b'' : List Nat)
    (hc : Complete b) (h : readTrack fuel b track = .ok (t, b'')) : Complete b'' := by
  induction fuel generalizing b track with
  | zero => simp [readTrack] at h
  | succ fuel ih =>
    unfold readTrack at h
    cases hb : bufioReadString b with
    | none =>
      simp only [hb, pure, Except.pure, Except.ok.injEq, Prod.mk.injEq] at h
      rw [← h.2]
      exact hc
    | some p =>
      obtain ⟨line, b'⟩ := p
      have hc' := Complete.rest b line b' hc hb
      simp only [hb] at h
      split at h
      · simp only [pure, Except.pure, Except.ok.injEq, Prod.mk.injEq] at h
        rw [← h.2]
        exact hc
      · obtain ⟨⟨command, line'⟩, -, h2⟩ := bind_eq_ok _ _ _ h
        obtain ⟨o, -, h3⟩ := bind_eq_ok _ _ _ h2
        cases o with
        | none =>
          simp only [pure, Except.pure, Except.ok.injEq, Prod.mk.injEq] at h3
          rw [← h3.2]
          exact hc'
        | some track' => exact ih b' track' hc' h3

/-- `readTracks` stops at the start of a line. -/
theorem readTracks_complete (fuel : Nat) (b : List Nat) (tracks ts : List Track)
    (b'' : List Nat) (hc : Complete b) (h : readTracks fuel b tracks = .ok (ts, b'')) :
    Complete b'' := by
  induction fuel generalizing b tracks with
  | zero => simp [readTracks] at h
  | succ fuel ih =>
    unfold readTracks at h
    cases hb : bufioReadString b with
    | none =>
      simp only [hb, pure, Except.pure, Except.ok.injEq, Prod.mk.injEq] at h
      rw [← h.2]
      exact hc
    | some p =>
      obtain ⟨line, b'⟩ := p
      have hc' := Complete.rest b line b' hc hb
      simp only [hb] at h
      split at h
      · simp only [pure, Except.pure, Except.ok.injEq, Prod.mk.injEq] at h
        rw [← h.2]
        exact hc
      · obtain ⟨⟨command, line'⟩, -, h2⟩ := bind_eq_ok _ _ _ h
        simp only [] at h2
        split at h2
        · obtain ⟨⟨n, line2⟩, -, h3⟩ := bind_eq_ok _ _ _ h2
          obtain ⟨⟨dataType, line3⟩, -, h4⟩ := bind_eq_ok _ _ _ h3
          obtain ⟨⟨track, b2⟩, h5, h6⟩ := bind_eq_ok _ _ _ h4
          exact ih b2 _ (readTrack_complete _ _ _ _ _ hc' h5) h6
        · simp only [pure, Except.pure, Except.ok.injEq, Prod.mk.injEq] at h2
          rw [← h2.2]
          exact hc'

/-- A mapped step that returns: the step returns. -/
theorem map_eq_ok {α β : Type} (g : α → β) (x : Except Fault α) (r : β)
    (h : Except.map g x = .ok r) : ∃ a, x = .ok a ∧ g a = r := by
  cases x with
  | error e => simp [Except.map] at h
  | ok a => exact ⟨a, rfl, by simpa [Except.map] using h⟩

/-- Bytes without a newline after a text of whole lines change nothing for
`readTracks` but the stream that is left. -/
theorem readTracks_append (f1 f2 : Nat) (b t : List Nat) (tracks : List Track)
    (hc : Complete b) (ht : 10 ∉ t) (h1 : b.length < f1) (h2 : (b ++ t).length < f2) :
    readTracks f2 (b ++ t) tracks =
      Except.map (fun p => (p.1, p.2 ++ t)) (readTracks f1 b tracks) := by
  induction f1 generalizing f2 b tracks with
  | zero => omega
  | succ f1 ih =>
    cases f2 with
    | zero => omega
    | succ f2 =>
      unfold readTracks
      cases hb : bufioReadString b with
      | none =>
        have e := Complete.eq_nil b hc hb
        subst e
        simp only [List.nil_append, bufioReadString_none t ht]
        rfl
      | some p =>
        obtain ⟨line, b'⟩ := p
        have hlt := bufioReadString_shorter b line b' hb
        have hc' := Complete.rest b line b' hc hb
        rw [bufioReadString_append b line b' t hb]
        simp only []
        split
        · rfl
        · rw [map_bind]
          refine bind_congr_ok _ _ _ ?_
          rintro ⟨command, line'⟩ -
          simp only []
          split
          · rw [map_bind]
            refine bind_congr_ok _ _ _ ?_
            rintro ⟨n, line2⟩ -
            simp only []
            rw [map_bind]
            refine bind_congr_ok _ _ _ ?_
            rintro ⟨dataType, line3⟩ -
            simp only []
            rw [readTrack_append (b'.length + 1) ((b' ++ t).length + 1) b' t _ hc' ht
              (Nat.lt_succ_self _) (Nat.lt_succ_self _), map_bind]
            cases hr : readTrack (b'.length + 1) b'
                { Track.zero with TrackNumber := n, TrackDataType := dataType } with
            | error e => rfl
            | ok q =>
              obtain ⟨track, b2⟩ := q
              have l1 := readTrack_length _ _ _ _ _ hr
              have c2 := readTrack_complete _ _ _ _ _ hc' hr
              simp only [List.length_append] at h2
              simp only [Except.map, bind, Except.bind]
              exact ih f2 b2 _ c2 (by omega) (by simp only [List.length_append]; omega)
          · rfl

/-- Bytes without a newline after a text of whole lines change nothing for
the loop of `ReadFile`. -/
theorem readFileLoop_append (f1 f2 : Nat) (b t : List Nat) (cuesheet : Cuesheet)
    (hc : Complete b) (ht : 10 ∉ t) (h1 : b.length < f1) (h2 : (b ++ t).length < f2) :
    readFileLoop f2 (b ++ t) cuesheet = readFileLoop f1 b cuesheet := by
  induction f1 generalizing f2 b cuesheet with
  | zero => omega
  | succ f1 ih =>
    cases f2 with
    | zero => omega
    | succ f2 =>
      unfold readFileLoop
      cases hb : bufioReadString b with
      | none =>
        have e := Complete.eq_nil b hc hb
        subst e
        simp only [List.nil_append, bufioReadString_none t ht]
      | some p =>
        obtain ⟨line, b'⟩ := p
        have hlt := bufioReadString_shorter b line b' hb
        have hc' := Complete.rest b line b' hc hb
        simp only [List.length_append] at h2
        have hb' : ∀ c, readFileLoop f2 (b' ++ t) c = readFileLoop f1 b' c :=
          fun c => ih f2 b' c hc' (by omega) (by simp only [List.length_append]; omega)
        rw [bufioReadString_append b line b' t hb]
        simp only []
        refine bind_congr_ok _ _ _ ?_
        rintro ⟨command, line'⟩ -
        simp only []
        by_cases c0 : command = bytes "REM"
        · rw [if_pos c0, if_pos c0]
          exact hb' _
        rw [if_neg c0, if_neg c0]
        by_cases c1 : command = bytes "CATALOG"
        · rw [if_pos c1, if_pos c1]
          exact hb' _
        rw [if_neg c1, if_neg c1]
        by_cases c2 : command = bytes "CDTEXTFILE"
        · rw [if_pos c2, if_pos c2]
          refine bind_congr_ok _ _ _ ?_
          rintro ⟨v, r⟩ -
          exact hb' _
        rw [if_neg c2, if_neg c2]
        by_cases c3 : command = bytes "TITLE"
        · rw [if_pos c3, if_pos c3]
          refine bind_congr_ok _ _ _ ?_
          rintro ⟨v, r⟩ -
          exact hb' _
        rw [if_neg c3, if_neg c3]
        by_cases c4 : command = bytes "PERFORMER"
        · rw [if_pos c4, if_pos c4]
          refine bind_congr_ok _ _ _ ?_
          rintro ⟨v, r⟩ -
          exact hb' _
        rw [if_neg c4, if_neg c4]
        by_cases c5 : command = bytes "SONGWRITER"
        · rw [if_pos c5, if_pos c5]
          refine bind_congr_ok _ _ _ ?_
          rintro ⟨v, r⟩ -
          exact hb' _
        rw [if_neg c5, if_neg c5]
        by_cases c6 : command = bytes "PREGAP"
        · rw [if_pos c6, if_pos c6]
          refine bind_congr_ok _ _ _ ?_
          rintro ⟨v, r⟩ -
          exact hb' _
        rw [if_neg c6, if_neg c6]
        by_cases c7 : command = bytes "POSTGAP"
        · rw [if_pos c7, if_pos c7]
          refine bind_congr_ok _ _ _ ?_
          rintro ⟨v, r⟩ -
          exact hb' _
        rw [if_neg c7, if_neg c7]
        by_cases c8 : command = bytes "FILE"
        · rw [if_pos c8, if_pos c8]
          refine bind_congr_ok _ _ _ ?_
          rintro ⟨fname, line2⟩ -
          refine bind_congr_ok _ _ _ ?_
          rintro ⟨ftype, line3⟩ -
          simp only []
          rw [readTracks_append (b'.length + 1) ((b' ++ t).length + 1) b' t _ hc' ht
            (Nat.lt_succ_self _) (Nat.lt_succ_self _)]
          cases hr : readTracks (b'.length + 1) b' [] with
          | error e => rfl
          | ok q =>
            obtain ⟨tracks, b2⟩ := q
            have l1 := readTracks_length _ _ _ _ _ hr
            have c2 := readTracks_complete _ _ _ _ _ hc' hr
            simp only [Except.map, bind, Except.bind]
            exact ih f2 b2 _ c2 (by omega) (by simp only [List.length_append]; omega)
        rw [if_neg c8, if_neg c8]
        exact hb' _

/-- Over the stream of unread bytes: for every text `s` of whole lines and
every text `t` without a newline, `ReadFile` on `s ++ t` returns what it
returns on `s`; a text without any newline is read as the zero sheet. -/
theorem ReadFile_unterminated :
    (∀ s t : List Nat, Complete s → 10 ∉ t → ReadFile (s ++ t) = ReadFile s) ∧
    (∀ t : List Nat, 10 ∉ t → ReadFile t = .ok Cuesheet.zero) := by
  have key : ∀ s t : List Nat, Complete s → 10 ∉ t → ReadFile (s ++ t) = ReadFile s :=
    fun s t hs ht =>
      readFileLoop_append _ _ s t _ hs ht (Nat.lt_succ_self _) (Nat.lt_succ_self _)
  refine ⟨key, fun t ht => ?_⟩
  have := key [] t (Or.inl rfl) ht
  rw [List.nil_append] at this
  rw [this]
  rfl

/-- Over the stream of unread bytes, an instance: a last line without its
newline is dropped at disc level, in a block of tracks and in a track. -/
theorem ReadFile_unterminated_witness :
    ReadFile (bytes "REM a\n" ++ bytes "TITLE x") = ReadFile (bytes "REM a\n") ∧
    ReadFile (bytes "FILE a.wav WAVE\n" ++ bytes "  TRACK 01 AUDIO") =
      ReadFile (bytes "FILE a.wav WAVE\n") ∧
    ReadFile (bytes "FILE a.wav WAVE\n  TRACK 01 AUDIO\n" ++ bytes "    ISRC ABC") =
      ReadFile (bytes "FILE a.wav WAVE\n  TRACK 01 AUDIO\n") ∧
    ReadFile (bytes "TITLE x") = .ok Cuesheet.zero :=
  ⟨ReadFile_unterminated.1 _ _ (Or.inr ⟨bytes "REM a", rfl⟩) (by decide),
   ReadFile_unterminated.1 _ _ (Or.inr ⟨bytes "FILE a.wav WAVE", rfl⟩) (by decide),
   ReadFile_unterminated.1 _ _ (Or.inr ⟨bytes "FILE a.wav WAVE\n  TRACK 01 AUDIO", rfl⟩)
     (by decide),
   ReadFile_unterminated.2 _ (by decide)⟩

/-! ## Lines at the disc level -/

/-- A trailing delimiter is trimmed. -/
theorem TrimRight_snoc (s : List Nat) (c : Nat) (h : isDelim c = true) :
    TrimRight (s ++ [c]) = TrimRight s := by
  simp [TrimRight, List.dropWhile, h]

/-- The newline at the end of a line is trimmed. -/
theorem Trim_newline (l : List Nat) : Trim (l ++ [10]) = Trim l := by
  induction l with
  | nil => decide
  | cons c cs ih =>
    by_cases h : isDelim c = true
    · simp only [Trim, TrimLeft, List.cons_append, List.dropWhile, h] at ih ⊢
      exact ih
    · have h' : isDelim c = false := by simpa using h
      simp only [Trim, TrimLeft, List.cons_append, List.dropWhile, h']
      exact TrimRight_snoc (c :: cs) 10 (by decide)

/-- Leading delimiters are trimmed. -/
theorem TrimLeft_append_delims (w s : List Nat) (h : ∀ c ∈ w, isDelim c = true) :
    TrimLeft (w ++ s) = TrimLeft s := by
  induction w with
  | nil => rfl
  | cons c cs ih =>
    have hc : isDelim c = true := h c (by simp)
    have hcs : ∀ x ∈ cs, isDelim x = true := fun x hx => h x (by simp [hx])
    have := ih hcs
    simp only [TrimLeft] at this
    simp [TrimLeft, List.dropWhile, hc, this]

/-- A line and its newline are read from the front of the stream. -/
theorem bufioReadString_line (l rest : List Nat) (h : 10 ∉ l) :
    bufioReadString (l ++ 10 :: rest) = some (l ++ [10], rest) := by
  have hi : indexByte 10 (l ++ 10 :: rest) = l.length := by
    induction l with
    | nil => simp [indexByte]
    | cons x xs ih =>
      have hx : x ≠ 10 := fun e => h (by simp [e])
      have hxs : 10 ∉ xs := fun e => h (by simp [e])
      simp [indexByte, hx, ih hxs]
  simp [bufioReadString, hi, List.take_append_eq_append_take, List.drop_append_eq_append_drop]

/-- Two streams whose first lines are trimmed to the same text with a command
other than `FILE`, and whose other lines are read alike, are read alike. -/
theorem readFileLoop_sameLine (f1 f2 : Nat) (b1 b2 line1 line2 r1 r2 : List Nat)
    (c : Cuesheet) (hb1 : bufioReadString b1 = some (line1, r1))
    (hb2 : bufioReadString b2 = some (line2, r2)) (ht : Trim line1 = Trim line2)
    (hnf : ∀ cmd rest, ReadString (Trim line1) = .ok (cmd, rest) → cmd ≠ bytes "FILE")
    (hrec : ∀ c', readFileLoop f1 r1 c' = readFileLoop f2 r2 c') :
    readFileLoop (f1 + 1) b1 c = readFileLoop (f2 + 1) b2 c := by
  unfold readFileLoop
  rw [hb1, hb2]
  simp only []
  rw [← ht]
  refine bind_congr_ok _ _ _ ?_
  rintro ⟨command, line'⟩ hr
  have hnf' := hnf command line' hr
  simp only [hrec, if_neg hnf']


/-- The trim on the left stops at a byte that is no delimiter. -/
theorem TrimLeft_head (s : List Nat) (c : Nat) (t : List Nat) (h : TrimLeft s = c :: t) :
    isDelim c = false := by
  induction s with
  | nil => simp [TrimLeft] at h
  | cons x xs ih =>
    by_cases hx : isDelim x = true
    · simp only [TrimLeft, List.dropWhile, hx] at h ih
      exact ih h
    · have hx' : isDelim x = false := by simpa using hx
      simp only [TrimLeft, List.dropWhile, hx', List.cons.injEq] at h
      rw [← h.1]
      exact hx'

/-- The trim on the right keeps a prefix. -/
theorem TrimRight_prefix (s : List Nat) : TrimRight s <+: s := by
  have h := List.dropWhile_suffix isDelim (l := s.reverse)
  have := List.reverse_prefix.2 h
  simpa [TrimRight] using this

/-- A trimmed text starts with a byte that is no delimiter. -/
theorem Trim_head (s : List Nat) (c : Nat) (t : List Nat) (h : Trim s = c :: t) :
    isDelim c = false := by
  have hp := TrimRight_prefix (TrimLeft s)
  rw [show TrimRight (TrimLeft s) = Trim s from rfl, h] at hp
  obtain ⟨r, hr⟩ := hp
  exact TrimLeft_head s c (t ++ r) (by rw [← hr]; rfl)

/-- A cursor that starts with neither a delimiter nor a quote: the field is
the text before the first space, the cursor is left after that space. -/
theorem ReadString_unquoted (c : Nat) (t : List Nat) (hd : isDelim c = false)
    (hq : c ≠ 34 ∧ c ≠ 39) :
    ReadString (c :: t) =
      .ok (firstField (c :: t), (c :: t).drop (indexByte 32 (c :: t) + 1)) := by
  simp only [ReadString, TrimLeft, List.dropWhile, hd, isQuoted, bind, Except.bind]
  have hq' : (c == 34 || c == 39) = false := by simp [hq.1, hq.2]
  rw [hq']
  by_cases hi : indexByte 32 (c :: t) < (c :: t).length
  · simp only [Bool.false_eq_true, if_false, hi, if_true, firstField]
    rfl
  · have hge : (c :: t).length ≤ indexByte 32 (c :: t) := by omega
    simp only [Bool.false_eq_true, if_false, hi, firstField, List.take_of_length_le hge,
      List.drop_of_length_le (Nat.le_succ_of_le hge)]
    rfl

/-- A line with an unknown command is skipped at the disc level. -/
theorem readFileLoop_skip (f : Nat) (b line r cmd rest : List Nat) (c : Cuesheet)
    (hb : bufioReadString b = some (line, r))
    (hr : ReadString (Trim line) = .ok (cmd, rest)) (hu : cmd ∉ discCommands) :
    readFileLoop (f + 1) b c = readFileLoop f r c := by
  simp only [discCommands, List.mem_cons, List.mem_nil_iff, or_false, not_or] at hu
  obtain ⟨u0, u1, u2, u3, u4, u5, u6, u7, u8⟩ := hu
  conv => lhs; unfold readFileLoop
  rw [hb]
  simp only [hr, bind, Except.bind, if_neg u0, if_neg u1, if_neg u2, if_neg u3, if_neg u4,
    if_neg u5, if_neg u6, if_neg u7, if_neg u8]

/-- The text of a line followed by other lines. -/
theorem linesText_cons (l : List Nat) (ls : List (List Nat)) :
    linesText (l :: ls) = l ++ 10 :: linesText ls := by
  simp [linesText]

/-- The text of two sequences of lines. -/
theorem linesText_append (as bs : List (List Nat)) :
    linesText (as ++ bs) = linesText as ++ linesText bs := by
  simp [linesText]

/-- Two sequences of lines, line by line trimmed to the same text with no
command `FILE`, before two streams that are read alike, are read alike. -/
theorem readFileLoop_lines (A B : List (List Nat)) (X Y : List Nat)
    (hAB : List.Forall₂ (fun a b => 10 ∉ a ∧ 10 ∉ b ∧ Trim a = Trim b ∧ NoFileCommand a) A B)
    (hXY : ∀ c g1 g2, X.length < g1 → Y.length < g2 →
      readFileLoop g1 X c = readFileLoop g2 Y c) :
    ∀ c g1 g2, (linesText A ++ X).length < g1 → (linesText B ++ Y).length < g2 →
      readFileLoop g1 (linesText A ++ X) c = readFileLoop g2 (linesText B ++ Y) c := by
  induction hAB with
  | nil => simpa [linesText] using hXY
  | @cons a b as bs hab _ ih =>
    intro c g1 g2 h1 h2
    obtain ⟨ha, hb, ht, hnf⟩ := hab
    simp only [linesText_cons, List.append_assoc, List.cons_append] at h1 h2 ⊢
    cases g1 with
    | zero => omega
    | succ g1 =>
      cases g2 with
      | zero => omega
      | succ g2 =>
        simp only [List.length_append, List.length_cons] at h1 h2
        refine readFileLoop_sameLine g1 g2 _ _ _ _ _ _ c (bufioReadString_line a _ ha)
          (bufioReadString_line b _ hb) ?_ ?_ ?_
        · rw [Trim_newline, Trim_newline, ht]
        · rw [Trim_newline]
          exact hnf
        · intro c'
          exact ih c' g1 g2 (by simp only [List.length_append]; omega)
            (by simp only [List.length_append]; omega)

/-- Over the stream of unread bytes: for all sequences of lines `L1` and `L2`,
where no line of `L1` has the command `FILE`, and every line `u` whose trimmed
text is not empty, does not start with a quote, and has a first field that is
none of the nine commands of the disc level, `ReadFile` on `L1 ++ [u] ++ L2`
returns what it returns on `L1 ++ L2`. -/
theorem ReadFile_unknown_command (L1 L2 : List (List Nat)) (u : List Nat) (c0 : Nat)
    (t : List Nat) (h1 : ∀ l ∈ L1, 10 ∉ l ∧ NoFileCommand l) (hu : 10 ∉ u)
    (htrim : Trim u = c0 :: t) (hq : c0 ≠ 34 ∧ c0 ≠ 39)
    (hcmd : firstField (Trim u) ∉ discCommands) :
    ReadFile (linesText (L1 ++ [u] ++ L2)) = ReadFile (linesText (L1 ++ L2)) := by
  have hAB : List.Forall₂
      (fun a b => 10 ∉ a ∧ 10 ∉ b ∧ Trim a = Trim b ∧ NoFileCommand a) L1 L1 := by
    induction L1 with
    | nil => exact List.Forall₂.nil
    | cons l ls ih =>
      have hl := h1 l (by simp)
      exact List.Forall₂.cons ⟨hl.1, hl.1, rfl, hl.2⟩
        (ih (fun x hx => h1 x (by simp [hx])))
  have hXY : ∀ c g1 g2, (linesText ([u] ++ L2)).length < g1 → (linesText L2).length < g2 →
      readFileLoop g1 (linesText ([u] ++ L2)) c = readFileLoop g2 (linesText L2) c := by
    intro c g1 g2 hg1 hg2
    rw [List.singleton_append, linesText_cons] at hg1 ⊢
    cases g1 with
    | zero => omega
    | succ g1 =>
      have hr : ReadString (Trim (u ++ [10])) =
          .ok (firstField (Trim u), (Trim u).drop (indexByte 32 (Trim u) + 1)) := by
        rw [Trim_newline, htrim]
        exact ReadString_unquoted c0 t (Trim_head u c0 t htrim) hq
      rw [readFileLoop_skip g1 _ _ _ _ _ c (bufioReadString_line u _ hu) hr hcmd]
      simp only [List.length_append, List.length_cons] at hg1
      exact readFileLoop_fuel _ _ _ _ (by omega) hg2
  have key := readFileLoop_lines L1 L1 _ _ hAB hXY Cuesheet.zero
    ((linesText (L1 ++ [u] ++ L2)).length + 1) ((linesText (L1 ++ L2)).length + 1)
  rw [List.append_assoc, linesText_append L1 ([u] ++ L2), linesText_append L1 L2] at *
  exact key (Nat.lt_succ_self _) (Nat.lt_succ_self _)

/-- Over the stream of unread bytes, an instance: the line `  DATE 2015`
between a `REM` line and a `FILE` block is skipped. -/
theorem ReadFile_unknown_command_witness :
    ReadFile (linesText ([bytes "REM a"] ++ [bytes "  DATE 2015"] ++
        [bytes "FILE a.wav WAVE", bytes "  TRACK 01 AUDIO"])) =
      ReadFile (linesText ([bytes "REM a"] ++
        [bytes "FILE a.wav WAVE", bytes "  TRACK 01 AUDIO"])) :=
  ReadFile_unknown_command [bytes "REM a"] [bytes "FILE a.wav WAVE", bytes "  TRACK 01 AUDIO"]
    (bytes "  DATE 2015") 68 (bytes "ATE 2015")
    (by
      intro l hl
      rw [List.mem_singleton] at hl
      subst hl
      refine ⟨by decide, ?_⟩
      intro command rest h
      have e : ReadString (Trim (bytes "REM a")) = .ok (bytes "REM", bytes "a") := by decide
      rw [e] at h
      simp only [Except.ok.injEq, Prod.mk.injEq] at h
      rw [← h.1]
      decide)
    (by decide) (by decide) (by decide) (by decide)

/-! ## One line of the disc level -/

/-- A `REM` line appends the rest of the line to `Rem`. -/
theorem readFileLoop_REM (f : Nat) (b line r rest : List Nat) (c : Cuesheet)
    (hb : bufioReadString b = some (line, r))
    (hr : ReadString (Trim line) = .ok (bytes "REM", rest)) :
    readFileLoop (f + 1) b c = readFileLoop f r { c with Rem := c.Rem ++ [rest] } := by
  conv => lhs; unfold readFileLoop
  rw [hb]
  simp only [hr, bind, Except.bind]
  rfl

/-- A `CATALOG` line stores the rest of the line. -/
theorem readFileLoop_CATALOG (f : Nat) (b line r rest : List Nat) (c : Cuesheet)
    (hb : bufioReadString b = some (line, r))
    (hr : ReadString (Trim line) = .ok (bytes "CATALOG", rest)) :
    readFileLoop (f + 1) b c = readFileLoop f r { c with Catalog := rest } := by
  conv => lhs; unfold readFileLoop
  rw [hb]
  simp only [hr, bind, Except.bind]
  rfl

/-- A `CDTEXTFILE` line of the disc level stores the next field. -/
theorem readFileLoop_CDTEXTFILE (f : Nat) (b line r rest : List Nat) (v : List Nat) (rest' : List Nat)
    (c : Cuesheet) (hb : bufioReadString b = some (line, r))
    (hr : ReadString (Trim line) = .ok (bytes "CDTEXTFILE", rest))
    (hv : ReadString rest = .ok (v, rest')) :
    readFileLoop (f + 1) b c = readFileLoop f r { c with CdTextFile := v } := by
  conv => lhs; unfold readFileLoop
  rw [hb]
  simp only [hr, hv, bind, Except.bind]
  rfl

/-- A `TITLE` line of the disc level stores the next field. -/
theorem readFileLoop_TITLE (f : Nat) (b line r rest : List Nat) (v : List Nat) (rest' : List Nat)
    (c : Cuesheet) (hb : bufioReadString b = some (line, r))
    (hr : ReadString (Trim line) = .ok (bytes "TITLE", rest))
    (hv : ReadString rest = .ok (v, rest')) :
    readFileLoop (f + 1) b c = readFileLoop f r { c with Title := v } := by
  conv => lhs; unfold readFileLoop
  rw [hb]
  simp only [hr, hv, bind, Except.bind]
  rfl

/-- A `PERFORMER` line of the disc level stores the next field. -/
theorem readFileLoop_PERFORMER (f : Nat) (b line r rest : List Nat) (v : List Nat) (rest' : List Nat)
    (c : Cuesheet) (hb : bufioReadString b = some (line, r))
    (hr : ReadString (Trim line) = .ok (bytes "PERFORMER", rest))
    (hv : ReadString rest = .ok (v, rest')) :
    readFileLoop (f + 1) b c = readFileLoop f r { c with Performer := v } := by
  conv => lhs; unfold readFileLoop
  rw [hb]
  simp only [hr, hv, bind, Except.bind]
  rfl

/-- A `SONGWRITER` line of the disc level stores the next field. -/
theorem readFileLoop_SONGWRITER (f : Nat) (b line r rest : List Nat) (v : List Nat) (rest' : List Nat)
    (c : Cuesheet) (hb : bufioReadString b = some (line, r))
    (hr : ReadString (Trim line) = .ok (bytes "SONGWRITER", rest))
    (hv : ReadString rest = .ok (v, rest')) :
    readFileLoop (f + 1) b c = readFileLoop f r { c with SongWriter := v } := by
  conv => lhs; unfold readFileLoop
  rw [hb]
  simp only [hr, hv, bind, Except.bind]
  rfl

/-- A `PREGAP` line of the disc level stores the frame read. -/
theorem readFileLoop_PREGAP (f : Nat) (b line r rest : List Nat) (v : Nat) (rest' : List Nat)
    (c : Cuesheet) (hb : bufioReadString b = some (line, r))
    (hr : ReadString (Trim line) = .ok (bytes "PREGAP", rest))
    (hv : ReadFrame rest = .ok (v, rest')) :
    readFileLoop (f + 1) b c = readFileLoop f r { c with Pregap := v } := by
  conv => lhs; unfold readFileLoop
  rw [hb]
  simp only [hr, hv, bind, Except.bind]
  rfl

/-- A `POSTGAP` line of the disc level stores the frame read. -/
theorem readFileLoop_POSTGAP (f : Nat) (b line r rest : List Nat) (v : Nat) (rest' : List Nat)
    (c : Cuesheet) (hb : bufioReadString b = some (line, r))
    (hr : ReadString (Trim line) = .ok (bytes "POSTGAP", rest))
    (hv : ReadFrame rest = .ok (v, rest')) :
    readFileLoop (f + 1) b c = readFileLoop f r { c with Postgap := v } := by
  conv => lhs; unfold readFileLoop
  rw [hb]
  simp only [hr, hv, bind, Except.bind]
  rfl

/-- A `FILE` line reads the name, the type and the tracks of a file. -/
theorem readFileLoop_FILE (f : Nat) (b line r rest fname rest' ftype rest'' : List Nat)
    (tracks : List Track) (r' : List Nat) (c : Cuesheet)
    (hb : bufioReadString b = some (line, r))
    (hr : ReadString (Trim line) = .ok (bytes "FILE", rest))
    (hn : ReadString rest = .ok (fname, rest'))
    (ht : ReadString rest' = .ok (ftype, rest''))
    (htr : readTracks (r.length + 1) r [] = .ok (tracks, r')) :
    readFileLoop (f + 1) b c =
      readFileLoop f r' { c with File := c.File ++ [⟨fname, ftype, tracks⟩] } := by
  conv => lhs; unfold readFileLoop
  rw [hb]
  simp only [hr, hn, ht, htr, bind, Except.bind]
  rfl

/-! ## Indentation at the disc level -/

/-- At the end of the stream the loop of `ReadFile` returns the sheet. -/
theorem readFileLoop_eof (f : Nat) (t : List Nat) (c : Cuesheet) (ht : 10 ∉ t) :
    readFileLoop (f + 1) t c = .ok c := by
  unfold readFileLoop
  rw [bufioReadString_none t ht]
  rfl

/-- Spaces and tabs before a line do not change what the line is trimmed to. -/
theorem Trim_indent (w l : List Nat) (hw : ∀ c ∈ w, c = 32 ∨ c = 9) :
    Trim (w ++ l) = Trim l := by
  have hd : ∀ c ∈ w, isDelim c = true := by
    intro c hc
    rcases hw c hc with e | e <;> subst e <;> decide
  rw [Trim, TrimLeft_append_delims w l hd]
  rfl

/-- C20: in a text where no line has the command `FILE`, spaces and tabs put
before any line, or taken away from before any line, do not change what
`ReadFile` returns; a line `    TITLE "x y"` (or `PERFORMER`, `SONGWRITER`,
`PREGAP`, `POSTGAP`) read by the loop of the disc level sets the field of the
disc, as after a block of tracks ended by an unknown command. -/
theorem ReadFile_indent :
    (∀ (L : List (List Nat × List Nat)) (w t : List Nat),
      (∀ p ∈ L, (∀ c ∈ p.1, c = 32 ∨ c = 9) ∧ 10 ∉ p.2 ∧ NoFileCommand p.2) →
      (∀ c ∈ w, c = 32 ∨ c = 9) → 10 ∉ t →
      ReadFile (linesText (L.map (fun p => p.1 ++ p.2)) ++ (w ++ t)) =
        ReadFile (linesText (L.map (fun p => p.2)) ++ t)) ∧
    (∀ (f : Nat) (rest : List Nat) (c : Cuesheet),
      readFileLoop (f + 1) (bytes "    TITLE \"x y\"\n" ++ rest) c =
        readFileLoop f rest { c with Title := bytes "x y" } ∧
      readFileLoop (f + 1) (bytes "    PERFORMER \"x y\"\n" ++ rest) c =
        readFileLoop f rest { c with Performer := bytes "x y" } ∧
      readFileLoop (f + 1) (bytes "    SONGWRITER \"x y\"\n" ++ rest) c =
        readFileLoop f rest { c with SongWriter := bytes "x y" } ∧
      readFileLoop (f + 1) (bytes "    PREGAP 00:02:00\n" ++ rest) c =
        readFileLoop f rest { c with Pregap := 150 } ∧
      readFileLoop (f + 1) (bytes "    POSTGAP 00:02:00\n" ++ rest) c =
        readFileLoop f rest { c with Postgap := 150 }) ∧
    ReadFile (bytes "FILE a.wav WAVE\n" ++ bytes "  TRACK 01 AUDIO\n" ++ bytes "  BOGUS\n" ++
        bytes "    TITLE \"x y\"\n") =
      .ok { Cuesheet.zero with
            Title := bytes "x y",
            File := [⟨bytes "a.wav", bytes "WAVE",
              [{ Track.zero with TrackNumber := 1, TrackDataType := bytes "AUDIO" }]⟩] } ∧
    ReadFile (bytes "FILE a.wav WAVE\n" ++ bytes "  TRACK 01 AUDIO\n" ++ bytes "    BOGUS\n" ++
        bytes "    ISRC ABC\n" ++ bytes "    TITLE \"x y\"\n") =
      .ok { Cuesheet.zero with
            Title := bytes "x y",
            File := [⟨bytes "a.wav", bytes "WAVE",
              [{ Track.zero with TrackNumber := 1, TrackDataType := bytes "AUDIO" }]⟩] } := by
  refine ⟨?_, ?_, by decide, by decide⟩
  · intro L w t hL hw ht
    have hwt : 10 ∉ w ++ t := by
      intro h
      rcases List.mem_append.1 h with h | h
      · rcases hw 10 h with e | e <;> omega
      · exact ht h
    have hAB : List.Forall₂
        (fun a b => 10 ∉ a ∧ 10 ∉ b ∧ Trim a = Trim b ∧ NoFileCommand a)
        (L.map (fun p => p.1 ++ p.2)) (L.map (fun p => p.2)) := by
      induction L with
      | nil => exact List.Forall₂.nil
      | cons p ps ih =>
        obtain ⟨hp1, hp2, hp3⟩ := hL p (by simp)
        refine List.Forall₂.cons ⟨?_, hp2, Trim_indent p.1 p.2 hp1, ?_⟩
          (ih (fun x hx => hL x (by simp [hx])))
        · intro h
          rcases List.mem_append.1 h with h | h
          · rcases hp1 10 h with e | e <;> omega
          · exact hp2 h
        · intro command rest h
          rw [Trim_indent p.1 p.2 hp1] at h
          exact hp3 command rest h
    have hXY : ∀ c g1 g2, (w ++ t).length < g1 → t.length < g2 →
        readFileLoop g1 (w ++ t) c = readFileLoop g2 t c := by
      intro c g1 g2 h1 h2
      cases g1 with
      | zero => omega
      | succ g1 =>
        cases g2 with
        | zero => omega
        | succ g2 => rw [readFileLoop_eof g1 _ c hwt, readFileLoop_eof g2 _ c ht]
    exact readFileLoop_lines _ _ _ _ hAB hXY Cuesheet.zero _ _ (Nat.lt_succ_self _)
      (Nat.lt_succ_self _)
  · intro f rest c
    refine ⟨?_, ?_, ?_, ?_, ?_⟩
    · exact readFileLoop_TITLE f _ _ rest (bytes "\"x y\"") (bytes "x y") [] c
        (bufioReadString_line (bytes "    TITLE \"x y\"") rest (by decide)) (by decide)
        (by decide)
    · exact readFileLoop_PERFORMER f _ _ rest (bytes "\"x y\"") (bytes "x y") [] c
        (bufioReadString_line (bytes "    PERFORMER \"x y\"") rest (by decide)) (by decide)
        (by decide)
    · exact readFileLoop_SONGWRITER f _ _ rest (bytes "\"x y\"") (bytes "x y") [] c
        (bufioReadString_line (bytes "    SONGWRITER \"x y\"") rest (by decide)) (by decide)
        (by decide)
    · exact readFileLoop_PREGAP f _ _ rest (bytes "00:02:00") 150 [] c
        (bufioReadString_line (bytes "    PREGAP 00:02:00") rest (by decide)) (by decide)
        (by decide)
    · exact readFileLoop_POSTGAP f _ _ rest (bytes "00:02:00") 150 [] c
        (bufioReadString_line (bytes "    POSTGAP 00:02:00") rest (by decide)) (by decide)
        (by decide)

/-- C20, witness: two spaces taken away from a `REM` line and a tab put before
a `TITLE` line. -/
theorem ReadFile_indent_witness :
    ReadFile (linesText [bytes "  REM a", bytes "\tTITLE x"] ++ bytes " ") =
      ReadFile (linesText [bytes "REM a", bytes "TITLE x"]) := by
  have h := ReadFile_indent.1 [(bytes "  ", bytes "REM a"), (bytes "\t", bytes "TITLE x")]
    (bytes " ") []
    (by
      intro p hp
      simp only [List.mem_cons, List.mem_nil_iff, or_false] at hp
      rcases hp with e | e <;> subst e
      · refine ⟨by decide, by decide, ?_⟩
        intro command rest h
        have e : ReadString (Trim (bytes "REM a")) = .ok (bytes "REM", bytes "a") := by decide
        rw [e] at h
        simp only [Except.ok.injEq, Prod.mk.injEq] at h
        rw [← h.1]
        decide
      · refine ⟨by decide, by decide, ?_⟩
        intro command rest h
        have e : ReadString (Trim (bytes "TITLE x")) = .ok (bytes "TITLE", bytes "x") := by
          decide
        rw [e] at h
        simp only [Except.ok.injEq, Prod.mk.injEq] at h
        rw [← h.1]
        decide)
    (by decide) (by decide)
  simpa using h

/-! ## Trimmed lines and their fields -/

/-- A text whose last byte is no delimiter is not trimmed on the right. -/
theorem TrimRight_concat (s : List Nat) (c : Nat) (h : isDelim c = false) :
    TrimRight (s ++ [c]) = s ++ [c] := by
  simp [TrimRight, List.dropWhile, h]

/-- A text that the trim on the right leaves alone ends, when it is not empty,
with a byte that is no delimiter. -/
theorem TrimRight_last (b : List Nat) (hb : b ≠ []) (h : TrimRight b = b) :
    ∃ init z, b = init ++ [z] ∧ isDelim z = false := by
  refine ⟨b.dropLast, b.getLast hb, (List.dropLast_append_getLast hb).symm, ?_⟩
  have h' : List.rdropWhile isDelim b = b := h
  have := (List.rdropWhile_eq_self_iff.1 h') hb
  simpa using this

/-- Before a text that the trim on the right leaves alone, nothing is trimmed. -/
theorem TrimRight_append_clean (a b : List Nat) (hb : b ≠ []) (h : TrimRight b = b) :
    TrimRight (a ++ b) = a ++ b := by
  obtain ⟨init, z, e, hz⟩ := TrimRight_last b hb h
  rw [e, ← List.append_assoc]
  exact TrimRight_concat _ z hz

/-- A text free of delimiters is not trimmed on the right. -/
theorem TrimRight_plain (s : List Nat) (h : ∀ c ∈ s, isDelim c = false) : TrimRight s = s := by
  have h' : List.rdropWhile isDelim s = s := by
    rw [List.rdropWhile_eq_self_iff]
    intro hl
    simp [h _ (List.getLast_mem hl)]
  exact h'

/-- A text that starts with a byte that is no delimiter is not trimmed on the
left, whatever follows. -/
theorem TrimLeft_cons (c : Nat) (t : List Nat) (h : isDelim c = false) :
    TrimLeft (c :: t) = c :: t := by
  simp [TrimLeft, List.dropWhile, h]

/-- A text that the trim on the left leaves alone is left alone when bytes
follow, if it is not empty. -/
theorem TrimLeft_append_clean (a b : List Nat) (ha : a ≠ []) (h : TrimLeft a = a) :
    TrimLeft (a ++ b) = a ++ b := by
  cases a with
  | nil => exact absurd rfl ha
  | cons c t =>
    have hc := TrimLeft_head (c :: t) c t h
    exact TrimLeft_cons c (t ++ b) hc

/-- An indented line is trimmed to its text, when the text has no delimiter at
either end. -/
theorem Trim_indent_line (w body : List Nat) (hw : ∀ c ∈ w, isDelim c = true)
    (hl : TrimLeft body = body) (hr : TrimRight body = body) :
    Trim (w ++ body ++ [10]) = body := by
  rw [List.append_assoc, Trim, TrimLeft_append_delims w _ hw]
  cases body with
  | nil => decide
  | cons c t =>
    rw [TrimLeft_append_clean (c :: t) [10] (by simp) hl, TrimRight_snoc _ 10 (by decide), hr]

/-- A token holds no space. -/
theorem Token.no_space (t : List Nat) (h : Token t) : 32 ∉ t := by
  intro hm
  have := h.2.1 32 hm
  simp [isDelim] at this

/-- A token as a list with a first byte. -/
theorem Token.cons (t : List Nat) (h : Token t) :
    ∃ c s, t = c :: s ∧ isDelim c = false ∧ c ≠ 34 ∧ c ≠ 39 := by
  obtain ⟨h0, h1, h2, h3⟩ := h
  cases t with
  | nil => exact absurd rfl h0
  | cons c s =>
    refine ⟨c, s, rfl, h1 c (by simp), ?_, ?_⟩
    · intro e
      exact h2 (by simp [e])
    · intro e
      exact h3 (by simp [e])

/-- A token is not trimmed. -/
theorem Token.trim (t : List Nat) (h : Token t) : TrimLeft t = t ∧ TrimRight t = t := by
  obtain ⟨c, s, e, hd, -, -⟩ := Token.cons t h
  refine ⟨?_, TrimRight_plain t h.2.1⟩
  rw [e]
  exact TrimLeft_cons c s hd

/-- The search for a space in a text made of a text without space and what
follows it. -/
theorem indexByte_append_not_mem (c : Nat) (s t : List Nat) (h : c ∉ s) :
    indexByte c (s ++ t) = s.length + indexByte c t := by
  induction s with
  | nil => simp
  | cons x xs ih =>
    have hx : x ≠ c := fun e => h (by simp [e])
    have hxs : c ∉ xs := fun e => h (by simp [e])
    simp [indexByte, hx, ih hxs]
    omega

/-- A token at the front of the cursor is read; what is left of the cursor is
what follows the space after it. -/
theorem ReadString_field (t R : List Nat) (ht : Token t)
    (hR : R = [] ∨ ∃ R', R = 32 :: R') : ReadString (t ++ R) = .ok (t, R.drop 1) := by
  obtain ⟨c, s, e, hd, hq1, hq2⟩ := Token.cons t ht
  have hsp := Token.no_space t ht
  subst e
  rw [List.cons_append, ReadString_unquoted c (s ++ R) hd ⟨hq1, hq2⟩, firstField,
    ← List.cons_append, indexByte_append_not_mem 32 (c :: s) R hsp]
  rcases hR with e | ⟨R', e⟩
  · subst e
    simp [indexByte]
  · subst e
    simp [indexByte]

/-- The cursor is trimmed on the left before a field is read. -/
theorem ReadString_TrimLeft (s : List Nat) : ReadString (TrimLeft s) = ReadString s := by
  have h : TrimLeft (TrimLeft s) = TrimLeft s := by
    cases e : TrimLeft s with
    | nil => rfl
    | cons c t => exact TrimLeft_cons c t (TrimLeft_head s c t e)
  simp only [ReadString, h]

/-- A text between double quotes, without double quote or backslash, is read
as it is, and the cursor is left after the closing quote. -/
theorem ReadString_quoted (s rest : List Nat) (h1 : 34 ∉ s) (h2 : 92 ∉ s) :
    ReadString (34 :: s ++ 34 :: rest) = .ok (s, rest) := by
  have hscan := unquoteScan_quoteBody s rest 1
  rw [quoteBody_plain s h1 h2] at hscan
  have hd : isDelim 34 = false := by decide
  simp only [ReadString, TrimLeft, List.cons_append, List.dropWhile, hd, isQuoted, unquote]
  simp [bind, Except.bind, pure, Except.pure, hscan, Nat.add_comm 1,
    List.take_append_eq_append_take, List.drop_append_eq_append_drop]

/-- `unquote` on a text between double quotes, without double quote or
backslash, returns the text. -/
theorem unquote_quoted (s : List Nat) (h1 : 34 ∉ s) (h2 : 92 ∉ s) :
    unquote (34 :: s ++ [34]) = .ok s := by
  have hscan := unquoteScan_quoteBody s [] 1
  rw [quoteBody_plain s h1 h2] at hscan
  simp only [unquote, List.cons_append, hscan]
  simp [Nat.add_comm 1, List.take_append_eq_append_take]

/-! ## One line of a track and of a block of tracks -/

/-- A prefix of the first line is a prefix of the stream. -/
theorem HasPrefix_of_line (b line r p : List Nat) (hb : bufioReadString b = some (line, r))
    (hp : HasPrefix line p = true) : HasPrefix b p = true := by
  unfold bufioReadString at hb
  simp only [] at hb
  split at hb
  · simp only [Option.some.injEq, Prod.mk.injEq] at hb
    simp only [HasPrefix, List.isPrefixOf_iff_prefix] at hp ⊢
    rw [← hb.1] at hp
    exact hp.trans (List.take_prefix _ _)
  · simp at hb

/-- A stream that does not start with four spaces ends the track. -/
theorem readTrack_pushback (f : Nat) (b : List Nat) (track : Track)
    (h : HasPrefix b (bytes "    ") = false) : readTrack (f + 1) b track = .ok (track, b) := by
  unfold readTrack
  cases hb : bufioReadString b with
  | none => rfl
  | some p =>
    obtain ⟨line, r⟩ := p
    have hl : HasPrefix line (bytes "    ") = false := by
      cases e : HasPrefix line (bytes "    ") with
      | false => rfl
      | true => rw [HasPrefix_of_line b line r _ hb e] at h; exact absurd h (by simp)
    simp only [hl]
    rfl

/-- A line with a command of the track level gives its attribute to the track. -/
theorem readTrack_step (f : Nat) (b line r cmd rest : List Nat) (track track' : Track)
    (hb : bufioReadString b = some (line, r)) (hp : HasPrefix line (bytes "    ") = true)
    (hr : ReadString (Trim line) = .ok (cmd, rest))
    (hc : trackCommand cmd rest track = .ok (some track')) :
    readTrack (f + 1) b track = readTrack f r track' := by
  conv => lhs; unfold readTrack
  rw [hb]
  simp only [hp, hr, hc, bind, Except.bind]
  rfl

/-- An indented line with another command ends the track and is dropped. -/
theorem readTrack_break (f : Nat) (b line r cmd rest : List Nat) (track : Track)
    (hb : bufioReadString b = some (line, r)) (hp : HasPrefix line (bytes "    ") = true)
    (hr : ReadString (Trim line) = .ok (cmd, rest))
    (hc : trackCommand cmd rest track = .ok none) :
    readTrack (f + 1) b track = .ok (track, r) := by
  conv => lhs; unfold readTrack
  rw [hb]
  simp only [hp, hr, hc, bind, Except.bind]
  rfl

/-- A stream that does not start with two spaces ends the block of tracks. -/
theorem readTracks_pushback (f : Nat) (b : List Nat) (tracks : List Track)
    (h : HasPrefix b (bytes "  ") = false) :
    readTracks (f + 1) b tracks = .ok (tracks, b) := by
  unfold readTracks
  cases hb : bufioReadString b with
  | none => rfl
  | some p =>
    obtain ⟨line, r⟩ := p
    have hl : HasPrefix line (bytes "  ") = false := by
      cases e : HasPrefix line (bytes "  ") with
      | false => rfl
      | true => rw [HasPrefix_of_line b line r _ hb e] at h; exact absurd h (by simp)
    simp only [hl]
    rfl

/-- A `TRACK` line reads the number, the data type and the lines of a track. -/
theorem readTracks_step (f : Nat) (b line r rest : List Nat) (n : Nat)
    (rest' dataType rest'' : List Nat) (track : Track) (r' : List Nat) (tracks : List Track)
    (hb : bufioReadString b = some (line, r)) (hp : HasPrefix line (bytes "  ") = true)
    (hr : ReadString (Trim line) = .ok (bytes "TRACK", rest))
    (hn : ReadUint rest = .ok (n, rest')) (hd : ReadString rest' = .ok (dataType, rest''))
    (ht : readTrack (r.length + 1) r
      { Track.zero with TrackNumber := n, TrackDataType := dataType } = .ok (track, r')) :
    readTracks (f + 1) b tracks = readTracks f r' (tracks ++ [track]) := by
  conv => lhs; unfold readTracks
  rw [hb]
  simp only [hp, hr, hn, hd, ht, bind, Except.bind]
  rfl

/-- An indented line with another command than `TRACK` ends the block of
tracks and is dropped. -/
theorem readTracks_break (f : Nat) (b line r cmd rest : List Nat) (tracks : List Track)
    (hb : bufioReadString b = some (line, r)) (hp : HasPrefix line (bytes "  ") = true)
    (hr : ReadString (Trim line) = .ok (cmd, rest)) (hc : cmd ≠ bytes "TRACK") :
    readTracks (f + 1) b tracks = .ok (tracks, r) := by
  conv => lhs; unfold readTracks
  rw [hb]
  simp only [hp, hr, bind, Except.bind, if_neg hc]
  rfl

/-! ## The tokens of a `FLAGS` line -/

/-- One token of a `FLAGS` line adds its bit. -/
theorem readFlags_step (f : Nat) (line tok line' : List Nat) (flags : Nat)
    (hl : line ≠ []) (hr : ReadString line = .ok (tok, line')) :
    readFlags (f + 1) line flags = readFlags f line' (flags ||| flagBit tok) := by
  have hlen : line.length > 0 := List.length_pos.2 hl
  conv => lhs; unfold readFlags
  simp only [hlen, if_true, hr, bind, Except.bind, flagBit]
  by_cases h1 : tok = bytes "DCP"
  · simp only [h1, if_true]
  by_cases h2 : tok = bytes "4CH"
  · simp only [h2, if_true]
    rfl
  by_cases h3 : tok = bytes "PRE"
  · simp only [h3, if_true]
    rfl
  by_cases h4 : tok = bytes "SCMS"
  · simp only [h4, if_true]
    rfl
  simp only [if_neg h1, if_neg h2, if_neg h3, if_neg h4, Nat.or_zero]

/-- The text of tokens, each after one space, starts with a space or is empty. -/
theorem flagsText_head (ts : List (List Nat)) :
    (ts.map (fun t => 32 :: t)).flatten = [] ∨
      ∃ R', (ts.map (fun t => 32 :: t)).flatten = 32 :: R' := by
  cases ts with
  | nil => left; rfl
  | cons t ts => right; exact ⟨_, rfl⟩

/-- The loop over the tokens of a `FLAGS` line adds the bits of the tokens. -/
theorem readFlags_tokens (ts : List (List Nat)) (hts : ∀ t ∈ ts, Token t) (flags f : Nat)
    (hf : ((ts.map (fun t => 32 :: t)).flatten.drop 1).length < f) :
    readFlags f ((ts.map (fun t => 32 :: t)).flatten.drop 1) flags =
      .ok (ts.foldl (fun acc t => acc ||| flagBit t) flags) := by
  induction ts generalizing flags f with
  | nil =>
    cases f with
    | zero => omega
    | succ f => simp [readFlags, pure, Except.pure]
  | cons t ts ih =>
    have ht := hts t (by simp)
    have hts' : ∀ x ∈ ts, Token x := fun x hx => hts x (by simp [hx])
    simp only [List.map_cons, List.flatten_cons, List.cons_append, List.drop_succ_cons,
      List.drop_zero] at hf ⊢
    cases f with
    | zero => omega
    | succ f =>
      have hne : t ++ (ts.map (fun t => 32 :: t)).flatten ≠ [] := by
        intro e
        exact ht.1 (List.append_eq_nil.1 e).1
      rw [readFlags_step f _ t _ flags hne (ReadString_field t _ ht (flagsText_head ts))]
      simp only [List.foldl_cons]
      refine ih hts' _ f ?_
      rw [List.length_append] at hf
      have : ((ts.map (fun t => 32 :: t)).flatten.drop 1).length ≤
          (ts.map (fun t => 32 :: t)).flatten.length := by
        rw [List.length_drop]
        omega
      have := List.length_pos.2 ht.1
      omega

/-- The bit of a token added to a combination of flags. -/
theorem flagsOf_or_flagBit (d f p s : Bool) (t : List Nat) :
    flagsOf d f p s ||| flagBit t =
      flagsOf (d || decide (bytes "DCP" = t)) (f || decide (bytes "4CH" = t))
        (p || decide (bytes "PRE" = t)) (s || decide (bytes "SCMS" = t)) := by
  by_cases h1 : bytes "DCP" = t
  · subst h1
    cases d <;> cases f <;> cases p <;> cases s <;> decide
  by_cases h2 : bytes "4CH" = t
  · subst h2
    cases d <;> cases f <;> cases p <;> cases s <;> decide
  by_cases h3 : bytes "PRE" = t
  · subst h3
    cases d <;> cases f <;> cases p <;> cases s <;> decide
  by_cases h4 : bytes "SCMS" = t
  · subst h4
    cases d <;> cases f <;> cases p <;> cases s <;> decide
  have e1 : ¬ t = bytes "DCP" := fun e => h1 e.symm
  have e2 : ¬ t = bytes "4CH" := fun e => h2 e.symm
  have e3 : ¬ t = bytes "PRE" := fun e => h3 e.symm
  have e4 : ¬ t = bytes "SCMS" := fun e => h4 e.symm
  simp [flagBit, h1, h2, h3, h4, e1, e2, e3, e4]

/-- The bits of a sequence of tokens added to a combination of flags: each
flag is set if it was set or if its token is among the tokens. -/
theorem foldl_flagBit (ts : List (List Nat)) (d f p s : Bool) :
    ts.foldl (fun acc t => acc ||| flagBit t) (flagsOf d f p s) =
      flagsOf (d || decide (bytes "DCP" ∈ ts)) (f || decide (bytes "4CH" ∈ ts))
        (p || decide (bytes "PRE" ∈ ts)) (s || decide (bytes "SCMS" ∈ ts)) := by
  induction ts generalizing d f p s with
  | nil => simp
  | cons t ts ih =>
    rw [List.foldl_cons, flagsOf_or_flagBit, ih]
    simp only [List.mem_cons, Bool.decide_or, Bool.or_assoc]

/-- The loop over the tokens of a `FLAGS` line, from no flag: each flag is set
exactly if its token is among the tokens. -/
theorem readFlags_flagsOf (ts : List (List Nat)) (hts : ∀ t ∈ ts, Token t) :
    readFlags (((ts.map (fun t => 32 :: t)).flatten.drop 1).length + 1)
        ((ts.map (fun t => 32 :: t)).flatten.drop 1) None =
      .ok (flagsOf (decide (bytes "DCP" ∈ ts)) (decide (bytes "4CH" ∈ ts))
        (decide (bytes "PRE" ∈ ts)) (decide (bytes "SCMS" ∈ ts))) := by
  rw [readFlags_tokens ts hts None _ (Nat.lt_succ_self _)]
  have h := foldl_flagBit ts false false false false
  simp only [Bool.false_or] at h
  rw [← h]
  rfl

/-! ## The attribute lines of a track -/

/-- The text of a frame is made of digits and colons. -/
theorem FormatFrame_ge (f c : Nat) (h : c ∈ FormatFrame f) : 48 ≤ c := by
  rw [FormatFrame_digits] at h
  simp only [List.mem_cons, List.mem_nil_iff, or_false] at h
  omega

/-- The text of a number is made of digits. -/
theorem FormatTrackNumber_ge (n c : Nat) (h : c ∈ FormatTrackNumber n) : 48 ≤ c := by
  rw [FormatTrackNumber, leftPad_FormatUint] at h
  simp only [List.mem_cons, List.mem_nil_iff, or_false] at h
  omega

/-- The text of a number is a token. -/
theorem FormatTrackNumber_token (n : Nat) : Token (FormatTrackNumber n) := by
  refine ⟨?_, fun c hc => isDelim_digit c (FormatTrackNumber_ge n c hc), ?_, ?_⟩
  · rw [FormatTrackNumber, leftPad_FormatUint]
    simp
  · rw [FormatTrackNumber, leftPad_FormatUint]
    simp only [List.head?_cons, ne_eq, Option.some.injEq]
    omega
  · rw [FormatTrackNumber, leftPad_FormatUint]
    simp only [List.head?_cons, ne_eq, Option.some.injEq]
    omega

/-- The text of a frame is not empty. -/
theorem FormatFrame_ne_nil (f : Nat) : FormatFrame f ≠ [] := by
  rw [FormatFrame_digits]
  simp

/-- The text of a frame is not trimmed on the right. -/
theorem FormatFrame_TrimRight (f : Nat) : TrimRight (FormatFrame f) = FormatFrame f :=
  TrimRight_plain _ (fun c hc => isDelim_digit c (FormatFrame_ge f c hc))

/-- The text of a frame holds no line feed. -/
theorem FormatFrame_no_newline (f : Nat) : 10 ∉ FormatFrame f := by
  intro h
  have := FormatFrame_ge f 10 h
  omega

/-- The text of tokens, each after one space, holds no line feed. -/
theorem flagsText_no_newline (ts : List (List Nat)) (hts : ∀ t ∈ ts, Token t) :
    10 ∉ (ts.map (fun t => 32 :: t)).flatten := by
  intro h
  simp only [List.mem_flatten, List.mem_map] at h
  obtain ⟨l, ⟨t, ht, e⟩, hl⟩ := h
  subst e
  rcases List.mem_cons.1 hl with e | e
  · omega
  · have := (hts t ht).2.1 10 e
    simp [isDelim] at this

/-- The text of tokens after a command is not trimmed on the right. -/
theorem flagsText_TrimRight (k : List Nat) (hkr : TrimRight k = k)
    (ts : List (List Nat)) (hts : ∀ t ∈ ts, Token t) :
    TrimRight (k ++ (ts.map (fun t => 32 :: t)).flatten) =
      k ++ (ts.map (fun t => 32 :: t)).flatten := by
  rcases List.eq_nil_or_concat ts with e | ⟨ts', t, e⟩
  · subst e
    simpa using hkr
  · subst e
    rw [List.concat_eq_append] at hts ⊢
    have ht := hts t (by simp)
    have e : k ++ ((ts' ++ [t]).map (fun t => 32 :: t)).flatten =
        (k ++ (ts'.map (fun t => 32 :: t)).flatten ++ [32]) ++ t := by
      simp
    rw [e]
    exact TrimRight_append_clean _ t ht.1 (Token.trim t ht).2

/-- The text of a well-formed attribute line holds no line feed and has no
delimiter at either end. -/
theorem Attr.body_clean (a : Attr) (h : a.WF) :
    10 ∉ a.body ∧ TrimLeft a.body = a.body ∧ TrimRight a.body = a.body := by
  cases a with
  | flags ts =>
    refine ⟨?_, TrimLeft_append_clean (bytes "FLAGS") _ (by decide) (by decide),
      flagsText_TrimRight (bytes "FLAGS") (by decide) ts h⟩
    intro hm
    rcases List.mem_append.1 hm with e | e
    · revert e; decide
    · exact flagsText_no_newline ts h e
  | isrc t =>
    obtain ⟨h0, h1, h2⟩ := h
    refine ⟨?_, TrimLeft_append_clean (bytes "ISRC ") _ (by decide) (by decide),
      TrimRight_append_clean (bytes "ISRC ") t h0 h2⟩
    intro hm
    rcases List.mem_append.1 hm with e | e
    · revert e; decide
    · exact h1 e
  | title s =>
    obtain ⟨h0, h1, h2⟩ := h
    refine ⟨?_, TrimLeft_append_clean (bytes "TITLE ") _ (by decide) (by decide), ?_⟩
    · intro hm
      simp only [Attr.body, List.mem_append, List.mem_cons, List.mem_nil_iff, or_false] at hm
      rcases hm with (e | e | e) | e
      · revert e; decide
      · omega
      · exact h0 e
      · omega
    · exact TrimRight_concat _ 34 (by decide)
  | performer s =>
    obtain ⟨h0, h1, h2⟩ := h
    refine ⟨?_, TrimLeft_append_clean (bytes "PERFORMER ") _ (by decide) (by decide), ?_⟩
    · intro hm
      simp only [Attr.body, List.mem_append, List.mem_cons, List.mem_nil_iff, or_false] at hm
      rcases hm with (e | e | e) | e
      · revert e; decide
      · omega
      · exact h0 e
      · omega
    · exact TrimRight_concat _ 34 (by decide)
  | songWriter s =>
    obtain ⟨h0, h1, h2⟩ := h
    refine ⟨?_, TrimLeft_append_clean (bytes "SONGWRITER ") _ (by decide) (by decide), ?_⟩
    · intro hm
      simp only [Attr.body, List.mem_append, List.mem_cons, List.mem_nil_iff, or_false] at hm
      rcases hm with (e | e | e) | e
      · revert e; decide
      · omega
      · exact h0 e
      · omega
    · exact TrimRight_concat _ 34 (by decide)
  | pregap f =>
    refine ⟨?_, TrimLeft_append_clean (bytes "PREGAP ") _ (by decide) (by decide),
      TrimRight_append_clean _ _ (FormatFrame_ne_nil f) (FormatFrame_TrimRight f)⟩
    intro hm
    rcases List.mem_append.1 hm with e | e
    · revert e; decide
    · exact FormatFrame_no_newline f e
  | postgap f =>
    refine ⟨?_, TrimLeft_append_clean (bytes "POSTGAP ") _ (by decide) (by decide),
      TrimRight_append_clean _ _ (FormatFrame_ne_nil f) (FormatFrame_TrimRight f)⟩
    intro hm
    rcases List.mem_append.1 hm with e | e
    · revert e; decide
    · exact FormatFrame_no_newline f e
  | index n f =>
    refine ⟨?_, ?_, ?_⟩
    · intro hm
      simp only [Attr.body, List.mem_append, List.mem_cons] at hm
      rcases hm with (e | e) | e | e
      · revert e; decide
      · have := FormatTrackNumber_ge n 10 e
        omega
      · omega
      · exact FormatFrame_no_newline f e
    · show TrimLeft (bytes "INDEX " ++ FormatTrackNumber n ++ 32 :: FormatFrame f) = _
      rw [List.append_assoc]
      exact TrimLeft_append_clean (bytes "INDEX ") _ (by decide) (by decide)
    · have e : (Attr.index n f).body =
          (bytes "INDEX " ++ FormatTrackNumber n ++ [32]) ++ FormatFrame f := by
        simp [Attr.body]
      rw [e]
      exact TrimRight_append_clean _ _ (FormatFrame_ne_nil f) (FormatFrame_TrimRight f)

/-- A well-formed attribute line is read as a line and trimmed to its text. -/
theorem Attr.line_read (a : Attr) (h : a.WF) (rest : List Nat) :
    bufioReadString (a.line ++ 10 :: rest) = some (a.line ++ [10], rest) ∧
    HasPrefix (a.line ++ [10]) (bytes "    ") = true ∧
    HasPrefix (a.line ++ [10]) (bytes "  ") = true ∧
    Trim (a.line ++ [10]) = a.body := by
  obtain ⟨h0, h1, h2⟩ := Attr.body_clean a h
  refine ⟨bufioReadString_line _ rest ?_, ?_, ?_, ?_⟩
  · intro hm
    rcases List.mem_append.1 hm with e | e
    · revert e; decide
    · exact h0 e
  · simp [HasPrefix, Attr.line, List.isPrefixOf_iff_prefix, List.append_assoc]
  · have : bytes "    " = bytes "  " ++ bytes "  " := by decide
    simp [HasPrefix, Attr.line, List.isPrefixOf_iff_prefix, List.append_assoc, this]
  · exact Trim_indent_line (bytes "    ") a.body (by decide) h1 h2

/-- A number below 100, written with two digits at the front of the cursor,
is read back. -/
theorem ReadUint_FormatTrackNumber (n : Nat) (R : List Nat) (hn : n < 100)
    (hR : R = [] ∨ ∃ R', R = 32 :: R') :
    ReadUint (FormatTrackNumber n ++ R) = .ok (n, R.drop 1) := by
  have hp : ParseUint (FormatTrackNumber n) = (n, true) := by
    rw [FormatTrackNumber, leftPad_FormatUint,
      ParseUint_two _ _ (Nat.mod_lt _ (by decide)) (Nat.mod_lt _ (by decide))]
    congr 1
    omega
  simp only [ReadUint, ReadString_field _ R (FormatTrackNumber_token n) hR, bind, Except.bind,
    hp]
  rfl

/-- The command and the fields of a well-formed attribute line, and what the
command does to a track. -/
theorem Attr.read (a : Attr) (h : a.WF) :
    ∃ cmd arg, ReadString a.body = .ok (cmd, arg) ∧ cmd ≠ bytes "TRACK" ∧
      ∀ track, trackCommand cmd arg track = .ok (some (a.apply track)) := by
  cases a with
  | flags ts =>
    refine ⟨bytes "FLAGS", (ts.map (fun t => 32 :: t)).flatten.drop 1,
      ReadString_field (bytes "FLAGS") _ (by unfold Token; decide) (flagsText_head ts),
      by decide, fun track => ?_⟩
    simp only [trackCommand, if_true, readFlags_flagsOf ts h, bind, Except.bind]
    rfl
  | isrc t =>
    refine ⟨bytes "ISRC", t,
      ReadString_field (bytes "ISRC") (32 :: t) (by unfold Token; decide) (Or.inr ⟨t, rfl⟩),
      by decide, fun track => rfl⟩
  | title s =>
    obtain ⟨h0, h1, h2⟩ := h
    refine ⟨bytes "TITLE", 34 :: s ++ [34], ?_, by decide, fun track => ?_⟩
    · have e : (Attr.title s).body = bytes "TITLE" ++ 32 :: (34 :: s ++ [34]) := by
        simp only [Attr.body, List.append_assoc]
        rfl
      rw [e]
      exact ReadString_field (bytes "TITLE") _ (by unfold Token; decide) (Or.inr ⟨_, rfl⟩)
    · have hu := unquote_quoted s h1 h2
      simp only [trackCommand, hu, bind, Except.bind]
      rfl
  | performer s =>
    obtain ⟨h0, h1, h2⟩ := h
    refine ⟨bytes "PERFORMER", 34 :: s ++ [34], ?_, by decide, fun track => ?_⟩
    · have e : (Attr.performer s).body = bytes "PERFORMER" ++ 32 :: (34 :: s ++ [34]) := by
        simp only [Attr.body, List.append_assoc]
        rfl
      rw [e]
      exact ReadString_field (bytes "PERFORMER") _ (by unfold Token; decide) (Or.inr ⟨_, rfl⟩)
    · have hu := unquote_quoted s h1 h2
      simp only [trackCommand, hu, bind, Except.bind]
      rfl
  | songWriter s =>
    obtain ⟨h0, h1, h2⟩ := h
    refine ⟨bytes "SONGWRITER", 34 :: s ++ [34], ?_, by decide, fun track => ?_⟩
    · have e : (Attr.songWriter s).body = bytes "SONGWRITER" ++ 32 :: (34 :: s ++ [34]) := by
        simp only [Attr.body, List.append_assoc]
        rfl
      rw [e]
      exact ReadString_field (bytes "SONGWRITER") _ (by unfold Token; decide) (Or.inr ⟨_, rfl⟩)
    · have hu := unquote_quoted s h1 h2
      simp only [trackCommand, hu, bind, Except.bind]
      rfl
  | pregap f =>
    refine ⟨bytes "PREGAP", FormatFrame f,
      ReadString_field (bytes "PREGAP") (32 :: FormatFrame f) (by unfold Token; decide)
        (Or.inr ⟨_, rfl⟩), by decide, fun track => ?_⟩
    have hf : ReadFrame (FormatFrame f) = .ok (f, []) := by
      rw [ReadFrame_FormatFrame_mod, Nat.mod_eq_of_lt h]
    simp only [trackCommand, hf, bind, Except.bind]
    rfl
  | postgap f =>
    refine ⟨bytes "POSTGAP", FormatFrame f,
      ReadString_field (bytes "POSTGAP") (32 :: FormatFrame f) (by unfold Token; decide)
        (Or.inr ⟨_, rfl⟩), by decide, fun track => ?_⟩
    have hf : ReadFrame (FormatFrame f) = .ok (f, []) := by
      rw [ReadFrame_FormatFrame_mod, Nat.mod_eq_of_lt h]
    simp only [trackCommand, hf, bind, Except.bind]
    rfl
  | index n f =>
    obtain ⟨hn, hf'⟩ := h
    refine ⟨bytes "INDEX", FormatTrackNumber n ++ 32 :: FormatFrame f, ?_, by decide,
      fun track => ?_⟩
    · have e : (Attr.index n f).body =
          bytes "INDEX" ++ 32 :: (FormatTrackNumber n ++ 32 :: FormatFrame f) := by
        simp only [Attr.body, List.append_assoc]
        rfl
      rw [e]
      exact ReadString_field (bytes "INDEX") _ (by unfold Token; decide) (Or.inr ⟨_, rfl⟩)
    · have hu := ReadUint_FormatTrackNumber n (32 :: FormatFrame f) hn (Or.inr ⟨_, rfl⟩)
      have hf : ReadFrame (FormatFrame f) = .ok (f, []) := by
        rw [ReadFrame_FormatFrame_mod, Nat.mod_eq_of_lt hf']
      simp only [List.drop_succ_cons, List.drop_zero] at hu
      simp only [trackCommand, hu, hf, bind, Except.bind]
      rfl

/-! ## Attribute lines read by the three loops -/

/-- A well-formed attribute line read by `readTrack` gives its attribute to
the track. -/
theorem readTrack_attr (a : Attr) (h : a.WF) (f : Nat) (rest : List Nat) (track : Track) :
    readTrack (f + 1) (a.line ++ 10 :: rest) track = readTrack f rest (a.apply track) := by
  obtain ⟨hb, hp, -, ht⟩ := Attr.line_read a h rest
  obtain ⟨cmd, arg, hr, -, hc⟩ := Attr.read a h
  exact readTrack_step f _ _ rest cmd arg track _ hb hp (by rw [ht]; exact hr) (hc track)

/-- A well-formed attribute line read by `readTracks` ends the block of tracks
and is dropped. -/
theorem readTracks_attr (a : Attr) (h : a.WF) (f : Nat) (rest : List Nat)
    (tracks : List Track) :
    readTracks (f + 1) (a.line ++ 10 :: rest) tracks = .ok (tracks, rest) := by
  obtain ⟨hb, -, hp, ht⟩ := Attr.line_read a h rest
  obtain ⟨cmd, arg, hr, hne, -⟩ := Attr.read a h
  exact readTracks_break f _ _ rest cmd arg tracks hb hp (by rw [ht]; exact hr) hne

/-- A well-formed attribute line read by the loop of the disc level sets the
field of the disc that has its command, if there is one. -/
theorem readFileLoop_attr (a : Attr) (h : a.WF) (f : Nat) (rest : List Nat) (c : Cuesheet) :
    readFileLoop (f + 1) (a.line ++ 10 :: rest) c = readFileLoop f rest (a.applyDisc c) := by
  obtain ⟨hb, -, -, ht⟩ := Attr.line_read a h rest
  have tk : ∀ k : List Nat, (k ≠ [] ∧ (∀ c ∈ k, isDelim c = false) ∧ k.head? ≠ some 34 ∧
      k.head? ≠ some 39) → Token k := fun k hk => hk
  cases a with
  | flags ts =>
    have hr : ReadString (Attr.flags ts).body =
        .ok (bytes "FLAGS", (ts.map (fun t => 32 :: t)).flatten.drop 1) :=
      ReadString_field (bytes "FLAGS") _ (tk _ (by decide)) (flagsText_head ts)
    rw [← ht] at hr
    exact readFileLoop_skip f _ _ rest (bytes "FLAGS") _ c hb hr (by decide)
  | isrc t =>
    have hr : ReadString (Attr.isrc t).body = .ok (bytes "ISRC", t) :=
      ReadString_field (bytes "ISRC") (32 :: t) (tk _ (by decide)) (Or.inr ⟨t, rfl⟩)
    rw [← ht] at hr
    exact readFileLoop_skip f _ _ rest (bytes "ISRC") t c hb hr (by decide)
  | title s =>
    obtain ⟨h0, h1, h2⟩ := h
    have e : (Attr.title s).body = bytes "TITLE" ++ 32 :: (34 :: s ++ [34]) := by
      simp only [Attr.body, List.append_assoc]
      rfl
    have hr : ReadString (Attr.title s).body = .ok (bytes "TITLE", 34 :: s ++ [34]) := by
      rw [e]
      exact ReadString_field (bytes "TITLE") _ (tk _ (by decide)) (Or.inr ⟨_, rfl⟩)
    rw [← ht] at hr
    exact readFileLoop_TITLE f _ _ rest (34 :: s ++ [34]) s [] c hb hr
      (ReadString_quoted s [] h1 h2)
  | performer s =>
    obtain ⟨h0, h1, h2⟩ := h
    have e : (Attr.performer s).body = bytes "PERFORMER" ++ 32 :: (34 :: s ++ [34]) := by
      simp only [Attr.body, List.append_assoc]
      rfl
    have hr : ReadString (Attr.performer s).body =
        .ok (bytes "PERFORMER", 34 :: s ++ [34]) := by
      rw [e]
      exact ReadString_field (bytes "PERFORMER") _ (tk _ (by decide)) (Or.inr ⟨_, rfl⟩)
    rw [← ht] at hr
    exact readFileLoop_PERFORMER f _ _ rest (34 :: s ++ [34]) s [] c hb hr
      (ReadString_quoted s [] h1 h2)
  | songWriter s =>
    obtain ⟨h0, h1, h2⟩ := h
    have e : (Attr.songWriter s).body = bytes "SONGWRITER" ++ 32 :: (34 :: s ++ [34]) := by
      simp only [Attr.body, List.append_assoc]
      rfl
    have hr : ReadString (Attr.songWriter s).body =
        .ok (bytes "SONGWRITER", 34 :: s ++ [34]) := by
      rw [e]
      exact ReadString_field (bytes "SONGWRITER") _ (tk _ (by decide)) (Or.inr ⟨_, rfl⟩)
    rw [← ht] at hr
    exact readFileLoop_SONGWRITER f _ _ rest (34 :: s ++ [34]) s [] c hb hr
      (ReadString_quoted s [] h1 h2)
  | pregap fr =>
    have hr : ReadString (Attr.pregap fr).body = .ok (bytes "PREGAP", FormatFrame fr) :=
      ReadString_field (bytes "PREGAP") (32 :: FormatFrame fr) (tk _ (by decide))
        (Or.inr ⟨_, rfl⟩)
    rw [← ht] at hr
    have hf : ReadFrame (FormatFrame fr) = .ok (fr, []) := by
      rw [ReadFrame_FormatFrame_mod, Nat.mod_eq_of_lt h]
    exact readFileLoop_PREGAP f _ _ rest (FormatFrame fr) fr [] c hb hr hf
  | postgap fr =>
    have hr : ReadString (Attr.postgap fr).body = .ok (bytes "POSTGAP", FormatFrame fr) :=
      ReadString_field (bytes "POSTGAP") (32 :: FormatFrame fr) (tk _ (by decide))
        (Or.inr ⟨_, rfl⟩)
    rw [← ht] at hr
    have hf : ReadFrame (FormatFrame fr) = .ok (fr, []) := by
      rw [ReadFrame_FormatFrame_mod, Nat.mod_eq_of_lt h]
    exact readFileLoop_POSTGAP f _ _ rest (FormatFrame fr) fr [] c hb hr hf
  | index n fr =>
    have e : (Attr.index n fr).body =
        bytes "INDEX" ++ 32 :: (FormatTrackNumber n ++ 32 :: FormatFrame fr) := by
      simp only [Attr.body, List.append_assoc]
      rfl
    have hr : ReadString (Attr.index n fr).body =
        .ok (bytes "INDEX", FormatTrackNumber n ++ 32 :: FormatFrame fr) := by
      rw [e]
      exact ReadString_field (bytes "INDEX") _ (tk _ (by decide)) (Or.inr ⟨_, rfl⟩)
    rw [← ht] at hr
    exact readFileLoop_skip f _ _ rest (bytes "INDEX") _ c hb hr (by decide)

/-- Well-formed attribute lines read by `readTrack` give their attributes to
the track, one after the other. -/
theorem readTrack_attrs (as : List Attr) (h : ∀ a ∈ as, a.WF) (rest : List Nat) :
    ∀ (track : Track) (F f : Nat), (linesText (as.map Attr.line) ++ rest).length < F →
      rest.length < f →
      readTrack F (linesText (as.map Attr.line) ++ rest) track =
        readTrack f rest (as.foldl (fun t a => a.apply t) track) := by
  induction as with
  | nil =>
    intro track F f hF hf
    exact readTrack_fuel _ _ _ _ hF hf
  | cons a as ih =>
    intro track F f hF hf
    simp only [List.map_cons, linesText_cons, List.append_assoc, List.cons_append,
      List.foldl_cons] at hF ⊢
    cases F with
    | zero => omega
    | succ F =>
      rw [readTrack_attr a (h a (by simp)) F _ track]
      refine ih (fun x hx => h x (by simp [hx])) _ F f ?_ hf
      simp only [List.length_append, List.length_cons] at hF ⊢
      omega

/-- Well-formed attribute lines read by the loop of the disc level set the
fields of the disc, one after the other. -/
theorem readFileLoop_attrs (as : List Attr) (h : ∀ a ∈ as, a.WF) (rest : List Nat) :
    ∀ (c : Cuesheet) (F f : Nat), (linesText (as.map Attr.line) ++ rest).length < F →
      rest.length < f →
      readFileLoop F (linesText (as.map Attr.line) ++ rest) c =
        readFileLoop f rest (as.foldl (fun c a => a.applyDisc c) c) := by
  induction as with
  | nil =>
    intro c F f hF hf
    exact readFileLoop_fuel _ _ _ _ hF hf
  | cons a as ih =>
    intro c F f hF hf
    simp only [List.map_cons, linesText_cons, List.append_assoc, List.cons_append,
      List.foldl_cons] at hF ⊢
    cases F with
    | zero => omega
    | succ F =>
      rw [readFileLoop_attr a (h a (by simp)) F _ c]
      refine ih (fun x hx => h x (by simp [hx])) _ F f ?_ hf
      simp only [List.length_append, List.length_cons] at hF ⊢
      omega

/-! ## The `FILE` line and the `TRACK` line -/

/-- A text free of delimiters is written as it is. -/
theorem FormatString_plain (s : List Nat) (h : ∀ c ∈ s, isDelim c = false) :
    FormatString s = s := by
  have hc : ContainsAny s = false := by
    simp only [ContainsAny, List.any_eq_false]
    intro c hc
    simp [h c hc]
  simp [FormatString, hc]

/-- A text with a delimiter and without double quote or backslash is written
between double quotes. -/
theorem FormatString_quoted (s : List Nat) (h : ContainsAny s = true) (h1 : 34 ∉ s)
    (h2 : 92 ∉ s) : FormatString s = 34 :: s ++ [34] := by
  simp [FormatString, h, quote, quoteBody_plain s h1 h2]

/-- A field that is written: it holds no line feed, is not trimmed on the
right, and is read back, at the end of the cursor and before another field. -/
theorem FormatString_field (s : List Nat) (h : Field s) (hne : s ≠ []) :
    10 ∉ FormatString s ∧ FormatString s ≠ [] ∧
    TrimRight (FormatString s) = FormatString s ∧
    ReadString (FormatString s) = .ok (s, []) ∧
    ∀ t : List Nat, Token t →
      ∃ R1, ReadString (FormatString s ++ 32 :: t) = .ok (s, R1) ∧
        ReadString R1 = .ok (t, []) := by
  obtain ⟨h10, hp | hq⟩ := h
  · have htok : Token s := ⟨hne, hp.1, hp.2.1, hp.2.2⟩
    rw [FormatString_plain s hp.1]
    refine ⟨h10, hne, (Token.trim s htok).2, ?_, fun t ht => ⟨t, ?_, ?_⟩⟩
    · have := ReadString_field s [] htok (Or.inl rfl)
      simpa using this
    · have := ReadString_field s (32 :: t) htok (Or.inr ⟨t, rfl⟩)
      simpa using this
    · have := ReadString_field t [] ht (Or.inl rfl)
      simpa using this
  · rw [FormatString_quoted s hq.1 hq.2.1 hq.2.2]
    refine ⟨?_, by simp, TrimRight_concat _ 34 (by decide), ReadString_quoted s [] hq.2.1 hq.2.2,
      fun t ht => ⟨32 :: t, ?_, ?_⟩⟩
    · intro hm
      simp only [List.mem_append, List.mem_cons, List.mem_nil_iff, or_false] at hm
      rcases hm with (e | e) | e
      · omega
      · exact h10 e
      · omega
    · have := ReadString_quoted s (32 :: t) hq.2.1 hq.2.2
      simpa using this
    · rw [← ReadString_TrimLeft]
      have e : TrimLeft (32 :: t) = t := by
        have := TrimLeft_append_delims [32] t (by decide)
        rw [List.singleton_append] at this
        rw [this, (Token.trim t ht).1]
      rw [e]
      have := ReadString_field t [] ht (Or.inl rfl)
      simpa using this

/-- A token holds no line feed. -/
theorem Token.no_newline (t : List Nat) (h : Token t) : 10 ∉ t := by
  intro hm
  have := h.2.1 10 hm
  simp [isDelim] at this

/-- A `FILE` line with a written name and a type that is a token reads the
name, the type and the tracks that follow. -/
theorem readFileLoop_fileLine (fname ftype : List Nat) (hf : Field fname) (hne : fname ≠ [])
    (ht : Token ftype) (f : Nat) (rest : List Nat) (tracks : List Track) (r' : List Nat)
    (c : Cuesheet) (htr : readTracks (rest.length + 1) rest [] = .ok (tracks, r')) :
    readFileLoop (f + 1) (bytes "FILE " ++ (FormatString fname ++ 32 :: (ftype ++ 10 :: rest))) c =
      readFileLoop f r' { c with File := c.File ++ [⟨fname, ftype, tracks⟩] } := by
  obtain ⟨g0, g1, g2, -, g4⟩ := FormatString_field fname hf hne
  obtain ⟨R1, hn, hty⟩ := g4 ftype ht
  have e : bytes "FILE " ++ (FormatString fname ++ 32 :: (ftype ++ 10 :: rest)) =
      (bytes "FILE " ++ (FormatString fname ++ 32 :: ftype)) ++ 10 :: rest := by
    simp [List.append_assoc]
  have h10 : 10 ∉ bytes "FILE " ++ (FormatString fname ++ 32 :: ftype) := by
    intro hm
    simp only [List.mem_append, List.mem_cons] at hm
    rcases hm with e | e | e | e
    · revert e; decide
    · exact g0 e
    · omega
    · exact Token.no_newline ftype ht e
  have hl : TrimLeft (bytes "FILE " ++ (FormatString fname ++ 32 :: ftype)) =
      bytes "FILE " ++ (FormatString fname ++ 32 :: ftype) :=
    TrimLeft_append_clean (bytes "FILE ") _ (by decide) (by decide)
  have hr : TrimRight (bytes "FILE " ++ (FormatString fname ++ 32 :: ftype)) =
      bytes "FILE " ++ (FormatString fname ++ 32 :: ftype) := by
    have e2 : bytes "FILE " ++ (FormatString fname ++ 32 :: ftype) =
        (bytes "FILE " ++ FormatString fname ++ [32]) ++ ftype := by
      simp [List.append_assoc]
    rw [e2]
    exact TrimRight_append_clean _ ftype ht.1 (Token.trim ftype ht).2
  have htrim := Trim_indent_line [] _ (by simp) hl hr
  rw [List.nil_append] at htrim
  have hcmd : ReadString (bytes "FILE " ++ (FormatString fname ++ 32 :: ftype)) =
      .ok (bytes "FILE", FormatString fname ++ 32 :: ftype) :=
    ReadString_field (bytes "FILE") (32 :: (FormatString fname ++ 32 :: ftype))
      (show Token (bytes "FILE") by unfold Token; decide) (Or.inr ⟨_, rfl⟩)
  rw [e]
  exact readFileLoop_FILE f _ _ rest _ fname R1 ftype [] tracks r' c
    (bufioReadString_line _ rest h10) (by rw [htrim]; exact hcmd) hn hty htr

/-- A `TRACK` line with a number below 100 and a data type that is a token
reads the number, the data type and the lines of the track that follow. -/
theorem readTracks_trackLine (n : Nat) (dataType : List Nat) (hn : n < 100)
    (hd : Token dataType) (f : Nat) (rest : List Nat) (track : Track) (r' : List Nat)
    (tracks : List Track)
    (htr : readTrack (rest.length + 1) rest
      { Track.zero with TrackNumber := n, TrackDataType := dataType } = .ok (track, r')) :
    readTracks (f + 1)
        (bytes "  TRACK " ++ (FormatTrackNumber n ++ 32 :: (dataType ++ 10 :: rest))) tracks =
      readTracks f r' (tracks ++ [track]) := by
  have e : bytes "  TRACK " ++ (FormatTrackNumber n ++ 32 :: (dataType ++ 10 :: rest)) =
      (bytes "  " ++ (bytes "TRACK " ++ (FormatTrackNumber n ++ 32 :: dataType))) ++
        10 :: rest := by
    have : bytes "  TRACK " = bytes "  " ++ bytes "TRACK " := by decide
    simp [List.append_assoc, this]
  have h10 : 10 ∉ bytes "  " ++ (bytes "TRACK " ++ (FormatTrackNumber n ++ 32 :: dataType)) := by
    intro hm
    simp only [List.mem_append, List.mem_cons] at hm
    rcases hm with e | e | e | e | e
    · revert e; decide
    · revert e; decide
    · have := FormatTrackNumber_ge n 10 e
      omega
    · omega
    · exact Token.no_newline dataType hd e
  have hl : TrimLeft (bytes "TRACK " ++ (FormatTrackNumber n ++ 32 :: dataType)) =
      bytes "TRACK " ++ (FormatTrackNumber n ++ 32 :: dataType) :=
    TrimLeft_append_clean (bytes "TRACK ") _ (by decide) (by decide)
  have hr : TrimRight (bytes "TRACK " ++ (FormatTrackNumber n ++ 32 :: dataType)) =
      bytes "TRACK " ++ (FormatTrackNumber n ++ 32 :: dataType) := by
    have e2 : bytes "TRACK " ++ (FormatTrackNumber n ++ 32 :: dataType) =
        (bytes "TRACK " ++ FormatTrackNumber n ++ [32]) ++ dataType := by
      simp [List.append_assoc]
    rw [e2]
    exact TrimRight_append_clean _ dataType hd.1 (Token.trim dataType hd).2
  have htrim := Trim_indent_line (bytes "  ") _ (by decide) hl hr
  have hcmd : ReadString (bytes "TRACK " ++ (FormatTrackNumber n ++ 32 :: dataType)) =
      .ok (bytes "TRACK", FormatTrackNumber n ++ 32 :: dataType) :=
    ReadString_field (bytes "TRACK") (32 :: (FormatTrackNumber n ++ 32 :: dataType))
      (show Token (bytes "TRACK") by unfold Token; decide) (Or.inr ⟨_, rfl⟩)
  have hnum := ReadUint_FormatTrackNumber n (32 :: dataType) hn (Or.inr ⟨_, rfl⟩)
  have hdt := ReadString_field dataType [] hd (Or.inl rfl)
  simp only [List.drop_succ_cons, List.drop_zero, List.append_nil, List.drop_nil] at hnum hdt
  have hp : HasPrefix ((bytes "  " ++ (bytes "TRACK " ++ (FormatTrackNumber n ++ 32 :: dataType)))
      ++ [10]) (bytes "  ") = true := by
    simp [HasPrefix, List.isPrefixOf_iff_prefix, List.append_assoc]
  rw [e]
  exact readTracks_step f _ _ rest _ n dataType dataType [] track r' tracks
    (bufioReadString_line _ rest h10) hp (by rw [htrim]; exact hcmd) hnum hdt htr

/-- A command that is none of the commands of the track level ends the track. -/
theorem trackCommand_unknown (cmd rest : List Nat) (track : Track)
    (h : cmd ∉ trackCommands) : trackCommand cmd rest track = .ok none := by
  simp only [trackCommands, List.mem_cons, List.mem_nil_iff, or_false, not_or] at h
  obtain ⟨u0, u1, u2, u3, u4, u5, u6, u7⟩ := h
  simp only [trackCommand, if_neg u0, if_neg u1, if_neg u2, if_neg u3, if_neg u4, if_neg u5,
    if_neg u6, if_neg u7]
  rfl

/-! ## The `FLAGS` line -/

/-- C13: for every line `    FLAGS t1 ... tn` of a track whose tokens are not
empty, hold no delimiter, do not start with a quote and each follow one
space, the `Flags` of the track after the line are the bits of the tokens
added to no flag, whatever the flags were before; each of the four flags is
set exactly if its token is among `t1 ... tn`, so neither the order of the
tokens nor their repetition matters and the other tokens add nothing. -/
theorem readTrack_FLAGS (ts : List (List Nat)) (hts : ∀ t ∈ ts, Token t) (f : Nat)
    (rest : List Nat) (track : Track) :
    readTrack (f + 1) (bytes "    FLAGS" ++ (ts.map (fun t => 32 :: t)).flatten ++ 10 :: rest)
        track =
      readTrack f rest { track with Flags := ts.foldl (fun acc t => acc ||| flagBit t) None } ∧
    ts.foldl (fun acc t => acc ||| flagBit t) None =
      flagsOf (decide (bytes "DCP" ∈ ts)) (decide (bytes "4CH" ∈ ts))
        (decide (bytes "PRE" ∈ ts)) (decide (bytes "SCMS" ∈ ts)) ∧
    ∀ t : List Nat, t ∉ [bytes "DCP", bytes "4CH", bytes "PRE", bytes "SCMS"] →
      flagBit t = 0 := by
  have hfold : ts.foldl (fun acc t => acc ||| flagBit t) None =
      flagsOf (decide (bytes "DCP" ∈ ts)) (decide (bytes "4CH" ∈ ts))
        (decide (bytes "PRE" ∈ ts)) (decide (bytes "SCMS" ∈ ts)) := by
    have h := foldl_flagBit ts false false false false
    simp only [Bool.false_or] at h
    rw [← h]
    rfl
  refine ⟨?_, hfold, ?_⟩
  · have e : bytes "    FLAGS" ++ (ts.map (fun t => 32 :: t)).flatten ++ 10 :: rest =
        (Attr.flags ts).line ++ 10 :: rest := by
      have : bytes "    FLAGS" = bytes "    " ++ bytes "FLAGS" := by decide
      simp [Attr.line, Attr.body, List.append_assoc, this]
    rw [e, readTrack_attr (Attr.flags ts) hts f rest track, hfold]
    rfl
  · intro t ht
    simp only [List.mem_cons, List.mem_nil_iff, or_false, not_or] at ht
    simp [flagBit, ht.1, ht.2.1, ht.2.2.1, ht.2.2.2]

/-- C13, witness: the line `    FLAGS PRE XYZ DCP PRE` in a track that had
`Scms` set leaves the track with `Dcp` and `Pre`. -/
theorem readTrack_FLAGS_witness :
    readTrack 2 (bytes "    FLAGS PRE XYZ DCP PRE\n") { Track.zero with Flags := Scms } =
      .ok ({ Track.zero with Flags := Dcp ||| Pre }, []) := by
  have h := (readTrack_FLAGS [bytes "PRE", bytes "XYZ", bytes "DCP", bytes "PRE"]
    (by unfold Token; decide) 1 [] { Track.zero with Flags := Scms }).1
  have e : bytes "    FLAGS" ++
      ([bytes "PRE", bytes "XYZ", bytes "DCP", bytes "PRE"].map (fun t => 32 :: t)).flatten ++
      10 :: [] = bytes "    FLAGS PRE XYZ DCP PRE\n" := by decide
  rw [e] at h
  rw [h]
  decide

/-! ## A track ended by an unknown command -/

/-- An attribute line read by the loop of the disc level leaves the files of
the sheet as they are. -/
theorem Attr.applyDisc_File (a : Attr) (c : Cuesheet) : (a.applyDisc c).File = c.File := by
  cases a <;> rfl

/-- Attribute lines read by the loop of the disc level leave the files of the
sheet as they are. -/
theorem foldl_applyDisc_File (as : List Attr) (c : Cuesheet) :
    (as.foldl (fun c a => a.applyDisc c) c).File = c.File := by
  induction as generalizing c with
  | nil => rfl
  | cons a as ih => rw [List.foldl_cons, ih, Attr.applyDisc_File]

/-- A prefix of a line is a prefix of the line with its newline. -/
theorem HasPrefix_append (s t p : List Nat) (h : HasPrefix s p = true) :
    HasPrefix (s ++ t) p = true := by
  simp only [HasPrefix, List.isPrefixOf_iff_prefix] at h ⊢
  exact h.trans (List.prefix_append s t)

/-- The lines of a track that end with an unknown command: the track has the
attributes of the lines before that command, and what follows the command is
left in the stream. -/
theorem readTrack_unknown (A : List Attr) (hA : ∀ a ∈ A, a.WF) (u cmd arg rest : List Nat)
    (track : Track) (hu10 : 10 ∉ u) (hup : HasPrefix u (bytes "    ") = true)
    (hur : ReadString (Trim u) = .ok (cmd, arg)) (hcmd : cmd ∉ trackCommands) :
    readTrack ((linesText (A.map Attr.line) ++ (u ++ 10 :: rest)).length + 1)
        (linesText (A.map Attr.line) ++ (u ++ 10 :: rest)) track =
      .ok (A.foldl (fun t a => a.apply t) track, rest) := by
  rw [readTrack_attrs A hA (u ++ 10 :: rest) track _ ((u ++ 10 :: rest).length + 1)
    (Nat.lt_succ_self _) (Nat.lt_succ_self _)]
  exact readTrack_break _ _ (u ++ [10]) rest cmd arg _ (bufioReadString_line u rest hu10)
    (HasPrefix_append u [10] _ hup) (by rw [Trim_newline]; exact hur)
    (trackCommand_unknown cmd arg _ hcmd)

/-- Attribute lines read by `readTracks`: the first one ends the block of
tracks and is dropped, the others are left in the stream. -/
theorem readTracks_attrs (R : List Attr) (hR : ∀ a ∈ R, a.WF) (f : Nat)
    (tracks : List Track) :
    readTracks (f + 1) (linesText (R.map Attr.line)) tracks =
      .ok (tracks, linesText (R.tail.map Attr.line)) := by
  cases R with
  | nil => exact readTracks_pushback f [] tracks (by decide)
  | cons a R =>
    simp only [List.map_cons, linesText_cons, List.tail_cons]
    exact readTracks_attr a (hR a (by simp)) f _ tracks

/-- C15: for every text made of a `FILE` line, a `  TRACK` line, well-formed
attribute lines `A`, a line `u` indented by four spaces whose command is none
of the commands of the track level, and well-formed attribute lines `R`,
`ReadFile` returns a sheet with one file holding one track, whose attributes
are those given by `A`: the line `u` and the first line of `R` are dropped,
and the other lines of `R` are read by the loop of the disc level. -/
theorem ReadFile_unknown_track_command (fname ftype dataType : List Nat) (n : Nat)
    (A R : List Attr) (u cmd arg : List Nat) (hf : Field fname) (hne : fname ≠ [])
    (hft : Token ftype) (hn : n < 100) (hd : Token dataType) (hA : ∀ a ∈ A, a.WF)
    (hR : ∀ a ∈ R, a.WF) (hu10 : 10 ∉ u) (hup : HasPrefix u (bytes "    ") = true)
    (hur : ReadString (Trim u) = .ok (cmd, arg)) (hcmd : cmd ∉ trackCommands) :
    ReadFile (linesText ([bytes "FILE " ++ FormatString fname ++ 32 :: ftype,
        bytes "  TRACK " ++ FormatTrackNumber n ++ 32 :: dataType] ++
        A.map Attr.line ++ [u] ++ R.map Attr.line)) =
      .ok (R.tail.foldl (fun c (a : Attr) => a.applyDisc c)
        { Cuesheet.zero with
          File := [⟨fname, ftype, [A.foldl (fun t (a : Attr) => a.apply t)
            { Track.zero with TrackNumber := n, TrackDataType := dataType }]⟩] }) ∧
    (R.tail.foldl (fun c (a : Attr) => a.applyDisc c)
        { Cuesheet.zero with
          File := [⟨fname, ftype, [A.foldl (fun t (a : Attr) => a.apply t)
            { Track.zero with TrackNumber := n, TrackDataType := dataType }]⟩] }).File =
      [⟨fname, ftype, [A.foldl (fun t (a : Attr) => a.apply t)
        { Track.zero with TrackNumber := n, TrackDataType := dataType }]⟩] := by
  refine ⟨?_, foldl_applyDisc_File _ _⟩
  have hT := readTrack_unknown A hA u cmd arg (linesText (R.map Attr.line))
    { Track.zero with TrackNumber := n, TrackDataType := dataType } hu10 hup hur hcmd
  have hTs : readTracks
      ((bytes "  TRACK " ++ (FormatTrackNumber n ++ 32 :: (dataType ++ 10 ::
        (linesText (A.map Attr.line) ++ (u ++ 10 :: linesText (R.map Attr.line)))))).length + 1)
      (bytes "  TRACK " ++ (FormatTrackNumber n ++ 32 :: (dataType ++ 10 ::
        (linesText (A.map Attr.line) ++ (u ++ 10 :: linesText (R.map Attr.line)))))) [] =
      .ok ([A.foldl (fun t (a : Attr) => a.apply t)
        { Track.zero with TrackNumber := n, TrackDataType := dataType }],
        linesText (R.tail.map Attr.line)) := by
    rw [readTracks_trackLine n dataType hn hd _ _ _ _ [] hT]
    have hpos : ∃ k, (bytes "  TRACK " ++ (FormatTrackNumber n ++ 32 :: (dataType ++ 10 ::
        (linesText (A.map Attr.line) ++ (u ++ 10 :: linesText (R.map Attr.line)))))).length =
        k + 1 := by
      refine ⟨_, (Nat.succ_pred_eq_of_pos ?_).symm⟩
      rw [List.length_append]
      have : 0 < (bytes "  TRACK ").length := by decide
      omega
    obtain ⟨k, hk⟩ := hpos
    rw [hk]
    exact readTracks_attrs R hR k _
  have hlen := readTracks_length _ _ _ _ _ hTs
  have e : linesText ([bytes "FILE " ++ FormatString fname ++ 32 :: ftype,
        bytes "  TRACK " ++ FormatTrackNumber n ++ 32 :: dataType] ++
        A.map Attr.line ++ [u] ++ R.map Attr.line) =
      bytes "FILE " ++ (FormatString fname ++ 32 :: (ftype ++ 10 ::
        (bytes "  TRACK " ++ (FormatTrackNumber n ++ 32 :: (dataType ++ 10 ::
          (linesText (A.map Attr.line) ++ (u ++ 10 :: linesText (R.map Attr.line)))))))) := by
    simp [linesText_append, linesText_cons, List.append_assoc, linesText]
  rw [e, ReadFile, readFileLoop_fileLine fname ftype hf hne hft _ _ _ _ _ hTs]
  have hR' : ∀ a ∈ R.tail, a.WF := fun a ha => hR a (List.mem_of_mem_tail ha)
  have key := readFileLoop_attrs R.tail hR' []
    { Cuesheet.zero with
      File := Cuesheet.zero.File ++ [⟨fname, ftype, [A.foldl (fun t (a : Attr) => a.apply t)
        { Track.zero with TrackNumber := n, TrackDataType := dataType }]⟩] }
    (bytes "FILE " ++ (FormatString fname ++ 32 :: (ftype ++ 10 ::
        (bytes "  TRACK " ++ (FormatTrackNumber n ++ 32 :: (dataType ++ 10 ::
          (linesText (A.map Attr.line) ++ (u ++ 10 :: linesText (R.map Attr.line))))))))).length
    1
    (by
      rw [List.append_nil]
      simp only [List.length_append, List.length_cons] at hlen ⊢
      omega)
    (by simp)
  rw [List.append_nil] at key
  rw [key, readFileLoop_eof 0 [] _ (by simp)]
  rfl

/-- C15, witness: after `    ISRC ABC` and `    INDEX 01 00:00:00`, the line
`    BOGUS 1` ends the track; `    TITLE "dropped"` is dropped, `    TITLE "x y"`
sets the title of the disc and `    INDEX 02 00:01:25` is skipped. -/
theorem ReadFile_unknown_track_command_witness :
    ReadFile (linesText ([bytes "FILE " ++ FormatString (bytes "a.wav") ++ 32 :: bytes "WAVE",
        bytes "  TRACK " ++ FormatTrackNumber 1 ++ 32 :: bytes "AUDIO"] ++
        [Attr.isrc (bytes "ABC"), Attr.index 1 0].map Attr.line ++ [bytes "    BOGUS 1"] ++
        [Attr.title (bytes "dropped"), Attr.title (bytes "x y"),
          Attr.index 2 100].map Attr.line)) =
      .ok { Cuesheet.zero with
            Title := bytes "x y",
            File := [⟨bytes "a.wav", bytes "WAVE",
              [{ Track.zero with TrackNumber := 1, TrackDataType := bytes "AUDIO",
                                 Isrc := bytes "ABC", Index := [⟨1, 0⟩] }]⟩] } :=
  (ReadFile_unknown_track_command (bytes "a.wav") (bytes "WAVE") (bytes "AUDIO") 1
    [Attr.isrc (bytes "ABC"), Attr.index 1 0]
    [Attr.title (bytes "dropped"), Attr.title (bytes "x y"), Attr.index 2 100]
    (bytes "    BOGUS 1") (bytes "BOGUS") (bytes "1")
    (by unfold Field; decide) (by decide) (by unfold Token; decide) (by decide)
    (by unfold Token; decide)
    (by
      intro a ha
      simp only [List.mem_cons, List.mem_nil_iff, or_false] at ha
      rcases ha with e | e <;> subst e <;> simp only [Attr.WF] <;> decide)
    (by
      intro a ha
      simp only [List.mem_cons, List.mem_nil_iff, or_false] at ha
      rcases ha with e | e | e <;> subst e <;> simp only [Attr.WF] <;> decide)
    (by decide) (by decide) (by decide) (by decide)).1

/-! ## The lines that `WriteFile` writes for a track -/

/-- The tokens written for a combination of flags are tokens, and give the
combination back. -/
theorem flagTokens_flagsOf (d f p s : Bool) :
    (∀ t ∈ flagTokens (flagsOf d f p s),
      t ≠ [] ∧ (∀ c ∈ t, isDelim c = false) ∧ t.head? ≠ some 34 ∧ t.head? ≠ some 39) ∧
    flagsOf (decide (bytes "DCP" ∈ flagTokens (flagsOf d f p s)))
      (decide (bytes "4CH" ∈ flagTokens (flagsOf d f p s)))
      (decide (bytes "PRE" ∈ flagTokens (flagsOf d f p s)))
      (decide (bytes "SCMS" ∈ flagTokens (flagsOf d f p s))) = flagsOf d f p s ∧
    writeFlags (flagsOf d f p s) =
      linesText ((if flagsOf d f p s ≠ None then [Attr.flags (flagTokens (flagsOf d f p s))]
        else []).map Attr.line) := by
  cases d <;> cases f <;> cases p <;> cases s <;> decide

/-- The text of an attribute line that is written or not. -/
theorem linesText_opt (c : Prop) [Decidable c] (a : Attr) :
    linesText ((if c then [a] else []).map Attr.line) = if c then a.line ++ [10] else [] := by
  split <;> simp [linesText]

/-- A text of a track that is not empty is written between double quotes. -/
theorem TrackText.format (s : List Nat) (h : TrackText s) (hne : s.length > 0) :
    FormatString s = 34 :: s ++ [34] ∧ 10 ∉ s ∧ 34 ∉ s ∧ 92 ∉ s := by
  rcases h with e | ⟨hd, h10, h34, h92⟩
  · subst e
    simp at hne
  · refine ⟨FormatString_quoted s ?_ h34 h92, h10, h34, h92⟩
    simp only [ContainsAny, List.any_eq_true]
    rcases hd with e | e | e
    · exact ⟨32, e, by decide⟩
    · exact ⟨9, e, by decide⟩
    · exact ⟨13, e, by decide⟩

/-- The lines of a track as `WriteFile` writes them: the `TRACK` line and the
attribute lines of the track. -/
theorem writeTrack_eq (t : Track) (h : RepresentableTrack t) :
    writeTrack t =
      bytes "  TRACK " ++ (FormatTrackNumber t.TrackNumber ++ 32 :: (t.TrackDataType ++ 10 ::
        linesText ((trackAttrs t).map Attr.line))) := by
  obtain ⟨-, -, ⟨d, f, p, s, hfl⟩, -, hti, hpe, hsw, -, -, -⟩ := h
  have h1 : writeFlags t.Flags =
      linesText ((if t.Flags ≠ None then [Attr.flags (flagTokens t.Flags)] else []).map
        Attr.line) := by
    rw [hfl]
    exact (flagTokens_flagsOf d f p s).2.2
  have h2 : (if t.Isrc.length > 0 then bytes "    ISRC " ++ t.Isrc ++ eol else []) =
      linesText ((if t.Isrc.length > 0 then [Attr.isrc t.Isrc] else []).map Attr.line) := by
    rw [linesText_opt]
    split
    · have : bytes "    ISRC " = bytes "    " ++ bytes "ISRC " := by decide
      simp [Attr.line, Attr.body, eol, this]
    · rfl
  have h3 : (if t.Title.length > 0 then
        bytes "    TITLE " ++ FormatString t.Title ++ eol else []) =
      linesText ((if t.Title.length > 0 then [Attr.title t.Title] else []).map Attr.line) := by
    rw [linesText_opt]
    split
    · rename_i hne
      have : bytes "    TITLE " = bytes "    " ++ bytes "TITLE " := by decide
      simp [Attr.line, Attr.body, eol, this, (TrackText.format _ hti hne).1]
    · rfl
  have h4 : (if t.Performer.length > 0 then
        bytes "    PERFORMER " ++ FormatString t.Performer ++ eol else []) =
      linesText ((if t.Performer.length > 0 then [Attr.performer t.Performer] else []).map
        Attr.line) := by
    rw [linesText_opt]
    split
    · rename_i hne
      have : bytes "    PERFORMER " = bytes "    " ++ bytes "PERFORMER " := by decide
      simp [Attr.line, Attr.body, eol, this, (TrackText.format _ hpe hne).1]
    · rfl
  have h5 : (if t.SongWriter.length > 0 then
        bytes "    SONGWRITER " ++ FormatString t.SongWriter ++ eol else []) =
      linesText ((if t.SongWriter.length > 0 then [Attr.songWriter t.SongWriter] else []).map
        Attr.line) := by
    rw [linesText_opt]
    split
    · rename_i hne
      have : bytes "    SONGWRITER " = bytes "    " ++ bytes "SONGWRITER " := by decide
      simp [Attr.line, Attr.body, eol, this, (TrackText.format _ hsw hne).1]
    · rfl
  have h6 : (if t.Pregap > 0 then bytes "    PREGAP " ++ FormatFrame t.Pregap ++ eol else []) =
      linesText ((if t.Pregap > 0 then [Attr.pregap t.Pregap] else []).map Attr.line) := by
    rw [linesText_opt]
    split
    · have : bytes "    PREGAP " = bytes "    " ++ bytes "PREGAP " := by decide
      simp [Attr.line, Attr.body, eol, this]
    · rfl
  have h7 : (if t.Postgap > 0 then
        bytes "    POSTGAP " ++ FormatFrame t.Postgap ++ eol else []) =
      linesText ((if t.Postgap > 0 then [Attr.postgap t.Postgap] else []).map Attr.line) := by
    rw [linesText_opt]
    split
    · have : bytes "    POSTGAP " = bytes "    " ++ bytes "POSTGAP " := by decide
      simp [Attr.line, Attr.body, eol, this]
    · rfl
  have h8 : (t.Index.map writeIndex).flatten =
      linesText ((t.Index.map (fun i => Attr.index i.Number i.Frame)).map Attr.line) := by
    have hw : ∀ i : TrackIndex, writeIndex i = (Attr.index i.Number i.Frame).line ++ [10] := by
      intro i
      have e1 : bytes "    INDEX " = bytes "    " ++ bytes "INDEX " := by decide
      have e2 : bytes " " = [32] := by decide
      simp [writeIndex, Attr.line, Attr.body, eol, e1, e2]
    have hf : writeIndex = fun i => (Attr.index i.Number i.Frame).line ++ [10] := funext hw
    rw [hf]
    simp [linesText, List.map_map, Function.comp_def]
  have e2 : bytes " " = [32] := by decide
  rw [writeTrack, h1, h2, h3, h4, h5, h6, h7, h8]
  simp only [trackAttrs, List.map_append, linesText_append, List.append_assoc, eol, e2,
    List.singleton_append, List.cons_append, List.nil_append]

/-- The attribute lines written for a track of the round trip are well formed. -/
theorem trackAttrs_WF (t : Track) (h : RepresentableTrack t) : ∀ a ∈ trackAttrs t, a.WF := by
  obtain ⟨-, -, ⟨d, f, p, s, hfl⟩, his, hti, hpe, hsw, hpr, hpo, hix⟩ := h
  intro a ha
  simp only [trackAttrs, List.mem_append, List.mem_ite_nil_right, List.mem_singleton,
    List.mem_map] at ha
  rcases ha with ((((((⟨-, e⟩ | ⟨hc, e⟩) | ⟨hc, e⟩) | ⟨hc, e⟩) | ⟨hc, e⟩) | ⟨hc, e⟩) |
    ⟨hc, e⟩) | ⟨i, hi, e⟩
  · subst e
    rw [hfl]
    exact (flagTokens_flagsOf d f p s).1
  · subst e
    exact ⟨List.length_pos.1 hc, his.1, his.2.2⟩
  · subst e
    exact (TrackText.format _ hti hc).2
  · subst e
    exact (TrackText.format _ hpe hc).2
  · subst e
    exact (TrackText.format _ hsw hc).2
  · subst e
    exact hpr
  · subst e
    exact hpo
  · subst e
    have := hix i hi
    exact ⟨by omega, this.2⟩

/-- The attributes of a line that is written or not. -/
theorem foldl_opt (c : Prop) [Decidable c] (a : Attr) (x : Track) :
    (if c then [a] else []).foldl (fun t (a : Attr) => a.apply t) x =
      if c then a.apply x else x := by
  split <;> rfl

/-- The `INDEX` lines append their indexes to the track. -/
theorem foldl_index (idx : List TrackIndex) (x : Track) :
    (idx.map (fun i => Attr.index i.Number i.Frame)).foldl (fun t (a : Attr) => a.apply t) x =
      { x with Index := x.Index ++ idx } := by
  induction idx generalizing x with
  | nil => simp
  | cons i is ih =>
    rw [List.map_cons, List.foldl_cons, ih]
    simp [Attr.apply]

/-- The attribute lines written for a track of the round trip give the track
back, from the track that has only its number and data type. -/
theorem trackAttrs_apply (t : Track) (h : RepresentableTrack t) :
    (trackAttrs t).foldl (fun t (a : Attr) => a.apply t)
      { Track.zero with TrackNumber := t.TrackNumber, TrackDataType := t.TrackDataType } = t := by
  obtain ⟨-, -, ⟨d, f, p, s, hfl⟩, -, -, -, -, -, -, -⟩ := h
  obtain ⟨n, dt, fl, isrc, title, perf, sw, pre, post, idx⟩ := t
  simp only at hfl
  simp only [trackAttrs, List.foldl_append, foldl_opt, foldl_index, Track.zero]
  have s1 : (if fl ≠ None then
      (Attr.flags (flagTokens fl)).apply ⟨n, dt, None, [], [], [], [], 0, 0, []⟩
      else ⟨n, dt, None, [], [], [], [], 0, 0, []⟩) =
      (⟨n, dt, fl, [], [], [], [], 0, 0, []⟩ : Track) := by
    split
    · simp only [Attr.apply, hfl, (flagTokens_flagsOf d f p s).2.1]
    · rename_i hn
      simp only [ne_eq, not_not] at hn
      rw [hn]
  rw [s1]
  have s2 : (if isrc.length > 0 then
      (Attr.isrc isrc).apply ⟨n, dt, fl, [], [], [], [], 0, 0, []⟩
      else ⟨n, dt, fl, [], [], [], [], 0, 0, []⟩) =
      (⟨n, dt, fl, isrc, [], [], [], 0, 0, []⟩ : Track) := by
    split
    · rfl
    · rename_i hn
      have : isrc = [] := List.length_eq_zero.1 (by omega)
      rw [this]
  rw [s2]
  have s3 : (if title.length > 0 then
      (Attr.title title).apply ⟨n, dt, fl, isrc, [], [], [], 0, 0, []⟩
      else ⟨n, dt, fl, isrc, [], [], [], 0, 0, []⟩) =
      (⟨n, dt, fl, isrc, title, [], [], 0, 0, []⟩ : Track) := by
    split
    · rfl
    · rename_i hn
      have : title = [] := List.length_eq_zero.1 (by omega)
      rw [this]
  rw [s3]
  have s4 : (if perf.length > 0 then
      (Attr.performer perf).apply ⟨n, dt, fl, isrc, title, [], [], 0, 0, []⟩
      else ⟨n, dt, fl, isrc, title, [], [], 0, 0, []⟩) =
      (⟨n, dt, fl, isrc, title, perf, [], 0, 0, []⟩ : Track) := by
    split
    · rfl
    · rename_i hn
      have : perf = [] := List.length_eq_zero.1 (by omega)
      rw [this]
  rw [s4]
  have s5 : (if sw.length > 0 then
      (Attr.songWriter sw).apply ⟨n, dt, fl, isrc, title, perf, [], 0, 0, []⟩
      else ⟨n, dt, fl, isrc, title, perf, [], 0, 0, []⟩) =
      (⟨n, dt, fl, isrc, title, perf, sw, 0, 0, []⟩ : Track) := by
    split
    · rfl
    · rename_i hn
      have : sw = [] := List.length_eq_zero.1 (by omega)
      rw [this]
  rw [s5]
  have s6 : (if pre > 0 then
      (Attr.pregap pre).apply ⟨n, dt, fl, isrc, title, perf, sw, 0, 0, []⟩
      else ⟨n, dt, fl, isrc, title, perf, sw, 0, 0, []⟩) =
      (⟨n, dt, fl, isrc, title, perf, sw, pre, 0, []⟩ : Track) := by
    split
    · rfl
    · rename_i hn
      have : pre = 0 := by omega
      rw [this]
  rw [s6]
  have s7 : (if post > 0 then
      (Attr.postgap post).apply ⟨n, dt, fl, isrc, title, perf, sw, pre, 0, []⟩
      else ⟨n, dt, fl, isrc, title, perf, sw, pre, 0, []⟩) =
      (⟨n, dt, fl, isrc, title, perf, sw, pre, post, []⟩ : Track) := by
    split
    · rfl
    · rename_i hn
      have : post = 0 := by omega
      rw [this]
  rw [s7]
  simp

/-- Four spaces at the front of a stream are two spaces at its front. -/
theorem HasPrefix_two_of_four (s : List Nat) (h : HasPrefix s (bytes "  ") = false) :
    HasPrefix s (bytes "    ") = false := by
  cases e : HasPrefix s (bytes "    ") with
  | false => rfl
  | true =>
    have h2 : HasPrefix s (bytes "  ") = true := by
      simp only [HasPrefix, List.isPrefixOf_iff_prefix] at e ⊢
      exact (List.prefix_append (bytes "  ") (bytes "  ")).trans e
    rw [h2] at h
    exact absurd h (by simp)

/-- The lines written for a track of the round trip, before a stream that
does not start with four spaces, are read back as the track. -/
theorem readTrack_written (t : Track) (h : RepresentableTrack t) (rest : List Nat)
    (hrest : HasPrefix rest (bytes "    ") = false) :
    readTrack ((linesText ((trackAttrs t).map Attr.line) ++ rest).length + 1)
        (linesText ((trackAttrs t).map Attr.line) ++ rest)
        { Track.zero with TrackNumber := t.TrackNumber, TrackDataType := t.TrackDataType } =
      .ok (t, rest) := by
  rw [readTrack_attrs (trackAttrs t) (trackAttrs_WF t h) rest _ _ (rest.length + 1)
    (Nat.lt_succ_self _) (Nat.lt_succ_self _), readTrack_pushback _ rest _ hrest,
    trackAttrs_apply t h]

/-! ## The tracks and the files that `WriteFile` writes -/

/-- The lines of a track do not start with four spaces. -/
theorem HasPrefix_TRACK (x : List Nat) :
    HasPrefix (bytes "  TRACK " ++ x) (bytes "    ") = false := by
  rfl

/-- The lines of a file do not start with two spaces. -/
theorem HasPrefix_FILE (x : List Nat) :
    HasPrefix (bytes "FILE " ++ x) (bytes "  ") = false := by
  rfl

/-- The lines written for tracks, before a stream that does not start with
two spaces, do not start with four spaces. -/
theorem HasPrefix_tracks (ts : List Track) (hts : ∀ t ∈ ts, RepresentableTrack t)
    (rest : List Nat) (hrest : HasPrefix rest (bytes "  ") = false) :
    HasPrefix ((ts.map writeTrack).flatten ++ rest) (bytes "    ") = false := by
  cases ts with
  | nil => exact HasPrefix_two_of_four rest hrest
  | cons t ts =>
    rw [List.map_cons, List.flatten_cons, writeTrack_eq t (hts t (by simp)),
      List.append_assoc, List.append_assoc]
    exact HasPrefix_TRACK _

/-- The lines written for tracks of the round trip, before a stream that does
not start with two spaces, are read back as the tracks. -/
theorem readTracks_written (ts : List Track) (hts : ∀ t ∈ ts, RepresentableTrack t)
    (rest : List Nat) (hrest : HasPrefix rest (bytes "  ") = false) :
    ∀ (acc : List Track) (F : Nat), ((ts.map writeTrack).flatten ++ rest).length < F →
      readTracks F ((ts.map writeTrack).flatten ++ rest) acc = .ok (acc ++ ts, rest) := by
  induction ts with
  | nil =>
    intro acc F hF
    cases F with
    | zero => omega
    | succ F =>
      rw [List.map_nil, List.flatten_nil, List.nil_append, List.append_nil]
      exact readTracks_pushback F rest acc hrest
  | cons t ts ih =>
    intro acc F hF
    have ht := hts t (by simp)
    have hts' : ∀ x ∈ ts, RepresentableTrack x := fun x hx => hts x (by simp [hx])
    have hr := readTrack_written t ht ((ts.map writeTrack).flatten ++ rest)
      (HasPrefix_tracks ts hts' rest hrest)
    have e : ((t :: ts).map writeTrack).flatten ++ rest =
        bytes "  TRACK " ++ (FormatTrackNumber t.TrackNumber ++ 32 :: (t.TrackDataType ++ 10 ::
          (linesText ((trackAttrs t).map Attr.line) ++ ((ts.map writeTrack).flatten ++ rest)))) := by
      rw [List.map_cons, List.flatten_cons, writeTrack_eq t ht]
      simp [List.append_assoc]
    rw [e] at hF ⊢
    cases F with
    | zero => omega
    | succ F =>
      rw [readTracks_trackLine t.TrackNumber t.TrackDataType (by have := ht.1; omega) ht.2.1 F
        _ t _ acc hr]
      have := ih hts' (acc ++ [t]) F (by
        simp only [List.length_append, List.length_cons] at hF ⊢
        omega)
      rw [this]
      simp

/-- The lines written for files of the round trip are read back as the files,
after the files that the sheet holds. -/
theorem readFileLoop_written (fs : List File) (hfs : ∀ file ∈ fs, RepresentableFile file) :
    ∀ (c : Cuesheet) (F : Nat), ((fs.map writeFile).flatten).length < F →
      readFileLoop F ((fs.map writeFile).flatten) c = .ok { c with File := c.File ++ fs } := by
  induction fs with
  | nil =>
    intro c F hF
    cases F with
    | zero => omega
    | succ F =>
      rw [List.map_nil, List.flatten_nil, readFileLoop_eof F [] c (by simp)]
      simp
  | cons file fs ih =>
    intro c F hF
    obtain ⟨hn, hne, hty, htr⟩ := hfs file (by simp)
    have hfs' : ∀ x ∈ fs, RepresentableFile x := fun x hx => hfs x (by simp [hx])
    have hrest : HasPrefix ((fs.map writeFile).flatten) (bytes "  ") = false := by
      cases fs with
      | nil => rfl
      | cons g gs =>
        rw [List.map_cons, List.flatten_cons, writeFile, List.append_assoc, List.append_assoc,
          List.append_assoc, List.append_assoc, List.append_assoc]
        exact HasPrefix_FILE _
    have hT := readTracks_written file.Tracks htr _ hrest []
      (((file.Tracks.map writeTrack).flatten ++ (fs.map writeFile).flatten).length + 1)
      (Nat.lt_succ_self _)
    have e : ((file :: fs).map writeFile).flatten =
        bytes "FILE " ++ (FormatString file.FileName ++ 32 :: (file.FileType ++ 10 ::
          ((file.Tracks.map writeTrack).flatten ++ (fs.map writeFile).flatten))) := by
      have e2 : bytes " " = [32] := by decide
      simp [writeFile, List.append_assoc, eol, e2]
    rw [e] at hF ⊢
    cases F with
    | zero => omega
    | succ F =>
      rw [readFileLoop_fileLine file.FileName file.FileType hn hne hty F _ _ _ c hT]
      have := ih hfs' { c with File := c.File ++ [⟨file.FileName, file.FileType, [] ++ file.Tracks⟩] } F
        (by
          simp only [List.length_append, List.length_cons] at hF ⊢
          omega)
      rw [this]
      simp

/-! ## The lines that `WriteFile` writes for the disc -/

/-- A line made of a command, a space and a text without line feed and
without delimiter at its end: it is read as a line, and its first field is
the command, with the text left in the cursor. -/
theorem discLine_read (key arg rest : List Nat) (hkey : Token key) (hne : arg ≠ [])
    (h10 : 10 ∉ arg) (hr : TrimRight arg = arg) :
    bufioReadString (key ++ 32 :: arg ++ 10 :: rest) = some (key ++ 32 :: arg ++ [10], rest) ∧
    ReadString (Trim (key ++ 32 :: arg ++ [10])) = .ok (key, arg) := by
  have hk10 := Token.no_newline key hkey
  have hl10 : 10 ∉ key ++ 32 :: arg := by
    intro hm
    simp only [List.mem_append, List.mem_cons] at hm
    rcases hm with e | e | e
    · exact hk10 e
    · omega
    · exact h10 e
  have hb := bufioReadString_line (key ++ 32 :: arg) rest hl10
  have htl : TrimLeft (key ++ 32 :: arg) = key ++ 32 :: arg :=
    TrimLeft_append_clean key _ hkey.1 (Token.trim key hkey).1
  have htr : TrimRight (key ++ 32 :: arg) = key ++ 32 :: arg := by
    have e : key ++ 32 :: arg = (key ++ [32]) ++ arg := by simp
    rw [e]
    exact TrimRight_append_clean _ arg hne hr
  have htrim := Trim_indent_line [] _ (by simp) htl htr
  rw [List.nil_append] at htrim
  have hrs := ReadString_field key (32 :: arg) hkey (Or.inr ⟨arg, rfl⟩)
  simp only [List.drop_succ_cons, List.drop_zero] at hrs
  refine ⟨?_, ?_⟩
  · simpa [List.append_assoc] using hb
  · have e : key ++ 32 :: arg ++ [10] = (key ++ 32 :: arg) ++ [10] := by simp
    rw [e, htrim]
    exact hrs

/-- A `REM` line appends its text to `Rem`. -/
theorem readFileLoop_remLine (r : List Nat) (h : RawText r) (f : Nat) (rest : List Nat)
    (c : Cuesheet) :
    readFileLoop (f + 1) (bytes "REM " ++ r ++ eol ++ rest) c =
      readFileLoop f rest { c with Rem := c.Rem ++ [r] } := by
  by_cases hr : r = []
  · subst hr
    exact readFileLoop_REM f _ _ rest [] c (bufioReadString_line (bytes "REM ") rest (by decide))
      (by decide)
  · obtain ⟨hb, hs⟩ := discLine_read (bytes "REM") r rest (by unfold Token; decide) hr h.1 h.2.2
    have e : bytes "REM " ++ r ++ eol ++ rest = bytes "REM" ++ 32 :: r ++ 10 :: rest := by
      have : bytes "REM " = bytes "REM" ++ [32] := by decide
      simp [List.append_assoc, eol, this]
    rw [e]
    exact readFileLoop_REM f _ _ rest r c hb hs

/-- The `REM` lines append their texts to `Rem`, in their order. -/
theorem readFileLoop_rems (rems : List (List Nat)) (h : ∀ r ∈ rems, RawText r) (rest : List Nat) :
    ∀ (c : Cuesheet) (F f : Nat),
      ((rems.map (fun rem => bytes "REM " ++ rem ++ eol)).flatten ++ rest).length < F →
      rest.length < f →
      readFileLoop F ((rems.map (fun rem => bytes "REM " ++ rem ++ eol)).flatten ++ rest) c =
        readFileLoop f rest { c with Rem := c.Rem ++ rems } := by
  induction rems with
  | nil =>
    intro c F f hF hf
    simp only [List.map_nil, List.flatten_nil, List.nil_append, List.append_nil] at hF ⊢
    exact readFileLoop_fuel _ _ _ _ hF hf
  | cons r rs ih =>
    intro c F f hF hf
    rw [List.map_cons, List.flatten_cons, List.append_assoc] at hF ⊢
    cases F with
    | zero => omega
    | succ F =>
      rw [readFileLoop_remLine r (h r (by simp)) F _ c,
        ih (fun x hx => h x (by simp [hx])) _ F f (by
          rw [List.length_append] at hF
          have : 0 < (bytes "REM " ++ r ++ eol).length := by simp [eol]
          omega) hf]
      simp

/-- A line that is written or not, before the rest of the stream. -/
theorem readFileLoop_opt (cond : Prop) [Decidable cond] (line rest : List Nat)
    (c c' : Cuesheet)
    (hyes : cond → ∀ f, readFileLoop (f + 1) (line ++ rest) c = readFileLoop f rest c')
    (hno : ¬ cond → c' = c) (hline : line ≠ []) (F f : Nat)
    (hF : ((if cond then line else []) ++ rest).length < F) (hf : rest.length < f) :
    readFileLoop F ((if cond then line else []) ++ rest) c = readFileLoop f rest c' := by
  by_cases hc : cond
  · simp only [hc, if_true] at hF ⊢
    cases F with
    | zero => omega
    | succ F =>
      rw [hyes hc F]
      refine readFileLoop_fuel _ _ _ _ ?_ hf
      have := List.length_pos.2 hline
      simp only [List.length_append] at hF
      omega
  · simp only [hc, if_false, List.nil_append] at hF ⊢
    rw [hno hc]
    exact readFileLoop_fuel _ _ _ _ hF hf

/-- A `CATALOG` line with a raw text that is not empty stores the text. -/
theorem readFileLoop_catalogLine (cat : List Nat) (h : RawText cat) (hne : cat ≠ []) (f : Nat)
    (rest : List Nat) (c : Cuesheet) :
    readFileLoop (f + 1) (bytes "CATALOG " ++ cat ++ eol ++ rest) c =
      readFileLoop f rest { c with Catalog := cat } := by
  obtain ⟨hb, hs⟩ := discLine_read (bytes "CATALOG") cat rest (by unfold Token; decide) hne
    h.1 h.2.2
  have e : bytes "CATALOG " ++ cat ++ eol ++ rest = bytes "CATALOG" ++ 32 :: cat ++ 10 :: rest := by
    have : bytes "CATALOG " = bytes "CATALOG" ++ [32] := by decide
    simp [List.append_assoc, eol, this]
  rw [e]
  exact readFileLoop_CATALOG f _ _ rest cat c hb hs

/-- A `CDTEXTFILE` line of the disc with a written field stores the field. -/
theorem readFileLoop_CDTEXTFILE_line (s : List Nat) (h : Field s) (hne : s ≠ []) (f : Nat)
    (rest : List Nat) (c : Cuesheet) :
    readFileLoop (f + 1) (bytes "CDTEXTFILE " ++ FormatString s ++ eol ++ rest) c =
      readFileLoop f rest { c with CdTextFile := s } := by
  obtain ⟨g0, g1, g2, g3, -⟩ := FormatString_field s h hne
  obtain ⟨hb, hs⟩ := discLine_read (bytes "CDTEXTFILE") (FormatString s) rest
    (by unfold Token; decide) g1 g0 g2
  have e : bytes "CDTEXTFILE " ++ FormatString s ++ eol ++ rest =
      bytes "CDTEXTFILE" ++ 32 :: FormatString s ++ 10 :: rest := by
    have : bytes "CDTEXTFILE " = bytes "CDTEXTFILE" ++ [32] := by decide
    simp [List.append_assoc, eol, this]
  rw [e]
  exact readFileLoop_CDTEXTFILE f _ _ rest (FormatString s) s [] c hb hs g3

/-- A `TITLE` line of the disc with a written field stores the field. -/
theorem readFileLoop_TITLE_line (s : List Nat) (h : Field s) (hne : s ≠ []) (f : Nat)
    (rest : List Nat) (c : Cuesheet) :
    readFileLoop (f + 1) (bytes "TITLE " ++ FormatString s ++ eol ++ rest) c =
      readFileLoop f rest { c with Title := s } := by
  obtain ⟨g0, g1, g2, g3, -⟩ := FormatString_field s h hne
  obtain ⟨hb, hs⟩ := discLine_read (bytes "TITLE") (FormatString s) rest
    (by unfold Token; decide) g1 g0 g2
  have e : bytes "TITLE " ++ FormatString s ++ eol ++ rest =
      bytes "TITLE" ++ 32 :: FormatString s ++ 10 :: rest := by
    have : bytes "TITLE " = bytes "TITLE" ++ [32] := by decide
    simp [List.append_assoc, eol, this]
  rw [e]
  exact readFileLoop_TITLE f _ _ rest (FormatString s) s [] c hb hs g3

/-- A `PERFORMER` line of the disc with a written field stores the field. -/
theorem readFileLoop_PERFORMER_line (s : List Nat) (h : Field s) (hne : s ≠ []) (f : Nat)
    (rest : List Nat) (c : Cuesheet) :
    readFileLoop (f + 1) (bytes "PERFORMER " ++ FormatString s ++ eol ++ rest) c =
      readFileLoop f rest { c with Performer := s } := by
  obtain ⟨g0, g1, g2, g3, -⟩ := FormatString_field s h hne
  obtain ⟨hb, hs⟩ := discLine_read (bytes "PERFORMER") (FormatString s) rest
    (by unfold Token; decide) g1 g0 g2
  have e : bytes "PERFORMER " ++ FormatString s ++ eol ++ rest =
      bytes "PERFORMER" ++ 32 :: FormatString s ++ 10 :: rest := by
    have : bytes "PERFORMER " = bytes "PERFORMER" ++ [32] := by decide
    simp [List.append_assoc, eol, this]
  rw [e]
  exact readFileLoop_PERFORMER f _ _ rest (FormatString s) s [] c hb hs g3

/-- A `SONGWRITER` line of the disc with a written field stores the field. -/
theorem readFileLoop_SONGWRITER_line (s : List Nat) (h : Field s) (hne : s ≠ []) (f : Nat)
    (rest : List Nat) (c : Cuesheet) :
    readFileLoop (f + 1) (bytes "SONGWRITER " ++ FormatString s ++ eol ++ rest) c =
      readFileLoop f rest { c with SongWriter := s } := by
  obtain ⟨g0, g1, g2, g3, -⟩ := FormatString_field s h hne
  obtain ⟨hb, hs⟩ := discLine_read (bytes "SONGWRITER") (FormatString s) rest
    (by unfold Token; decide) g1 g0 g2
  have e : bytes "SONGWRITER " ++ FormatString s ++ eol ++ rest =
      bytes "SONGWRITER" ++ 32 :: FormatString s ++ 10 :: rest := by
    have : bytes "SONGWRITER " = bytes "SONGWRITER" ++ [32] := by decide
    simp [List.append_assoc, eol, this]
  rw [e]
  exact readFileLoop_SONGWRITER f _ _ rest (FormatString s) s [] c hb hs g3

/-- A `PREGAP` line of the disc with a frame below 450000 stores the frame. -/
theorem readFileLoop_PREGAP_line (p : Nat) (h : p < 450000) (f : Nat) (rest : List Nat)
    (c : Cuesheet) :
    readFileLoop (f + 1) (bytes "PREGAP " ++ FormatFrame p ++ eol ++ rest) c =
      readFileLoop f rest { c with Pregap := p } := by
  obtain ⟨hb, hs⟩ := discLine_read (bytes "PREGAP") (FormatFrame p) rest
    (by unfold Token; decide) (FormatFrame_ne_nil p) (FormatFrame_no_newline p)
    (FormatFrame_TrimRight p)
  have e : bytes "PREGAP " ++ FormatFrame p ++ eol ++ rest =
      bytes "PREGAP" ++ 32 :: FormatFrame p ++ 10 :: rest := by
    have : bytes "PREGAP " = bytes "PREGAP" ++ [32] := by decide
    simp [List.append_assoc, eol, this]
  rw [e]
  exact readFileLoop_PREGAP f _ _ rest (FormatFrame p) p [] c hb hs
    (by rw [ReadFrame_FormatFrame_mod, Nat.mod_eq_of_lt h])

/-- A `POSTGAP` line of the disc with a frame below 450000 stores the frame. -/
theorem readFileLoop_POSTGAP_line (p : Nat) (h : p < 450000) (f : Nat) (rest : List Nat)
    (c : Cuesheet) :
    readFileLoop (f + 1) (bytes "POSTGAP " ++ FormatFrame p ++ eol ++ rest) c =
      readFileLoop f rest { c with Postgap := p } := by
  obtain ⟨hb, hs⟩ := discLine_read (bytes "POSTGAP") (FormatFrame p) rest
    (by unfold Token; decide) (FormatFrame_ne_nil p) (FormatFrame_no_newline p)
    (FormatFrame_TrimRight p)
  have e : bytes "POSTGAP " ++ FormatFrame p ++ eol ++ rest =
      bytes "POSTGAP" ++ 32 :: FormatFrame p ++ 10 :: rest := by
    have : bytes "POSTGAP " = bytes "POSTGAP" ++ [32] := by decide
    simp [List.append_assoc, eol, this]
  rw [e]
  exact readFileLoop_POSTGAP f _ _ rest (FormatFrame p) p [] c hb hs
    (by rw [ReadFrame_FormatFrame_mod, Nat.mod_eq_of_lt h])

/-- Over the stream of unread bytes: for every sheet that meets the conditions
of the round trip, `ReadFile` on the text that `WriteFile` writes returns the
sheet, without failing. -/
theorem ReadFile_WriteFile (D : Cuesheet) (h : Representable D) :
    ReadFile (WriteFile D) = .ok D := by
  obtain ⟨rem, cat, cdt, title, perf, sw, pre, post, files⟩ := D
  obtain ⟨hrem, hcat, hcdt, hti, hpe, hsw, hpre, hpost, hfiles⟩ := h
  simp only at hrem hcat hcdt hti hpe hsw hpre hpost hfiles
  have e : WriteFile ⟨rem, cat, cdt, title, perf, sw, pre, post, files⟩ =
      ((rem.map (fun rem => bytes "REM " ++ rem ++ eol)).flatten ++
      ((if cat.length > 0 then bytes "CATALOG " ++ cat ++ eol else []) ++
      ((if cdt.length > 0 then bytes "CDTEXTFILE " ++ FormatString cdt ++ eol else []) ++
      ((if title.length > 0 then bytes "TITLE " ++ FormatString title ++ eol else []) ++
      ((if perf.length > 0 then bytes "PERFORMER " ++ FormatString perf ++ eol else []) ++
      ((if sw.length > 0 then bytes "SONGWRITER " ++ FormatString sw ++ eol else []) ++
      ((if pre > 0 then bytes "PREGAP " ++ FormatFrame pre ++ eol else []) ++
      ((if post > 0 then bytes "POSTGAP " ++ FormatFrame post ++ eol else []) ++
      (files.map writeFile).flatten)))))))) := by
    simp only [WriteFile, List.append_assoc]
  have h0 : readFileLoop (((rem.map (fun rem => bytes "REM " ++ rem ++ eol)).flatten ++
      ((if cat.length > 0 then bytes "CATALOG " ++ cat ++ eol else []) ++
      ((if cdt.length > 0 then bytes "CDTEXTFILE " ++ FormatString cdt ++ eol else []) ++
      ((if title.length > 0 then bytes "TITLE " ++ FormatString title ++ eol else []) ++
      ((if perf.length > 0 then bytes "PERFORMER " ++ FormatString perf ++ eol else []) ++
      ((if sw.length > 0 then bytes "SONGWRITER " ++ FormatString sw ++ eol else []) ++
      ((if pre > 0 then bytes "PREGAP " ++ FormatFrame pre ++ eol else []) ++
      ((if post > 0 then bytes "POSTGAP " ++ FormatFrame post ++ eol else []) ++
      (files.map writeFile).flatten)))))))).length + 1)
      ((rem.map (fun rem => bytes "REM " ++ rem ++ eol)).flatten ++
      ((if cat.length > 0 then bytes "CATALOG " ++ cat ++ eol else []) ++
      ((if cdt.length > 0 then bytes "CDTEXTFILE " ++ FormatString cdt ++ eol else []) ++
      ((if title.length > 0 then bytes "TITLE " ++ FormatString title ++ eol else []) ++
      ((if perf.length > 0 then bytes "PERFORMER " ++ FormatString perf ++ eol else []) ++
      ((if sw.length > 0 then bytes "SONGWRITER " ++ FormatString sw ++ eol else []) ++
      ((if pre > 0 then bytes "PREGAP " ++ FormatFrame pre ++ eol else []) ++
      ((if post > 0 then bytes "POSTGAP " ++ FormatFrame post ++ eol else []) ++
      (files.map writeFile).flatten)))))))) Cuesheet.zero =
      readFileLoop (((if cat.length > 0 then bytes "CATALOG " ++ cat ++ eol else []) ++
      ((if cdt.length > 0 then bytes "CDTEXTFILE " ++ FormatString cdt ++ eol else []) ++
      ((if title.length > 0 then bytes "TITLE " ++ FormatString title ++ eol else []) ++
      ((if perf.length > 0 then bytes "PERFORMER " ++ FormatString perf ++ eol else []) ++
      ((if sw.length > 0 then bytes "SONGWRITER " ++ FormatString sw ++ eol else []) ++
      ((if pre > 0 then bytes "PREGAP " ++ FormatFrame pre ++ eol else []) ++
      ((if post > 0 then bytes "POSTGAP " ++ FormatFrame post ++ eol else []) ++
      (files.map writeFile).flatten))))))).length + 1)
      ((if cat.length > 0 then bytes "CATALOG " ++ cat ++ eol else []) ++
      ((if cdt.length > 0 then bytes "CDTEXTFILE " ++ FormatString cdt ++ eol else []) ++
      ((if title.length > 0 then bytes "TITLE " ++ FormatString title ++ eol else []) ++
      ((if perf.length > 0 then bytes "PERFORMER " ++ FormatString perf ++ eol else []) ++
      ((if sw.length > 0 then bytes "SONGWRITER " ++ FormatString sw ++ eol else []) ++
      ((if pre > 0 then bytes "PREGAP " ++ FormatFrame pre ++ eol else []) ++
      ((if post > 0 then bytes "POSTGAP " ++ FormatFrame post ++ eol else []) ++
      (files.map writeFile).flatten))))))) (⟨rem, [], [], [], [], [], 0, 0, []⟩ : Cuesheet) :=
    readFileLoop_rems rem hrem _ Cuesheet.zero _ _ (Nat.lt_succ_self _) (Nat.lt_succ_self _)
  have h1 : readFileLoop (((if cat.length > 0 then bytes "CATALOG " ++ cat ++ eol else []) ++
      ((if cdt.length > 0 then bytes "CDTEXTFILE " ++ FormatString cdt ++ eol else []) ++
      ((if title.length > 0 then bytes "TITLE " ++ FormatString title ++ eol else []) ++
      ((if perf.length > 0 then bytes "PERFORMER " ++ FormatString perf ++ eol else []) ++
      ((if sw.length > 0 then bytes "SONGWRITER " ++ FormatString sw ++ eol else []) ++
      ((if pre > 0 then bytes "PREGAP " ++ FormatFrame pre ++ eol else []) ++
      ((if post > 0 then bytes "POSTGAP " ++ FormatFrame post ++ eol else []) ++
      (files.map writeFile).flatten))))))).length + 1)
      ((if cat.length > 0 then bytes "CATALOG " ++ cat ++ eol else []) ++
      ((if cdt.length > 0 then bytes "CDTEXTFILE " ++ FormatString cdt ++ eol else []) ++
      ((if title.length > 0 then bytes "TITLE " ++ FormatString title ++ eol else []) ++
      ((if perf.length > 0 then bytes "PERFORMER " ++ FormatString perf ++ eol else []) ++
      ((if sw.length > 0 then bytes "SONGWRITER " ++ FormatString sw ++ eol else []) ++
      ((if pre > 0 then bytes "PREGAP " ++ FormatFrame pre ++ eol else []) ++
      ((if post > 0 then bytes "POSTGAP " ++ FormatFrame post ++ eol else []) ++
      (files.map writeFile).flatten))))))) (⟨rem, [], [], [], [], [], 0, 0, []⟩ : Cuesheet) =
      readFileLoop (((if cdt.length > 0 then bytes "CDTEXTFILE " ++ FormatString cdt ++ eol else []) ++
      ((if title.length > 0 then bytes "TITLE " ++ FormatString title ++ eol else []) ++
      ((if perf.length > 0 then bytes "PERFORMER " ++ FormatString perf ++ eol else []) ++
      ((if sw.length > 0 then bytes "SONGWRITER " ++ FormatString sw ++ eol else []) ++
      ((if pre > 0 then bytes "PREGAP " ++ FormatFrame pre ++ eol else []) ++
      ((if post > 0 then bytes "POSTGAP " ++ FormatFrame post ++ eol else []) ++
      (files.map writeFile).flatten)))))).length + 1)
      ((if cdt.length > 0 then bytes "CDTEXTFILE " ++ FormatString cdt ++ eol else []) ++
      ((if title.length > 0 then bytes "TITLE " ++ FormatString title ++ eol else []) ++
      ((if perf.length > 0 then bytes "PERFORMER " ++ FormatString perf ++ eol else []) ++
      ((if sw.length > 0 then bytes "SONGWRITER " ++ FormatString sw ++ eol else []) ++
      ((if pre > 0 then bytes "PREGAP " ++ FormatFrame pre ++ eol else []) ++
      ((if post > 0 then bytes "POSTGAP " ++ FormatFrame post ++ eol else []) ++
      (files.map writeFile).flatten)))))) (⟨rem, cat, [], [], [], [], 0, 0, []⟩ : Cuesheet) :=
    readFileLoop_opt (cat.length > 0) (bytes "CATALOG " ++ cat ++ eol) _ (⟨rem, [], [], [], [], [], 0, 0, []⟩ : Cuesheet) (⟨rem, cat, [], [], [], [], 0, 0, []⟩ : Cuesheet)
      (fun hc f => readFileLoop_catalogLine cat hcat (List.length_pos.1 hc) f _ _)
      (fun hc => by
        have : cat = [] := List.length_eq_zero.1 (by omega)
        rw [this])
      (by simp [eol]) _ _ (Nat.lt_succ_self _) (Nat.lt_succ_self _)
  have h2 : readFileLoop (((if cdt.length > 0 then bytes "CDTEXTFILE " ++ FormatString cdt ++ eol else []) ++
      ((if title.length > 0 then bytes "TITLE " ++ FormatString title ++ eol else []) ++
      ((if perf.length > 0 then bytes "PERFORMER " ++ FormatString perf ++ eol else []) ++
      ((if sw.length > 0 then bytes "SONGWRITER " ++ FormatString sw ++ eol else []) ++
      ((if pre > 0 then bytes "PREGAP " ++ FormatFrame pre ++ eol else []) ++
      ((if post > 0 then bytes "POSTGAP " ++ FormatFrame post ++ eol else []) ++
      (files.map writeFile).flatten)))))).length + 1)
      ((if cdt.length > 0 then bytes "CDTEXTFILE " ++ FormatString cdt ++ eol else []) ++
      ((if title.length > 0 then bytes "TITLE " ++ FormatString title ++ eol else []) ++
      ((if perf.length > 0 then bytes "PERFORMER " ++ FormatString perf ++ eol else []) ++
      ((if sw.length > 0 then bytes "SONGWRITER " ++ FormatString sw ++ eol else []) ++
      ((if pre > 0 then bytes "PREGAP " ++ FormatFrame pre ++ eol else []) ++
      ((if post > 0 then bytes "POSTGAP " ++ FormatFrame post ++ eol else []) ++
      (files.map writeFile).flatten)))))) (⟨rem, cat, [], [], [], [], 0, 0, []⟩ : Cuesheet) =
      readFileLoop (((if title.length > 0 then bytes "TITLE " ++ FormatString title ++ eol else []) ++
      ((if perf.length > 0 then bytes "PERFORMER " ++ FormatString perf ++ eol else []) ++
      ((if sw.length > 0 then bytes "SONGWRITER " ++ FormatString sw ++ eol else []) ++
      ((if pre > 0 then bytes "PREGAP " ++ FormatFrame pre ++ eol else []) ++
      ((if post > 0 then bytes "POSTGAP " ++ FormatFrame post ++ eol else []) ++
      (files.map writeFile).flatten))))).length + 1)
      ((if title.length > 0 then bytes "TITLE " ++ FormatString title ++ eol else []) ++
      ((if perf.length > 0 then bytes "PERFORMER " ++ FormatString perf ++ eol else []) ++
      ((if sw.length > 0 then bytes "SONGWRITER " ++ FormatString sw ++ eol else []) ++
      ((if pre > 0 then bytes "PREGAP " ++ FormatFrame pre ++ eol else []) ++
      ((if post > 0 then bytes "POSTGAP " ++ FormatFrame post ++ eol else []) ++
      (files.map writeFile).flatten))))) (⟨rem, cat, cdt, [], [], [], 0, 0, []⟩ : Cuesheet) :=
    readFileLoop_opt (cdt.length > 0) (bytes "CDTEXTFILE " ++ FormatString cdt ++ eol) _ (⟨rem, cat, [], [], [], [], 0, 0, []⟩ : Cuesheet) (⟨rem, cat, cdt, [], [], [], 0, 0, []⟩ : Cuesheet)
      (fun hc f => readFileLoop_CDTEXTFILE_line cdt hcdt (List.length_pos.1 hc) f _ _)
      (fun hc => by
        have : cdt = [] := List.length_eq_zero.1 (by omega)
        rw [this])
      (by simp [eol]) _ _ (Nat.lt_succ_self _) (Nat.lt_succ_self _)
  have h3 : readFileLoop (((if title.length > 0 then bytes "TITLE " ++ FormatString title ++ eol else []) ++
      ((if perf.length > 0 then bytes "PERFORMER " ++ FormatString perf ++ eol else []) ++
      ((if sw.length > 0 then bytes "SONGWRITER " ++ FormatString sw ++ eol else []) ++
      ((if pre > 0 then bytes "PREGAP " ++ FormatFrame pre ++ eol else []) ++
      ((if post > 0 then bytes "POSTGAP " ++ FormatFrame post ++ eol else []) ++
      (files.map writeFile).flatten))))).length + 1)
      ((if title.length > 0 then bytes "TITLE " ++ FormatString title ++ eol else []) ++
      ((if perf.length > 0 then bytes "PERFORMER " ++ FormatString perf ++ eol else []) ++
      ((if sw.length > 0 then bytes "SONGWRITER " ++ FormatString sw ++ eol else []) ++
      ((if pre > 0 then bytes "PREGAP " ++ FormatFrame pre ++ eol else []) ++
      ((if post > 0 then bytes "POSTGAP " ++ FormatFrame post ++ eol else []) ++
      (files.map writeFile).flatten))))) (⟨rem, cat, cdt, [], [], [], 0, 0, []⟩ : Cuesheet) =
      readFileLoop (((if perf.length > 0 then bytes "PERFORMER " ++ FormatString perf ++ eol else []) ++
      ((if sw.length > 0 then bytes "SONGWRITER " ++ FormatString sw ++ eol else []) ++
      ((if pre > 0 then bytes "PREGAP " ++ FormatFrame pre ++ eol else []) ++
      ((if post > 0 then bytes "POSTGAP " ++ FormatFrame post ++ eol else []) ++
      (files.map writeFile).flatten)))).length + 1)
      ((if perf.length > 0 then bytes "PERFORMER " ++ FormatString perf ++ eol else []) ++
      ((if sw.length > 0 then bytes "SONGWRITER " ++ FormatString sw ++ eol else []) ++
      ((if pre > 0 then bytes "PREGAP " ++ FormatFrame pre ++ eol else []) ++
      ((if post > 0 then bytes "POSTGAP " ++ FormatFrame post ++ eol else []) ++
      (files.map writeFile).flatten)))) (⟨rem, cat, cdt, title, [], [], 0, 0, []⟩ : Cuesheet) :=
    readFileLoop_opt (title.length > 0) (bytes "TITLE " ++ FormatString title ++ eol) _ (⟨rem, cat, cdt, [], [], [], 0, 0, []⟩ : Cuesheet) (⟨rem, cat, cdt, title, [], [], 0, 0, []⟩ : Cuesheet)
      (fun hc f => readFileLoop_TITLE_line title hti (List.length_pos.1 hc) f _ _)
      (fun hc => by
        have : title = [] := List.length_eq_zero.1 (by omega)
        rw [this])
      (by simp [eol]) _ _ (Nat.lt_succ_self _) (Nat.lt_succ_self _)
  have h4 : readFileLoop (((if perf.length > 0 then bytes "PERFORMER " ++ FormatString perf ++ eol else []) ++
      ((if sw.length > 0 then bytes "SONGWRITER " ++ FormatString sw ++ eol else []) ++
      ((if pre > 0 then bytes "PREGAP " ++ FormatFrame pre ++ eol else []) ++
      ((if post > 0 then bytes "POSTGAP " ++ FormatFrame post ++ eol else []) ++
      (files.map writeFile).flatten)))).length + 1)
      ((if perf.length > 0 then bytes "PERFORMER " ++ FormatString perf ++ eol else []) ++
      ((if sw.length > 0 then bytes "SONGWRITER " ++ FormatString sw ++ eol else []) ++
      ((if pre > 0 then bytes "PREGAP " ++ FormatFrame pre ++ eol else []) ++
      ((if post > 0 then bytes "POSTGAP " ++ FormatFrame post ++ eol else []) ++
      (files.map writeFile).flatten)))) (⟨rem, cat, cdt, title, [], [], 0, 0, []⟩ : Cuesheet) =
      readFileLoop (((if sw.length > 0 then bytes "SONGWRITER " ++ FormatString sw ++ eol else []) ++
      ((if pre > 0 then bytes "PREGAP " ++ FormatFrame pre ++ eol else []) ++
      ((if post > 0 then bytes "POSTGAP " ++ FormatFrame post ++ eol else []) ++
      (files.map writeFile).flatten))).length + 1)
      ((if sw.length > 0 then bytes "SONGWRITER " ++ FormatString sw ++ eol else []) ++
      ((if pre > 0 then bytes "PREGAP " ++ FormatFrame pre ++ eol else []) ++
      ((if post > 0 then bytes "POSTGAP " ++ FormatFrame post ++ eol else []) ++
      (files.map writeFile).flatten))) (⟨rem, cat, cdt, title, perf, [], 0, 0, []⟩ : Cuesheet) :=
    readFileLoop_opt (perf.length > 0) (bytes "PERFORMER " ++ FormatString perf ++ eol) _ (⟨rem, cat, cdt, title, [], [], 0, 0, []⟩ : Cuesheet) (⟨rem, cat, cdt, title, perf, [], 0, 0, []⟩ : Cuesheet)
      (fun hc f => readFileLoop_PERFORMER_line perf hpe (List.length_pos.1 hc) f _ _)
      (fun hc => by
        have : perf = [] := List.length_eq_zero.1 (by omega)
        rw [this])
      (by simp [eol]) _ _ (Nat.lt_succ_self _) (Nat.lt_succ_self _)
  have h5 : readFileLoop (((if sw.length > 0 then bytes "SONGWRITER " ++ FormatString sw ++ eol else []) ++
      ((if pre > 0 then bytes "PREGAP " ++ FormatFrame pre ++ eol else []) ++
      ((if post > 0 then bytes "POSTGAP " ++ FormatFrame post ++ eol else []) ++
      (files.map writeFile).flatten))).length + 1)
      ((if sw.length > 0 then bytes "SONGWRITER " ++ FormatString sw ++ eol else []) ++
      ((if pre > 0 then bytes "PREGAP " ++ FormatFrame pre ++ eol else []) ++
      ((if post > 0 then bytes "POSTGAP " ++ FormatFrame post ++ eol else []) ++
      (files.map writeFile).flatten))) (⟨rem, cat, cdt, title, perf, [], 0, 0, []⟩ : Cuesheet) =
      readFileLoop (((if pre > 0 then bytes "PREGAP " ++ FormatFrame pre ++ eol else []) ++
      ((if post > 0 then bytes "POSTGAP " ++ FormatFrame post ++ eol else []) ++
      (files.map writeFile).flatten)).length + 1)
      ((if pre > 0 then bytes "PREGAP " ++ FormatFrame pre ++ eol else []) ++
      ((if post > 0 then bytes "POSTGAP " ++ FormatFrame post ++ eol else []) ++
      (files.map writeFile).flatten)) (⟨rem, cat, cdt, title, perf, sw, 0, 0, []⟩ : Cuesheet) :=
    readFileLoop_opt (sw.length > 0) (bytes "SONGWRITER " ++ FormatString sw ++ eol) _ (⟨rem, cat, cdt, title, perf, [], 0, 0, []⟩ : Cuesheet) (⟨rem, cat, cdt, title, perf, sw, 0, 0, []⟩ : Cuesheet)
      (fun hc f => readFileLoop_SONGWRITER_line sw hsw (List.length_pos.1 hc) f _ _)
      (fun hc => by
        have : sw = [] := List.length_eq_zero.1 (by omega)
        rw [this])
      (by simp [eol]) _ _ (Nat.lt_succ_self _) (Nat.lt_succ_self _)
  have h6 : readFileLoop (((if pre > 0 then bytes "PREGAP " ++ FormatFrame pre ++ eol else []) ++
      ((if post > 0 then bytes "POSTGAP " ++ FormatFrame post ++ eol else []) ++
      (files.map writeFile).flatten)).length + 1)
      ((if pre > 0 then bytes "PREGAP " ++ FormatFrame pre ++ eol else []) ++
      ((if post > 0 then bytes "POSTGAP " ++ FormatFrame post ++ eol else []) ++
      (files.map writeFile).flatten)) (⟨rem, cat, cdt, title, perf, sw, 0, 0, []⟩ : Cuesheet) =
      readFileLoop (((if post > 0 then bytes "POSTGAP " ++ FormatFrame post ++ eol else []) ++
      (files.map writeFile).flatten).length + 1)
      ((if post > 0 then bytes "POSTGAP " ++ FormatFrame post ++ eol else []) ++
      (files.map writeFile).flatten) (⟨rem, cat, cdt, title, perf, sw, pre, 0, []⟩ : Cuesheet) :=
    readFileLoop_opt (pre > 0) (bytes "PREGAP " ++ FormatFrame pre ++ eol) _ (⟨rem, cat, cdt, title, perf, sw, 0, 0, []⟩ : Cuesheet) (⟨rem, cat, cdt, title, perf, sw, pre, 0, []⟩ : Cuesheet)
      (fun hc f => readFileLoop_PREGAP_line pre hpre f _ _)
      (fun hc => by
        have : pre = 0 := by omega
        rw [this])
      (by simp [eol]) _ _ (Nat.lt_succ_self _) (Nat.lt_succ_self _)
  have h7 : readFileLoop (((if post > 0 then bytes "POSTGAP " ++ FormatFrame post ++ eol else []) ++
      (files.map writeFile).flatten).length + 1)
      ((if post > 0 then bytes "POSTGAP " ++ FormatFrame post ++ eol else []) ++
      (files.map writeFile).flatten) (⟨rem, cat, cdt, title, perf, sw, pre, 0, []⟩ : Cuesheet) =
      readFileLoop ((files.map writeFile).flatten.length + 1)
      (files.map writeFile).flatten (⟨rem, cat, cdt, title, perf, sw, pre, post, []⟩ : Cuesheet) :=
    readFileLoop_opt (post > 0) (bytes "POSTGAP " ++ FormatFrame post ++ eol) _ (⟨rem, cat, cdt, title, perf, sw, pre, 0, []⟩ : Cuesheet) (⟨rem, cat, cdt, title, perf, sw, pre, post, []⟩ : Cuesheet)
      (fun hc f => readFileLoop_POSTGAP_line post hpost f _ _)
      (fun hc => by
        have : post = 0 := by omega
        rw [this])
      (by simp [eol]) _ _ (Nat.lt_succ_self _) (Nat.lt_succ_self _)
  have h8 : readFileLoop ((files.map writeFile).flatten.length + 1) ((files.map writeFile).flatten) (⟨rem, cat, cdt, title, perf, sw, pre, post, []⟩ : Cuesheet) =
      .ok (⟨rem, cat, cdt, title, perf, sw, pre, post, files⟩ : Cuesheet) :=
    readFileLoop_written files hfiles (⟨rem, cat, cdt, title, perf, sw, pre, post, []⟩ : Cuesheet) _ (Nat.lt_succ_self _)
  rw [ReadFile, e, h0, h1, h2, h3, h4, h5, h6, h7, h8]

/-- Over the stream of unread bytes, an instance: the sheet of `TestCuesheet`
meets the conditions and is read back as it was written. -/
theorem ReadFile_WriteFile_witness : ReadFile (WriteFile testSheet) = .ok testSheet :=
  ReadFile_WriteFile testSheet (by
    refine ⟨by unfold RawText; decide, by unfold RawText; decide, by unfold Field; decide,
      by unfold Field; decide, by unfold Field; decide, by unfold Field; decide, by decide,
      by decide, ?_⟩
    intro file hf
    simp only [testSheet, List.mem_singleton] at hf
    subst hf
    refine ⟨by unfold Field; decide, by decide, by unfold Token; decide, ?_⟩
    intro t ht
    simp only [List.mem_cons, List.mem_nil_iff, or_false] at ht
    rcases ht with e | e <;> subst e
    · exact ⟨by decide, by unfold Token; decide, ⟨false, false, false, false, by decide⟩,
        by unfold RawText; decide, by unfold TrackText; decide, by unfold TrackText; decide,
        by unfold TrackText; decide, by decide, by decide, by decide⟩
    · exact ⟨by decide, by unfold Token; decide, ⟨true, false, false, false, by decide⟩,
        by unfold RawText; decide, by unfold TrackText; decide, by unfold TrackText; decide,
        by unfold TrackText; decide, by decide, by decide, by decide⟩)


/-! ## The reader over the buffer: texts longer than the buffer -/

/-- The sheet `paddedSheet k` meets the conditions of the round trip. -/
theorem paddedSheet_Representable (k : Nat) : Representable (paddedSheet k) := by
  have hx : (10 : Nat) ∉ List.replicate k 120 := by
    intro h
    have := List.eq_of_mem_replicate h
    omega
  have hl : TrimLeft (List.replicate k 120) = List.replicate k 120 := by
    cases k with
    | zero => rfl
    | succ k => rfl
  have hr : TrimRight (List.replicate k 120) = List.replicate k 120 := by
    unfold TrimRight
    rw [List.reverse_replicate]
    have := hl
    unfold TrimLeft at this
    rw [this, List.reverse_replicate]
  have hraw : RawText [] := by unfold RawText; decide
  have hfield : Field [] := by unfold Field; decide
  refine ⟨?_, hraw, hfield, hfield, hfield, hfield, Nat.succ_pos _, Nat.succ_pos _, ?_⟩
  · intro r hr'
    simp only [paddedSheet, List.mem_singleton] at hr'
    subst hr'
    exact ⟨hx, hl, hr⟩
  · intro file hf
    have e : file = oneFile := by
      simp only [paddedSheet, List.mem_cons, List.mem_nil_iff, or_false, or_self] at hf
      exact hf
    subst e
    refine ⟨by unfold Field; decide, by decide, by unfold Token; decide, ?_⟩
    intro t ht
    simp only [oneFile, List.mem_singleton] at ht
    subst ht
    exact ⟨by decide, by unfold Token; decide, ⟨false, false, false, false, by decide⟩,
      by unfold RawText; decide, by unfold TrackText; decide, by unfold TrackText; decide,
      by unfold TrackText; decide, by decide, by decide, by decide⟩

/-- C17, failing input: the sheet with a comment of 4051 letters and two files
meets the conditions of the round trip; `WriteFile` writes 4114 bytes, the
second `FILE` line lies across the end of the first 4096; `readTrack` reads
it after a refill of the buffer and restores the saved positions over the
refilled array, and `ReadFile` returns the sheet without its second file. -/
theorem ReadFile_WriteFile_refill :
    Representable (paddedSheet 4051) ∧
    (WriteFile (paddedSheet 4051)).length = 4114 ∧
    buffered.ReadFile (WriteFile (paddedSheet 4051)) =
      .ok { paddedSheet 4051 with File := [oneFile] } ∧
    buffered.ReadFile (WriteFile (paddedSheet 4051)) ≠ .ok (paddedSheet 4051) := by
  have h1 : (WriteFile (paddedSheet 4051)).length = 4114 := by decide!
  have h2 : buffered.ReadFile (WriteFile (paddedSheet 4051)) =
      .ok { paddedSheet 4051 with File := [oneFile] } := by decide!
  refine ⟨paddedSheet_Representable 4051, h1, h2, ?_⟩
  rw [h2]
  intro h
  have h3 := congrArg (fun x => x.toOption.map (fun c => c.File.length)) h
  exact absurd h3 (by decide)

/-- C14, failing input: with `L1` empty, the unknown line
`BOGUS 0123456789012345678901` and the five lines `paddedLines 4030` as `L2`,
`L2` alone is 4093 bytes and is read as the sheet of two files; with the
unknown line before it the second `FILE` line lies across the end of the
first 4096 bytes, and `ReadFile` returns one file only. -/
theorem ReadFile_unknown_command_refill :
    Trim unknownLine = 66 :: bytes "OGUS 0123456789012345678901" ∧
    firstField (Trim unknownLine) ∉ discCommands ∧
    buffered.ReadFile (linesText ([] ++ paddedLines 4030)) = .ok (paddedSheet 4030) ∧
    buffered.ReadFile (linesText ([] ++ [unknownLine] ++ paddedLines 4030)) =
      .ok { paddedSheet 4030 with File := [oneFile] } ∧
    buffered.ReadFile (linesText ([] ++ [unknownLine] ++ paddedLines 4030)) ≠
      buffered.ReadFile (linesText ([] ++ paddedLines 4030)) := by
  have h1 : Trim unknownLine = 66 :: bytes "OGUS 0123456789012345678901" := by decide
  have h2 : firstField (Trim unknownLine) ∉ discCommands := by decide
  have h3 : buffered.ReadFile (linesText ([] ++ paddedLines 4030)) =
      .ok (paddedSheet 4030) := by decide!
  have h4 : buffered.ReadFile (linesText ([] ++ [unknownLine] ++ paddedLines 4030)) =
      .ok { paddedSheet 4030 with File := [oneFile] } := by decide!
  refine ⟨h1, h2, h3, h4, ?_⟩
  rw [h3, h4]
  intro h
  have h5 := congrArg (fun x => x.toOption.map (fun c => c.File.length)) h
  exact absurd h5 (by decide)

open bufio

/-! ## The buffer of `bufio` -/

/-- The window of a reader has `w - r` bytes. -/
theorem window_length (b : Reader) (h : b.w ≤ b.buf.length) :
    b.window.length = b.w - b.r := by
  unfold Reader.window
  rw [List.length_take, List.length_drop]
  omega

/-- The search start of `ReadSlice` does not matter when the bytes before it
hold no newline. -/
theorem ReadSlice_start (f s : Nat) (b : Reader) (hs : s ≤ b.w - b.r)
    (hw : b.w ≤ b.buf.length) (hn : 10 ∉ b.window.take s) :
    b.ReadSlice f s = b.ReadSlice f 0 := by
  cases f with
  | zero => rfl
  | succ f =>
    have hlen := window_length b hw
    have e1 : (b.buf.drop (b.r + s)).take (b.w - (b.r + s)) = b.window.drop s := by
      unfold Reader.window
      rw [List.drop_take, List.drop_drop]
      congr 1
      omega
    have e2 : (b.buf.drop (b.r + 0)).take (b.w - (b.r + 0)) = b.window := rfl
    have e3 : indexByte 10 b.window = s + indexByte 10 (b.window.drop s) := by
      conv => lhs; rw [← List.take_append_drop s b.window]
      rw [indexByte_append_not_mem 10 _ _ hn, List.length_take]
      congr 1
      omega
    unfold Reader.ReadSlice
    simp only [e1, e2, e3]
    by_cases c : indexByte 10 (b.window.drop s) < b.w - (b.r + s)
    · have c' : s + indexByte 10 (b.window.drop s) < b.w - (b.r + 0) := by omega
      rw [if_pos c, if_pos c']
      congr 3
      · omega
      · congr 1
        omega
    · have c' : ¬ s + indexByte 10 (b.window.drop s) < b.w - (b.r + 0) := by omega
      rw [if_neg c, if_neg c']

/-- `ReadSlice` with a newline in the window: the bytes up to it, and no
refill. -/
theorem ReadSlice_found (f : Nat) (b : Reader) (hw : b.w ≤ b.buf.length)
    (hm : 10 ∈ b.window) :
    b.ReadSlice (f + 1) 0 =
      .ok (b.window.take (indexByte 10 b.window + 1), Err.nil,
        { b with r := b.r + indexByte 10 b.window + 1 }) := by
  have hlen := window_length b hw
  have hlt := (indexByte_lt_iff 10 b.window).2 hm
  have e2 : (b.buf.drop (b.r + 0)).take (b.w - (b.r + 0)) = b.window := rfl
  have c : indexByte 10 b.window < b.w - (b.r + 0) := by
    rw [hlen] at hlt
    exact hlt
  have key : ∀ i, i + 1 ≤ b.w - b.r →
      (b.buf.drop b.r).take (i + 0 + 1) = b.window.take (i + 1) := by
    intro i hi
    unfold Reader.window
    rw [List.take_take]
    congr 1
    omega
  unfold Reader.ReadSlice
  simp only [e2, if_pos c, pure, Except.pure]
  rw [key _ (by omega)]
  rfl

/-- `ReadSlice` without a newline in the window and with `io.EOF` pending. -/
theorem ReadSlice_err (f : Nat) (b : Reader) (hw : b.w ≤ b.buf.length)
    (hm : 10 ∉ b.window) (he : b.err = true) :
    b.ReadSlice (f + 1) 0 = .ok (b.window, Err.EOF, { b with r := b.w, err := false }) := by
  have hlen := window_length b hw
  have hlt := (indexByte_lt_iff 10 b.window).not.2 hm
  have e2 : (b.buf.drop (b.r + 0)).take (b.w - (b.r + 0)) = b.window := rfl
  have c : ¬ indexByte 10 b.window < b.w - (b.r + 0) := by
    rw [hlen] at hlt
    exact hlt
  unfold Reader.ReadSlice
  simp only [e2, if_neg c, he, if_true, pure, Except.pure]

/-- `ReadSlice` without a newline in a full window. -/
theorem ReadSlice_full (f : Nat) (b : Reader) (hw : b.w ≤ b.buf.length)
    (hm : 10 ∉ b.window) (he : b.err = false) (hf : b.buf.length ≤ b.w - b.r) :
    b.ReadSlice (f + 1) 0 = .ok (b.buf, Err.ErrBufferFull, { b with r := b.w }) := by
  have hlen := window_length b hw
  have hlt := (indexByte_lt_iff 10 b.window).not.2 hm
  have e2 : (b.buf.drop (b.r + 0)).take (b.w - (b.r + 0)) = b.window := rfl
  have c : ¬ indexByte 10 b.window < b.w - (b.r + 0) := by
    rw [hlen] at hlt
    exact hlt
  have c2 : b.Buffered ≥ b.buf.length := hf
  unfold Reader.ReadSlice
  simp only [e2, if_neg c, he, if_pos c2, pure, Except.pure]
  simp

/-- The reader after the slide of `fill`. -/
theorem slide_eq (b : Reader) (h1 : b.r ≤ b.w) (h2 : b.w ≤ b.buf.length) :
    b.slide = ⟨b.window ++ b.buf.drop (b.w - b.r), b.rd, 0, b.w - b.r, b.err⟩ := by
  unfold Reader.slide
  by_cases c : b.r > 0
  · rw [if_pos c]
  · rw [if_neg c]
    have e : b.r = 0 := by omega
    have e2 : b.window ++ b.buf.drop (b.w - b.r) = b.buf := by
      unfold Reader.window
      rw [e]
      simp
    rw [e2]
    cases b
    simp only [Reader.mk.injEq, true_and] at e ⊢
    simp [e]

/-- The reader after `fill` when the underlying reader has bytes left. -/
theorem fill_eq (b : Reader) (h1 : b.r ≤ b.w) (h2 : b.w ≤ b.buf.length)
    (hrd : b.rd ≠ []) :
    b.fill = ⟨b.window ++ b.rd.take (min b.rd.length (b.buf.length - (b.w - b.r))) ++
        b.buf.drop (b.w - b.r + min b.rd.length (b.buf.length - (b.w - b.r))),
      b.rd.drop (min b.rd.length (b.buf.length - (b.w - b.r))), 0,
      b.w - b.r + min b.rd.length (b.buf.length - (b.w - b.r)), b.err⟩ := by
  have hlen := window_length b h2
  have hne : ¬ b.rd.length = 0 := fun e => hrd (List.length_eq_zero.1 e)
  have hl : (b.window ++ b.buf.drop (b.w - b.r)).length = b.buf.length := by
    rw [List.length_append, hlen, List.length_drop]
    omega
  unfold Reader.fill
  rw [slide_eq b h1 h2]
  unfold Reader.read
  simp only [hne, if_false, hl]
  congr 1
  rw [List.take_append_of_le_length (by omega), List.take_of_length_le (by omega),
    List.drop_append_eq_append_drop, List.drop_of_length_le (by omega), List.nil_append,
    List.drop_drop, hlen]
  congr 2
  omega

/-- The reader after `fill` when the underlying reader is at its end. -/
theorem fill_eq_nil (b : Reader) (h1 : b.r ≤ b.w) (h2 : b.w ≤ b.buf.length)
    (hrd : b.rd = []) :
    b.fill = ⟨b.window ++ b.buf.drop (b.w - b.r), [], 0, b.w - b.r, true⟩ := by
  unfold Reader.fill
  rw [slide_eq b h1 h2]
  unfold Reader.read
  simp [hrd]

/-- The window of a reader that `fill` leaves: the old window and the new
bytes. -/
theorem window_filled (W X Z rd : List Nat) (e : Bool) :
    (⟨W ++ X ++ Z, rd, 0, W.length + X.length, e⟩ : Reader).window = W ++ X := by
  unfold Reader.window
  simp only [List.drop_zero, Nat.sub_zero]
  rw [← List.length_append, List.take_left]

/-- `ReadSlice` without a newline in a window that is not full: the loop
refills and goes on. -/
theorem ReadSlice_fill (f : Nat) (b : Reader) (h1 : b.r ≤ b.w) (h2 : b.w ≤ b.buf.length)
    (hm : 10 ∉ b.window) (he : b.err = false) (hf : b.w - b.r < b.buf.length) :
    b.ReadSlice (f + 1) 0 = b.fill.ReadSlice f 0 := by
  have hlen := window_length b h2
  have hlt := (indexByte_lt_iff 10 b.window).not.2 hm
  have e2 : (b.buf.drop (b.r + 0)).take (b.w - (b.r + 0)) = b.window := rfl
  have c : ¬ indexByte 10 b.window < b.w - (b.r + 0) := by
    rw [hlen] at hlt
    exact hlt
  have c2 : ¬ b.Buffered ≥ b.buf.length := by
    unfold Reader.Buffered
    omega
  conv => lhs; unfold Reader.ReadSlice
  simp only [e2, if_neg c, he, if_neg c2]
  simp only [Bool.false_eq_true, if_false]
  by_cases hrd : b.rd = []
  · rw [fill_eq_nil b h1 h2 hrd]
    have hwin : (⟨b.window ++ b.buf.drop (b.w - b.r), [], 0, b.w - b.r, true⟩ :
        Reader).window = b.window := by
      have := window_filled b.window [] (b.buf.drop (b.w - b.r)) [] true
      simp only [List.append_nil, List.length_nil, Nat.add_zero, hlen] at this
      exact this
    refine ReadSlice_start f _ _ (by simp) ?_ ?_
    · simp only [List.length_append, hlen, List.length_drop]
      omega
    · rw [hwin]
      exact fun h => hm (List.mem_of_mem_take h)
  · rw [fill_eq b h1 h2 hrd]
    have hn : (b.rd.take (min b.rd.length (b.buf.length - (b.w - b.r)))).length =
        min b.rd.length (b.buf.length - (b.w - b.r)) := by
      rw [List.length_take]
      omega
    have hwin := window_filled b.window
      (b.rd.take (min b.rd.length (b.buf.length - (b.w - b.r))))
      (b.buf.drop (b.w - b.r + min b.rd.length (b.buf.length - (b.w - b.r))))
      (b.rd.drop (min b.rd.length (b.buf.length - (b.w - b.r)))) b.err
    rw [hlen, hn] at hwin
    refine ReadSlice_start f _ _ (by simp) ?_ ?_
    · simp only [List.length_append, hlen, hn, List.length_drop]
      omega
    · rw [hwin, List.take_append_of_le_length (by omega)]
      exact fun h => hm (List.mem_of_mem_take h)

/-- The first newline of a text lies in its first `n` bytes when these hold
one. -/
theorem indexByte_take (c n : Nat) (s : List Nat) (h : c ∈ s.take n) :
    indexByte c (s.take n) = indexByte c s ∧ indexByte c s < n := by
  have e := indexByte_append c (s.take n) (s.drop n) h
  rw [List.take_append_drop] at e
  have hlt := (indexByte_lt_iff c (s.take n)).2 h
  rw [List.length_take] at hlt
  exact ⟨e.symm, by omega⟩

/-- `ReadSlice` at the end of the underlying reader: the window with
`io.EOF`. -/
theorem ReadSlice_eof (f : Nat) (b : Reader) (h1 : b.r ≤ b.w) (h2 : b.w ≤ b.buf.length)
    (hm : 10 ∉ b.window) (he : b.err = false) (hf : b.w - b.r < b.buf.length)
    (hrd : b.rd = []) :
    b.ReadSlice (f + 2) 0 = .ok (b.window, Err.EOF,
      ⟨b.window ++ b.buf.drop (b.w - b.r), [], b.w - b.r, b.w - b.r, false⟩) := by
  have hlen := window_length b h2
  have hwin : (⟨b.window ++ b.buf.drop (b.w - b.r), [], 0, b.w - b.r, true⟩ :
      Reader).window = b.window := by
    have := window_filled b.window [] (b.buf.drop (b.w - b.r)) [] true
    simp only [List.append_nil, List.length_nil, Nat.add_zero, hlen] at this
    exact this
  rw [ReadSlice_fill (f + 1) b h1 h2 hm he hf, fill_eq_nil b h1 h2 hrd,
    ReadSlice_err f _ _ (by rw [hwin]; exact hm) rfl, hwin]
  simp only [List.length_append, hlen, List.length_drop]
  omega

/-- `ReadSlice` after a refill that brings a newline: the window and the
bytes of the underlying reader up to the newline. -/
theorem ReadSlice_refill_found (f n : Nat) (b : Reader) (h1 : b.r ≤ b.w)
    (h2 : b.w ≤ b.buf.length) (hm : 10 ∉ b.window) (he : b.err = false)
    (hf : b.w - b.r < b.buf.length)
    (hn : n = min b.rd.length (b.buf.length - (b.w - b.r))) (hx : 10 ∈ b.rd.take n) :
    b.ReadSlice (f + 2) 0 = .ok (b.window ++ b.rd.take (indexByte 10 b.rd + 1), Err.nil,
      ⟨b.window ++ b.rd.take n ++ b.buf.drop (b.w - b.r + n), b.rd.drop n,
        b.w - b.r + indexByte 10 b.rd + 1, b.w - b.r + n, false⟩) := by
  have hlen := window_length b h2
  have hrd : b.rd ≠ [] := by
    intro e
    rw [e] at hx
    simp at hx
  have hnl : (b.rd.take n).length = n := by
    rw [List.length_take]
    omega
  have hwin := window_filled b.window (b.rd.take n) (b.buf.drop (b.w - b.r + n))
    (b.rd.drop n) b.err
  rw [hlen, hnl] at hwin
  obtain ⟨hi, hlt⟩ := indexByte_take 10 n b.rd hx
  have hidx : indexByte 10 (b.window ++ b.rd.take n) = (b.w - b.r) + indexByte 10 b.rd := by
    rw [indexByte_append_not_mem 10 _ _ hm, hlen, hi]
  rw [ReadSlice_fill (f + 1) b h1 h2 hm he hf, fill_eq b h1 h2 hrd, ← hn,
    ReadSlice_found f _ (by simp only [List.length_append, hlen, hnl, List.length_drop]; omega)
      (by rw [hwin]; exact List.mem_append_right _ hx), hwin, hidx, he]
  congr 2
  · rw [show b.w - b.r + indexByte 10 b.rd + 1 = b.window.length + (indexByte 10 b.rd + 1) by
      rw [hlen]; omega, List.take_append, List.take_take]
    congr 2
    omega
  · simp only [Nat.zero_add]

/-- `ReadSlice` after a refill that fills the buffer without a newline:
the whole buffer with `ErrBufferFull`. -/
theorem ReadSlice_refill_full (f n : Nat) (b : Reader) (h1 : b.r ≤ b.w)
    (h2 : b.w ≤ b.buf.length) (hm : 10 ∉ b.window) (he : b.err = false)
    (hf : b.w - b.r < b.buf.length) (hrd : b.rd ≠ [])
    (hn : n = min b.rd.length (b.buf.length - (b.w - b.r))) (hx : 10 ∉ b.rd.take n)
    (hfull : b.w - b.r + n = b.buf.length) :
    b.ReadSlice (f + 2) 0 = .ok (b.window ++ b.rd.take n, Err.ErrBufferFull,
      ⟨b.window ++ b.rd.take n, b.rd.drop n, b.buf.length, b.buf.length, false⟩) := by
  have hlen := window_length b h2
  have hnl : (b.rd.take n).length = n := by
    rw [List.length_take]
    omega
  have hwin := window_filled b.window (b.rd.take n) (b.buf.drop (b.w - b.r + n))
    (b.rd.drop n) b.err
  rw [hlen, hnl] at hwin
  have hd : b.buf.drop (b.w - b.r + n) = [] := List.drop_of_length_le (by omega)
  have hnm : 10 ∉ b.window ++ b.rd.take n := by
    intro h
    rcases List.mem_append.1 h with h | h
    · exact hm h
    · exact hx h
  rw [he] at hwin
  rw [ReadSlice_fill (f + 1) b h1 h2 hm he hf, fill_eq b h1 h2 hrd, ← hn, he,
    ReadSlice_full f _ (by simp only [List.length_append, hlen, hnl, List.length_drop]; omega)
      (by rw [hwin]; exact hnm) rfl
      (by simp only [List.length_append, hlen, hnl, List.length_drop]; omega)]
  simp only [hfull, List.drop_length, List.append_nil]

/-- `ReadSlice` after a refill that takes the last bytes of the underlying
reader without a newline: the window and these bytes with `io.EOF`. -/
theorem ReadSlice_refill_eof (f : Nat) (b : Reader) (h1 : b.r ≤ b.w)
    (h2 : b.w ≤ b.buf.length) (hm : 10 ∉ b.window) (he : b.err = false)
    (hrd : b.rd ≠ []) (hx : 10 ∉ b.rd)
    (hroom : b.w - b.r + b.rd.length < b.buf.length) :
    b.ReadSlice (f + 3) 0 = .ok (b.window ++ b.rd, Err.EOF,
      ⟨b.window ++ b.rd ++ b.buf.drop (b.w - b.r + b.rd.length), [],
        b.w - b.r + b.rd.length, b.w - b.r + b.rd.length, false⟩) := by
  have hlen := window_length b h2
  have hn : min b.rd.length (b.buf.length - (b.w - b.r)) = b.rd.length := by omega
  have hwin := window_filled b.window b.rd (b.buf.drop (b.w - b.r + b.rd.length)) [] false
  rw [hlen] at hwin
  have hnm : 10 ∉ b.window ++ b.rd := by
    intro h
    rcases List.mem_append.1 h with h | h
    · exact hm h
    · exact hx h
  have hl : (b.window ++ b.rd ++ b.buf.drop (b.w - b.r + b.rd.length)).length =
      b.buf.length := by
    simp only [List.length_append, hlen, List.length_drop]
    omega
  rw [ReadSlice_fill (f + 2) b h1 h2 hm he (by omega), fill_eq b h1 h2 hrd, hn,
    List.take_length, List.drop_length, he,
    ReadSlice_eof f _ (Nat.zero_le _) (by simp only [hl]; omega)
      (by rw [hwin]; exact hnm) rfl (by simp only [hl]; omega) rfl, hwin]
  congr 3
  simp only [Nat.sub_zero]
  rw [show b.w - b.r + b.rd.length = (b.window ++ b.rd).length by
    rw [List.length_append, hlen], List.drop_left]

/-- A turn of `collectFragments` in which `ReadSlice` finds the newline. -/
theorem collectFragments_nil (fuel : Nat) (full : List Nat) (b : Reader)
    (frag : List Nat) (b' : Reader)
    (h : b.ReadSlice (b.rd.length + 3) 0 = .ok (frag, Err.nil, b')) :
    Reader.collectFragments (fuel + 1) full b = .ok (full ++ frag, false, b') := by
  conv => lhs; unfold Reader.collectFragments
  simp [h, bind, Except.bind, pure, Except.pure]

/-- A turn of `collectFragments` in which `ReadSlice` returns `io.EOF`. -/
theorem collectFragments_EOF (fuel : Nat) (full : List Nat) (b : Reader)
    (frag : List Nat) (b' : Reader)
    (h : b.ReadSlice (b.rd.length + 3) 0 = .ok (frag, Err.EOF, b')) :
    Reader.collectFragments (fuel + 1) full b = .ok (full ++ frag, true, b') := by
  conv => lhs; unfold Reader.collectFragments
  simp [h, bind, Except.bind, pure, Except.pure]

/-- A turn of `collectFragments` in which `ReadSlice` returns a full buffer. -/
theorem collectFragments_full (fuel : Nat) (full : List Nat) (b : Reader)
    (frag : List Nat) (b' : Reader)
    (h : b.ReadSlice (b.rd.length + 3) 0 = .ok (frag, Err.ErrBufferFull, b')) :
    Reader.collectFragments (fuel + 1) full b =
      Reader.collectFragments fuel (full ++ frag) b' := by
  conv => lhs; unfold Reader.collectFragments
  simp [h, bind, Except.bind, pure, Except.pure]

/-- `ReadString` with a newline in the window: the bytes up to it; the
buffer and the underlying reader stay as they are. -/
theorem ReadString_found (b : Reader) (hw : b.w ≤ b.buf.length) (hm : 10 ∈ b.window) :
    b.ReadString = .ok (b.window.take (indexByte 10 b.window + 1), false,
      { b with r := b.r + indexByte 10 b.window + 1 }) := by
  unfold Reader.ReadString
  rw [collectFragments_nil _ _ _ _ _ (ReadSlice_found _ b hw hm)]
  simp

/-- `collectFragments` without a newline in the window nor in the underlying
reader ends with `io.EOF`; the reader is then empty. -/
theorem collectFragments_eof (fuel : Nat) (full : List Nat) (b : Reader)
    (h1 : b.r ≤ b.w) (h2 : b.w ≤ b.buf.length) (h0 : 0 < b.buf.length)
    (he : b.err = false) (hm : 10 ∉ b.window) (hx : 10 ∉ b.rd)
    (hfuel : b.rd.length + 2 ≤ fuel)
    (hfuel' : b.buf.length ≤ b.w - b.r → b.rd.length + 3 ≤ fuel) :
    ∃ line b', Reader.collectFragments fuel full b = .ok (line, true, b') ∧
      b'.r = b'.w ∧ b'.w ≤ b'.buf.length ∧ b'.buf.length = b.buf.length ∧ b'.rd = [] ∧
      b'.err = false := by
  induction fuel generalizing full b with
  | zero => omega
  | succ fuel ih =>
    have hlen := window_length b h2
    by_cases hfull : b.buf.length ≤ b.w - b.r
    · rw [collectFragments_full _ _ _ _ _ (ReadSlice_full _ b h2 hm he hfull)]
      have hfu := hfuel' hfull
      refine ih _ { b with r := b.w } (Nat.le_refl _) h2 h0 he ?_ hx (by simp only []; omega)
        (fun h => ?_)
      · unfold Reader.window
        simp
      · simp only [Nat.sub_self] at h
        omega
    · have hf : b.w - b.r < b.buf.length := by omega
      by_cases hrd : b.rd = []
      · rw [collectFragments_EOF _ _ _ _ _ (ReadSlice_eof _ b h1 h2 hm he hf hrd)]
        refine ⟨_, _, rfl, rfl, ?_, ?_, rfl, rfl⟩
        · simp only [List.length_append, hlen, List.length_drop]
          omega
        · simp only [List.length_append, hlen, List.length_drop]
          omega
      · have hpos : 0 < b.rd.length := List.length_pos.2 hrd
        by_cases hroom : b.w - b.r + b.rd.length < b.buf.length
        · rw [collectFragments_EOF _ _ _ _ _
            (ReadSlice_refill_eof _ b h1 h2 hm he hrd hx hroom)]
          refine ⟨_, _, rfl, rfl, ?_, ?_, rfl, rfl⟩
          · simp only [List.length_append, hlen, List.length_drop]
            omega
          · simp only [List.length_append, hlen, List.length_drop]
            omega
        · have hxn : 10 ∉ b.rd.take (min b.rd.length (b.buf.length - (b.w - b.r))) :=
            fun h => hx (List.mem_of_mem_take h)
          rw [collectFragments_full _ _ _ _ _
            (ReadSlice_refill_full (b.rd.length + 1) _ b h1 h2 hm he hf hrd rfl hxn
              (by omega))]
          have hl : (b.window ++
              b.rd.take (min b.rd.length (b.buf.length - (b.w - b.r)))).length =
              b.buf.length := by
            simp only [List.length_append, hlen, List.length_take]
            omega
          obtain ⟨line, b', hb', q1, q2, q3, q4, q5⟩ := ih
            (full ++ (b.window ++ b.rd.take (min b.rd.length (b.buf.length - (b.w - b.r)))))
            ⟨b.window ++ b.rd.take (min b.rd.length (b.buf.length - (b.w - b.r))),
              b.rd.drop (min b.rd.length (b.buf.length - (b.w - b.r))),
              b.buf.length, b.buf.length, false⟩
            (Nat.le_refl _) (by simp only [hl]; omega) (by simp only [hl]; omega) rfl
            (by unfold Reader.window; simp)
            (fun h => hx (List.mem_of_mem_drop h))
            (by simp only [List.length_drop]; omega)
            (fun h => by simp only [hl, Nat.sub_self] at h; omega)
          exact ⟨line, b', hb', q1, q2, by rw [q3]; exact hl, q4, q5⟩

/-- `ReadString` without a newline left ends with `io.EOF`; the reader is
then empty. -/
theorem ReadString_eof (b : Reader) (h1 : b.r ≤ b.w) (h2 : b.w ≤ b.buf.length)
    (h0 : 0 < b.buf.length) (he : b.err = false) (hm : 10 ∉ b.window) (hx : 10 ∉ b.rd) :
    ∃ line b', b.ReadString = .ok (line, true, b') ∧
      b'.r = b'.w ∧ b'.w ≤ b'.buf.length ∧ b'.buf.length = b.buf.length ∧ b'.rd = [] ∧
      b'.err = false :=
  collectFragments_eof _ [] b h1 h2 h0 he hm hx (by omega) (fun _ => Nat.le_refl _)

/-! ## Bytes after the last newline of the stream -/

/-- A part of a part of a list. -/
theorem mem_subslice (l : List Nat) (a d n x : Nat)
    (h : x ∈ (l.drop (a + d)).take (n - d)) : x ∈ (l.drop a).take n := by
  by_cases c : d ≤ n
  · have e : n = d + (n - d) := by omega
    rw [e, List.take_add, List.drop_drop]
    exact List.mem_append_right _ h
  · have e : n - d = 0 := by omega
    rw [e, List.take_zero] at h
    simp at h

/-- Two arrays that start with the same bytes `P` and go on, one with the
bytes of `buf` from `P.length` on, the other with bytes `T` and then the
bytes of `buf`: their parts from `r` to `w` are a common part and then bytes
of `T` or bytes of `buf` between `r` and `w`. -/
theorem slices_split (P T buf : List Nat) (r w : Nat) (hT : 10 ∉ T)
    (H : 10 ∉ (buf.drop r).take (w - r)) :
    ∃ U Y1 Y2,
      ((P ++ buf.drop P.length).drop r).take (w - r) = U ++ Y1 ∧
      ((P ++ T ++ buf.drop (P.length + T.length)).drop r).take (w - r) = U ++ Y2 ∧
      10 ∉ Y1 ∧ 10 ∉ Y2 := by
  refine ⟨(P.drop r).take (w - r),
    ((buf.drop P.length).drop (r - P.length)).take (w - r - (P.drop r).length),
    ((T ++ buf.drop (P.length + T.length)).drop (r - P.length)).take
      (w - r - (P.drop r).length), ?_, ?_, ?_, ?_⟩
  · rw [List.drop_append_eq_append_drop, List.take_append_eq_append_take]
  · rw [List.append_assoc, List.drop_append_eq_append_drop, List.take_append_eq_append_take]
  · intro h
    refine H (mem_subslice buf r (P.length + (r - P.length) - r) (w - r) 10 ?_)
    rw [List.drop_drop, List.length_drop] at h
    have e1 : r + (P.length + (r - P.length) - r) = P.length + (r - P.length) := by omega
    have e2 : w - r - (P.length + (r - P.length) - r) = w - r - (P.length - r) := by omega
    rw [e1, e2]
    exact h
  · intro h
    rw [List.drop_append_eq_append_drop, List.take_append_eq_append_take] at h
    rcases List.mem_append.1 h with h | h
    · exact hT (List.mem_of_mem_drop (List.mem_of_mem_take h))
    · refine H (mem_subslice buf r
        (P.length + T.length + (r - P.length - T.length) - r) (w - r) 10 ?_)
      rw [List.drop_drop, List.length_drop, List.length_drop] at h
      have e1 : r + (P.length + T.length + (r - P.length - T.length) - r) =
          P.length + T.length + (r - P.length - T.length) := by omega
      have e2 : w - r - (P.length + T.length + (r - P.length - T.length) - r) =
          w - r - (P.length - r) - (T.length - (r - P.length)) := by
        omega
      rw [e1, e2]
      exact h

/-- The window of a reader whose array starts with the bytes `P` and `X` and
whose positions are inside `P` and at the end of `X`. -/
theorem window_of_parts (buf P X S rd : List Nat) (r w : Nat) (e : Bool)
    (hb : buf = P ++ X ++ S) (hr : r ≤ P.length) (hw : w = P.length + X.length) :
    (⟨buf, rd, r, w, e⟩ : Reader).window = P.drop r ++ X := by
  unfold Reader.window
  simp only [hb, hw, List.append_assoc]
  rw [List.drop_append_of_le_length hr, ← List.append_assoc]
  have e1 : P.length + X.length - r = (P.drop r ++ X).length := by
    rw [List.length_append, List.length_drop]
    omega
  rw [e1, List.take_left]

/-- A refill that brings the newline, for a reader and for the same reader
with the bytes `t` after its stream: the same line, and the two readers stay
related, also when the positions `r0` and `w0` saved before the call are put
back over the refilled arrays. -/
theorem refill_found_ext (t : List Nat) (ht : 10 ∉ t) (f1 f2 : Nat) (b : Reader)
    (r0 w0 : Nat) (h1 : b.r ≤ b.w) (h2 : b.w ≤ b.buf.length) (he : b.err = false)
    (hm : 10 ∉ b.window) (hf : b.w - b.r < b.buf.length)
    (hx : 10 ∈ b.rd.take (min b.rd.length (b.buf.length - (b.w - b.r))))
    (hr0 : r0 ≤ w0) (hw0 : w0 ≤ b.buf.length) (H : 10 ∉ (b.buf.drop r0).take (w0 - r0)) :
    ∃ b1' b2',
      b.ReadSlice (f1 + 2) 0 =
        .ok (b.window ++ b.rd.take (indexByte 10 b.rd + 1), Err.nil, b1') ∧
      (b.ext t).ReadSlice (f2 + 2) 0 =
        .ok (b.window ++ b.rd.take (indexByte 10 b.rd + 1), Err.nil, b2') ∧
      Extends t b1' b2' ∧
      Extends t ⟨b1'.buf, b1'.rd, r0, w0, false⟩ ⟨b2'.buf, b2'.rd, r0, w0, false⟩ ∧
      b1'.rd.length ≤ b.rd.length ∧ b2'.rd.length ≤ b.rd.length + t.length ∧
      b1'.size < b.size ∧ b2'.size < b.size + t.length := by
  have hlen := window_length b h2
  obtain ⟨-, hj⟩ := indexByte_take 10 _ b.rd hx
  have hmem : 10 ∈ b.rd := List.mem_of_mem_take hx
  have hjl : indexByte 10 b.rd < b.rd.length := (indexByte_lt_iff 10 b.rd).2 hmem
  have R1 := ReadSlice_refill_found f1 _ b h1 h2 hm he hf rfl hx
  have hx2 : 10 ∈ (b.rd ++ t).take (min (b.rd ++ t).length (b.buf.length - (b.w - b.r))) := by
    have e : b.rd.take (min b.rd.length (b.buf.length - (b.w - b.r))) =
        ((b.rd ++ t).take (min (b.rd ++ t).length (b.buf.length - (b.w - b.r)))).take
          (min b.rd.length (b.buf.length - (b.w - b.r))) := by
      rw [List.take_take, List.take_append_of_le_length (by
        simp only [List.length_append]; omega)]
      congr 1
      simp only [List.length_append]
      omega
    rw [e] at hx
    exact List.mem_of_mem_take hx
  have R2 := ReadSlice_refill_found f2 _ (b.ext t) h1 h2 hm he hf rfl hx2
  have e1 : (b.ext t).window = b.window := rfl
  have e2 : (b.ext t).rd = b.rd ++ t := rfl
  have e3 : (b.ext t).buf = b.buf := rfl
  have e4 : (b.ext t).w = b.w := rfl
  have e5 : (b.ext t).r = b.r := rfl
  rw [e1, e2, e3, e4, e5, indexByte_append 10 b.rd t hmem,
    List.take_append_of_le_length (show indexByte 10 b.rd + 1 ≤ b.rd.length by omega)] at R2
  refine ⟨_, _, R1, R2, ?_⟩
  simp only [Reader.size, Reader.Buffered]
  by_cases hbig : b.buf.length - (b.w - b.r) ≤ b.rd.length
  · have n1 : min b.rd.length (b.buf.length - (b.w - b.r)) =
        b.buf.length - (b.w - b.r) := by omega
    have n2 : min (b.rd ++ t).length (b.buf.length - (b.w - b.r)) =
        b.buf.length - (b.w - b.r) := by
      simp only [List.length_append]
      omega
    rw [n1] at hj
    simp only [n1, n2, List.take_append_of_le_length hbig, List.drop_append_of_le_length hbig]
    have hl : (b.window ++ b.rd.take (b.buf.length - (b.w - b.r)) ++
        b.buf.drop (b.w - b.r + (b.buf.length - (b.w - b.r)))).length = b.buf.length := by
      simp only [List.length_append, hlen, List.length_take, List.length_drop]
      omega
    have wf : ∀ (rd : List Nat) (r w : Nat), r ≤ w → w ≤ b.buf.length →
        (⟨b.window ++ b.rd.take (b.buf.length - (b.w - b.r)) ++
          b.buf.drop (b.w - b.r + (b.buf.length - (b.w - b.r))), rd, r, w, false⟩ :
          Reader).WF := by
      intro rd r w hr hw
      exact ⟨hr, by simp only [hl]; exact hw, by simp only [hl]; omega, rfl⟩
    refine ⟨⟨wf _ _ _ (by omega) (by omega), wf _ _ _ (by omega) (by omega), Or.inl rfl⟩,
      ⟨wf _ _ _ hr0 hw0, wf _ _ _ hr0 hw0, Or.inl rfl⟩, ?_, ?_, ?_, ?_⟩
    · simp only [List.length_drop]
      omega
    · simp only [List.length_append, List.length_drop]
      omega
    · simp only [List.length_drop]
      omega
    · simp only [List.length_append, List.length_drop]
      omega
  · have hsm : b.w - b.r + b.rd.length < b.buf.length := by omega
    have n1 : min b.rd.length (b.buf.length - (b.w - b.r)) = b.rd.length := by omega
    have n2 : min (b.rd ++ t).length (b.buf.length - (b.w - b.r)) =
        b.rd.length + min t.length (b.buf.length - (b.w - b.r) - b.rd.length) := by
      simp only [List.length_append]
      omega
    have hk : (t.take (min t.length (b.buf.length - (b.w - b.r) - b.rd.length))).length =
        min t.length (b.buf.length - (b.w - b.r) - b.rd.length) := by
      rw [List.length_take]
      omega
    have hT : 10 ∉ t.take (min t.length (b.buf.length - (b.w - b.r) - b.rd.length)) :=
      fun h => ht (List.mem_of_mem_take h)
    have hP : (b.window ++ b.rd).length = b.w - b.r + b.rd.length := by
      rw [List.length_append, hlen]
    simp only [n1, n2, List.take_length, List.drop_length, List.take_append, List.drop_append]
    have hl1 : (b.window ++ b.rd ++ b.buf.drop (b.w - b.r + b.rd.length)).length =
        b.buf.length := by
      simp only [List.length_append, hlen, List.length_drop]
      omega
    have hl2 : (b.window ++
        (b.rd ++ t.take (min t.length (b.buf.length - (b.w - b.r) - b.rd.length))) ++
        b.buf.drop (b.w - b.r +
          (b.rd.length + min t.length (b.buf.length - (b.w - b.r) - b.rd.length)))).length =
        b.buf.length := by
      simp only [List.length_append, hlen, hk, List.length_drop]
      omega
    have wf1 : ∀ (rd : List Nat) (r w : Nat), r ≤ w → w ≤ b.buf.length →
        (⟨b.window ++ b.rd ++ b.buf.drop (b.w - b.r + b.rd.length), rd, r, w, false⟩ :
          Reader).WF := by
      intro rd r w hr hw
      exact ⟨hr, by simp only [hl1]; exact hw, by simp only [hl1]; omega, rfl⟩
    have wf2 : ∀ (rd : List Nat) (r w : Nat), r ≤ w → w ≤ b.buf.length →
        (⟨b.window ++
          (b.rd ++ t.take (min t.length (b.buf.length - (b.w - b.r) - b.rd.length))) ++
          b.buf.drop (b.w - b.r +
            (b.rd.length + min t.length (b.buf.length - (b.w - b.r) - b.rd.length))),
          rd, r, w, false⟩ : Reader).WF := by
      intro rd r w hr hw
      exact ⟨hr, by simp only [hl2]; exact hw, by simp only [hl2]; omega, rfl⟩
    obtain ⟨U, Y1, Y2, q1, q2, q3, q4⟩ := slices_split (b.window ++ b.rd)
      (t.take (min t.length (b.buf.length - (b.w - b.r) - b.rd.length))) b.buf r0 w0 hT H
    rw [hP] at q1
    rw [hP, hk] at q2
    refine ⟨⟨wf1 _ _ _ (by omega) (by omega), wf2 _ _ _ (by omega) (by omega), Or.inr
        ⟨rfl, fun h => ht (List.mem_of_mem_drop h), (b.window ++ b.rd).drop
          (b.w - b.r + indexByte 10 b.rd + 1), [],
          t.take (min t.length (b.buf.length - (b.w - b.r) - b.rd.length)), ?_, ?_,
          List.not_mem_nil _, hT⟩⟩,
      ⟨wf1 _ _ _ hr0 hw0, wf2 _ _ _ hr0 hw0, Or.inr
        ⟨rfl, fun h => ht (List.mem_of_mem_drop h), U, Y1, Y2, q1, ?_, q3, q4⟩⟩,
      ?_, ?_, ?_, ?_⟩
    · exact window_of_parts _ (b.window ++ b.rd) []
        (b.buf.drop (b.w - b.r + b.rd.length)) _ _ _ _ (by simp)
        (by rw [hP]; omega) (by rw [hP]; rfl)
    · exact window_of_parts _ (b.window ++ b.rd) _
        (b.buf.drop (b.w - b.r +
          (b.rd.length + min t.length (b.buf.length - (b.w - b.r) - b.rd.length)))) _ _ _ _
        (by simp) (by rw [hP]; omega) (by rw [hP, hk]; omega)
    · rw [← q2]
      unfold Reader.window
      simp only [List.append_assoc, Nat.add_assoc]
    · simp
    · simp only [List.length_drop]
      omega
    · simp only [List.length_nil]
      omega
    · simp only [List.length_drop]
      omega

/-- `collectFragments` for a reader whose next newline is in its underlying
reader, and for the same reader with the bytes `t` after its stream: the same
line, and the two readers stay related, also with the positions `r0` and `w0`
put back, as long as the bytes of the array between them hold no newline. -/
theorem collectFragments_ext (t : List Nat) (ht : 10 ∉ t) (fuel1 : Nat) :
    ∀ (fuel2 : Nat) (full : List Nat) (b : Reader) (r0 w0 : Nat), b.WF →
    10 ∉ b.window → 10 ∈ b.rd →
    b.rd.length + 2 ≤ fuel1 → (b.buf.length ≤ b.w - b.r → b.rd.length + 3 ≤ fuel1) →
    b.rd.length + t.length + 2 ≤ fuel2 →
    (b.buf.length ≤ b.w - b.r → b.rd.length + t.length + 3 ≤ fuel2) →
    r0 ≤ w0 → w0 ≤ b.buf.length → 10 ∉ (b.buf.drop r0).take (w0 - r0) →
    ∃ line b1' b2',
      Reader.collectFragments fuel1 full b = .ok (line, false, b1') ∧
      Reader.collectFragments fuel2 full (b.ext t) = .ok (line, false, b2') ∧
      Extends t b1' b2' ∧
      Extends t ⟨b1'.buf, b1'.rd, r0, w0, false⟩ ⟨b2'.buf, b2'.rd, r0, w0, false⟩ ∧
      b1'.rd.length ≤ b.rd.length ∧ b2'.rd.length ≤ b.rd.length + t.length ∧
      b1'.size < b.size ∧ b2'.size < b.size + t.length := by
  induction fuel1 with
  | zero => intro _ _ _ _ _ _ _ _ h; omega
  | succ fuel1 ih =>
    intro fuel2 full b r0 w0 hwf hm hx g1 g1' g2 g2' hr0 hw0 H
    obtain ⟨h1, h2, h0, he⟩ := hwf
    cases fuel2 with
    | zero => omega
    | succ fuel2 =>
      have hlen := window_length b h2
      have e2 : (b.ext t).rd.length = b.rd.length + t.length := by
        simp only [Reader.ext, List.length_append]
      by_cases hfull : b.buf.length ≤ b.w - b.r
      · have G1 := g1' hfull
        have G2 := g2' hfull
        rw [collectFragments_full _ _ _ _ _ (ReadSlice_full _ b h2 hm he hfull),
          collectFragments_full _ _ (b.ext t) _ _ (ReadSlice_full _ (b.ext t) h2 hm he hfull)]
        obtain ⟨line, b1', b2', q1, q2, q3, q4, q5, q6, q7, q8⟩ :=
          ih fuel2 (full ++ b.buf) { b with r := b.w } r0 w0 ⟨Nat.le_refl _, h2, h0, he⟩
            (by unfold Reader.window; simp) hx (by simp only []; omega)
            (fun h => by simp only [Nat.sub_self] at h; omega) (by simp only []; omega)
            (fun h => by simp only [Nat.sub_self] at h; omega) hr0 hw0 H
        refine ⟨line, b1', b2', q1, q2, q3, q4, q5, q6, ?_, ?_⟩
        · simp only [Reader.size, Reader.Buffered] at q7 ⊢
          omega
        · simp only [Reader.size, Reader.Buffered] at q8 ⊢
          omega
      · have hf : b.w - b.r < b.buf.length := by omega
        by_cases hxn : 10 ∈ b.rd.take (min b.rd.length (b.buf.length - (b.w - b.r)))
        · obtain ⟨b1', b2', q1, q2, q3, q4, q5, q6, q7, q8⟩ :=
            refill_found_ext t ht (b.rd.length + 1) ((b.ext t).rd.length + 1) b r0 w0 h1 h2 he
              hm hf hxn hr0 hw0 H
          rw [collectFragments_nil _ _ _ _ _ q1, collectFragments_nil _ _ _ _ _ q2]
          exact ⟨_, b1', b2', rfl, rfl, q3, q4, q5, q6, q7, q8⟩
        · have hrd : b.rd ≠ [] := by
            intro e
            rw [e] at hx
            simp at hx
          have hnlt : b.buf.length - (b.w - b.r) < b.rd.length := by
            by_contra hc
            have e : min b.rd.length (b.buf.length - (b.w - b.r)) = b.rd.length := by omega
            rw [e, List.take_length] at hxn
            exact hxn hx
          have hle : b.buf.length - (b.w - b.r) ≤ b.rd.length := by omega
          have n1 : min b.rd.length (b.buf.length - (b.w - b.r)) =
              b.buf.length - (b.w - b.r) := by omega
          have n2 : min (b.ext t).rd.length ((b.ext t).buf.length - ((b.ext t).w - (b.ext t).r)) =
              b.buf.length - (b.w - b.r) := by
            rw [e2]
            show min (b.rd.length + t.length) (b.buf.length - (b.w - b.r)) = _
            omega
          rw [n1] at hxn
          have hxn2 : 10 ∉ (b.ext t).rd.take (b.buf.length - (b.w - b.r)) := by
            show 10 ∉ (b.rd ++ t).take (b.buf.length - (b.w - b.r))
            rw [List.take_append_of_le_length hle]
            exact hxn
          have R1 := ReadSlice_refill_full (b.rd.length + 1) _ b h1 h2 hm he hf hrd n1.symm hxn
            (by omega)
          have R2 := ReadSlice_refill_full ((b.ext t).rd.length + 1) _ (b.ext t) h1 h2 hm he hf
            (by show b.rd ++ t ≠ []; simp [hrd]) n2.symm hxn2 (by show b.w - b.r + (b.buf.length - (b.w - b.r)) = b.buf.length; omega)
          rw [collectFragments_full _ _ _ _ _ R1, collectFragments_full _ _ _ _ _ R2]
          have hl : (b.window ++ b.rd.take (b.buf.length - (b.w - b.r))).length =
              b.buf.length := by
            simp only [List.length_append, hlen, List.length_take]
            omega
          have hnm : 10 ∉ b.window ++ b.rd.take (b.buf.length - (b.w - b.r)) := by
            intro h
            rcases List.mem_append.1 h with h | h
            · exact hm h
            · exact hxn h
          obtain ⟨line, b1', b2', q1, q2, q3, q4, q5, q6, q7, q8⟩ :=
            ih fuel2 (full ++ (b.window ++ b.rd.take (b.buf.length - (b.w - b.r))))
              ⟨b.window ++ b.rd.take (b.buf.length - (b.w - b.r)),
                b.rd.drop (b.buf.length - (b.w - b.r)), b.buf.length, b.buf.length, false⟩
              r0 w0
              ⟨Nat.le_refl _, by simp only [hl]; omega, by simp only [hl]; omega, rfl⟩
              (by unfold Reader.window; simp)
              (by
                have := List.take_append_drop (b.buf.length - (b.w - b.r)) b.rd
                rw [← this] at hx
                rcases List.mem_append.1 hx with h | h
                · exact absurd h hxn
                · exact h)
              (by simp only [List.length_drop]; omega)
              (fun h => by simp only [hl, Nat.sub_self] at h; omega)
              (by simp only [List.length_drop]; omega)
              (fun h => by simp only [hl, Nat.sub_self] at h; omega)
              hr0 (by simp only [hl]; exact hw0)
              (fun h => hnm (List.mem_of_mem_drop (List.mem_of_mem_take h)))
          have e3 : (⟨(b.ext t).window ++ (b.ext t).rd.take (b.buf.length - (b.w - b.r)),
              (b.ext t).rd.drop (b.buf.length - (b.w - b.r)), (b.ext t).buf.length,
              (b.ext t).buf.length, false⟩ : Reader) =
              (⟨b.window ++ b.rd.take (b.buf.length - (b.w - b.r)),
                b.rd.drop (b.buf.length - (b.w - b.r)), b.buf.length, b.buf.length,
                false⟩ : Reader).ext t := by
            show (⟨b.window ++ (b.rd ++ t).take (b.buf.length - (b.w - b.r)),
              (b.rd ++ t).drop (b.buf.length - (b.w - b.r)), b.buf.length,
              b.buf.length, false⟩ : Reader) = _
            rw [List.take_append_of_le_length hle, List.drop_append_of_le_length hle]
            rfl
          have e4 : (b.ext t).window ++ (b.ext t).rd.take (b.buf.length - (b.w - b.r)) =
              b.window ++ b.rd.take (b.buf.length - (b.w - b.r)) := by
            show b.window ++ (b.rd ++ t).take (b.buf.length - (b.w - b.r)) = _
            rw [List.take_append_of_le_length hle]
          rw [e3, e4]
          refine ⟨line, b1', b2', q1, q2, q3, q4, ?_, ?_, ?_, ?_⟩
          · simp only [List.length_drop] at q5
            omega
          · simp only [List.length_drop] at q6
            omega
          · simp only [Reader.size, Reader.Buffered, List.length_drop] at q7 ⊢
            omega
          · simp only [Reader.size, Reader.Buffered, List.length_drop] at q8 ⊢
            omega

/-- The window after the read position has moved on. -/
theorem window_advance (b : Reader) (k : Nat) :
    ({ b with r := b.r + k } : Reader).window = b.window.drop k := by
  unfold Reader.window
  simp only []
  rw [List.drop_take, List.drop_drop]
  congr 1
  omega

/-- A reader without bytes left. -/
theorem Extends_empty (t : List Nat) (b1 b2 : Reader) (w1 : b1.WF) (w2 : b2.WF)
    (r1 : b1.r = b1.w) (r2 : b2.r = b2.w) (d1 : b1.rd = []) (d2 : b2.rd = []) :
    Extends t b1 b2 := by
  refine ⟨w1, w2, Or.inr ⟨d1, by rw [d2]; simp, [], [], [], ?_, ?_, by simp, by simp⟩⟩
  · unfold Reader.window
    rw [r1]
    simp
  · unfold Reader.window
    rw [r2]
    simp

/-- `ReadString` on two related readers: both return a line, the same one,
or both return `io.EOF`; the readers stay related, also after `*b = before`,
and a line that is returned takes at least one byte from each reader. -/
theorem ReadString_Extends (t : List Nat) (ht : 10 ∉ t) (b1 b2 : Reader)
    (h : Extends t b1 b2) :
    ∃ l1 l2 e b1' b2', b1.ReadString = .ok (l1, e, b1') ∧ b2.ReadString = .ok (l2, e, b2') ∧
      Extends t b1' b2' ∧ b1'.size ≤ b1.size ∧ b2'.size ≤ b2.size ∧
      (e = false → l1 = l2 ∧ b1'.size < b1.size ∧ b2'.size < b2.size ∧
        Extends t (b1'.assign b1) (b2'.assign b2) ∧
        (b1'.assign b1).size ≤ b1.size ∧ (b2'.assign b2).size ≤ b2.size) := by
  obtain ⟨w1, w2, hc⟩ := h
  have hE : Extends t b1 b2 := ⟨w1, w2, hc⟩
  obtain ⟨a1, a2, a3, a4⟩ := w1
  obtain ⟨c1, c2, c3, c4⟩ := w2
  have hlen1 := window_length b1 a2
  have hlen2 := window_length b2 c2
  have hback : ∀ (b : Reader) (k : Nat), ({ b with r := k } : Reader).assign b = b := by
    intro b k
    cases b
    rfl
  have hback2 : ∀ (b : Reader) (k : Nat),
      (({ b with r := k } : Reader).ext t).assign (b.ext t) = b.ext t := by
    intro b k
    cases b
    rfl
  have eofCase : 10 ∉ b1.window → 10 ∉ b1.rd → 10 ∉ b2.window → 10 ∉ b2.rd →
      ∃ l1 l2 e b1' b2', b1.ReadString = .ok (l1, e, b1') ∧
        b2.ReadString = .ok (l2, e, b2') ∧
        Extends t b1' b2' ∧ b1'.size ≤ b1.size ∧ b2'.size ≤ b2.size ∧
        (e = false → l1 = l2 ∧ b1'.size < b1.size ∧ b2'.size < b2.size ∧
          Extends t (b1'.assign b1) (b2'.assign b2) ∧
          (b1'.assign b1).size ≤ b1.size ∧ (b2'.assign b2).size ≤ b2.size) := by
    intro m1 x1 m2 x2
    obtain ⟨l1, b1', p1, p2, p3, p4, p5, p6⟩ := ReadString_eof b1 a1 a2 a3 a4 m1 x1
    obtain ⟨l2, b2', s1, s2, s3, s4, s5, s6⟩ := ReadString_eof b2 c1 c2 c3 c4 m2 x2
    refine ⟨l1, l2, true, b1', b2', p1, s1,
      Extends_empty t b1' b2' ⟨by omega, p3, by omega, p6⟩ ⟨by omega, s3, by omega, s6⟩
        p2 s2 p5 s5, ?_, ?_, fun h => by simp at h⟩
    · simp only [Reader.size, Reader.Buffered, p5, List.length_nil]
      omega
    · simp only [Reader.size, Reader.Buffered, s5, List.length_nil]
      omega
  rcases hc with hc | ⟨d1, d2, U, Y1, Y2, u1, u2, y1, y2⟩
  · subst hc
    by_cases hm : 10 ∈ b1.window
    · have hlt := (indexByte_lt_iff 10 b1.window).2 hm
      rw [hlen1] at hlt
      have F2 : (b1.ext t).ReadString = .ok (b1.window.take (indexByte 10 b1.window + 1),
          false, ({ b1 with r := b1.r + indexByte 10 b1.window + 1 } : Reader).ext t) :=
        ReadString_found (b1.ext t) a2 hm
      refine ⟨_, _, false, _, _, ReadString_found b1 a2 hm, F2,
        ⟨⟨by simp only []; omega, a2, a3, a4⟩, ⟨by simp only [Reader.ext]; omega, a2, a3, a4⟩,
          Or.inl rfl⟩, ?_, ?_, fun _ => ⟨rfl, ?_, ?_, ?_, ?_, ?_⟩⟩
      · simp only [Reader.size, Reader.Buffered]
        omega
      · simp only [Reader.size, Reader.Buffered, Reader.ext]
        omega
      · simp only [Reader.size, Reader.Buffered]
        omega
      · simp only [Reader.size, Reader.Buffered, Reader.ext]
        omega
      · rw [hback b1, hback2 b1]
        exact hE
      · rw [hback b1]
      · rw [hback2 b1]
    · by_cases hx : 10 ∈ b1.rd
      · obtain ⟨line, b1', b2', q1, q2, q3, q4, q5, q6, q7, q8⟩ :=
          collectFragments_ext t ht (b1.rd.length + 3) ((b1.ext t).rd.length + 3) [] b1
            b1.r b1.w ⟨a1, a2, a3, a4⟩ hm hx (by omega) (fun _ => Nat.le_refl _)
            (by simp only [Reader.ext, List.length_append]; omega)
            (fun _ => by simp only [Reader.ext, List.length_append]; omega) a1 a2 hm
        have r1 : b1'.assign b1 = ⟨b1'.buf, b1'.rd, b1.r, b1.w, false⟩ := by
          simp only [Reader.assign, a4]
        have r2 : b2'.assign (b1.ext t) = ⟨b2'.buf, b2'.rd, b1.r, b1.w, false⟩ := by
          simp only [Reader.assign, Reader.ext, a4]
        refine ⟨line, line, false, b1', b2', q1, q2, q3, Nat.le_of_lt q7, ?_,
          fun _ => ⟨rfl, q7, ?_, ?_, ?_, ?_⟩⟩
        · simp only [Reader.size, Reader.Buffered, Reader.ext, List.length_append] at q8 ⊢
          omega
        · simp only [Reader.size, Reader.Buffered, Reader.ext, List.length_append] at q8 ⊢
          omega
        · rw [r1, r2]
          exact q4
        · rw [r1]
          simp only [Reader.size, Reader.Buffered]
          omega
        · rw [r2]
          simp only [Reader.size, Reader.Buffered, Reader.ext, List.length_append]
          omega
      · refine eofCase hm hx hm ?_
        intro h
        rcases List.mem_append.1 h with h | h
        · exact hx h
        · exact ht h
  · by_cases hU : 10 ∈ U
    · have m1 : 10 ∈ b1.window := by rw [u1]; exact List.mem_append_left _ hU
      have m2 : 10 ∈ b2.window := by rw [u2]; exact List.mem_append_left _ hU
      have hlt := (indexByte_lt_iff 10 U).2 hU
      have i1 : indexByte 10 b1.window = indexByte 10 U := by rw [u1, indexByte_append 10 U Y1 hU]
      have i2 : indexByte 10 b2.window = indexByte 10 U := by rw [u2, indexByte_append 10 U Y2 hU]
      have l1 : b1.window.length = U.length + Y1.length := by rw [u1, List.length_append]
      have l2 : b2.window.length = U.length + Y2.length := by rw [u2, List.length_append]
      have F1 := ReadString_found b1 a2 m1
      have F2 := ReadString_found b2 c2 m2
      rw [i1] at F1
      rw [i2] at F2
      refine ⟨_, _, false, _, _, F1, F2,
        ⟨⟨by simp only []; omega, a2, a3, a4⟩, ⟨by simp only []; omega, c2, c3, c4⟩,
          Or.inr ⟨d1, d2, U.drop (indexByte 10 U + 1), Y1, Y2, ?_, ?_, y1, y2⟩⟩, ?_, ?_,
        fun _ => ⟨?_, ?_, ?_, ?_, ?_, ?_⟩⟩
      · rw [Nat.add_assoc, window_advance, u1, List.drop_append_of_le_length (by omega)]
      · rw [Nat.add_assoc, window_advance, u2, List.drop_append_of_le_length (by omega)]
      · simp only [Reader.size, Reader.Buffered]
        omega
      · simp only [Reader.size, Reader.Buffered]
        omega
      · rw [u1, u2, List.take_append_of_le_length (by omega),
          List.take_append_of_le_length (by omega)]
      · simp only [Reader.size, Reader.Buffered]
        omega
      · simp only [Reader.size, Reader.Buffered]
        omega
      · rw [hback b1, hback b2]
        exact hE
      · rw [hback b1]
      · rw [hback b2]
    · refine eofCase ?_ (by rw [d1]; simp) ?_ d2
      · rw [u1]
        intro h
        rcases List.mem_append.1 h with h | h
        · exact hU h
        · exact y1 h
      · rw [u2]
        intro h
        rcases List.mem_append.1 h with h | h
        · exact hU h
        · exact y2 h

/-! ## The loops over two related readers -/

/-- Two sequences with the same first step agree when their second steps
agree on what the first returns. -/
theorem Agree_bind_same {α β γ : Type} (P : α → β → Prop) (x : Except Fault γ)
    (f : γ → Except Fault α) (g : γ → Except Fault β) (hx : x ≠ .error .outOfFuel)
    (h : ∀ c, x = .ok c → Agree P (f c) (g c)) : Agree P (x >>= f) (x >>= g) := by
  cases x with
  | error e => exact Or.inl ⟨e, fun h' => hx (by rw [h']), rfl, rfl⟩
  | ok c => exact h c rfl

/-- Two sequences agree when their first steps agree and their second steps
agree on related values. -/
theorem Agree_bind {α β γ δ : Type} (Q : γ → δ → Prop) (P : α → β → Prop)
    (x : Except Fault γ) (y : Except Fault δ) (f : γ → Except Fault α)
    (g : δ → Except Fault β) (hxy : Agree Q x y)
    (h : ∀ c d, Q c d → Agree P (f c) (g d)) : Agree P (x >>= f) (y >>= g) := by
  rcases hxy with ⟨e, he, hx, hy⟩ | ⟨c, d, hx, hy, hq⟩
  · rw [hx, hy]
    exact Or.inl ⟨e, he, rfl, rfl⟩
  · rw [hx, hy]
    exact h c d hq

/-- Agreement under a weaker relation. -/
theorem Agree_mono {α β : Type} (P Q : α → β → Prop) (x : Except Fault α)
    (y : Except Fault β) (h : Agree P x y) (hpq : ∀ a b, P a b → Q a b) : Agree Q x y := by
  rcases h with ⟨e, he, hx, hy⟩ | ⟨a, b, hx, hy, hp⟩
  · exact Or.inl ⟨e, he, hx, hy⟩
  · exact Or.inr ⟨a, b, hx, hy, hpq a b hp⟩

/-- `readTrack` on two related readers: the same track, and the readers stay
related. -/
theorem readTrack_Extends (t : List Nat) (ht : 10 ∉ t) (f1 : Nat) :
    ∀ (f2 : Nat) (b1 b2 : Reader) (track : Track), Extends t b1 b2 →
    b1.size < f1 → b2.size < f2 →
    Agree (fun p q => p.1 = q.1 ∧ Extends t p.2 q.2 ∧ p.2.size ≤ b1.size ∧
        q.2.size ≤ b2.size)
      (buffered.readTrack f1 b1 track) (buffered.readTrack f2 b2 track) := by
  induction f1 with
  | zero => intro _ _ _ _ _ h; omega
  | succ f1 ih =>
    intro f2 b1 b2 track hE g1 g2
    cases f2 with
    | zero => omega
    | succ f2 =>
      obtain ⟨l1, l2, e, b1', b2', r1, r2, hE', s1, s2, hfalse⟩ :=
        ReadString_Extends t ht b1 b2 hE
      unfold buffered.readTrack
      simp only [r1, r2, bind, Except.bind]
      cases e with
      | true =>
        simp only [if_true, pure, Except.pure]
        exact Or.inr ⟨_, _, rfl, rfl, rfl, hE', s1, s2⟩
      | false =>
        obtain ⟨hl, s1', s2', hA, sa1, sa2⟩ := hfalse rfl
        subst hl
        simp only [Bool.false_eq_true, if_false]
        by_cases hp : (!HasPrefix l1 (bytes "    ")) = true
        · rw [if_pos hp, if_pos hp]
          exact Or.inr ⟨_, _, rfl, rfl, rfl, hA, sa1, sa2⟩
        · rw [if_neg hp, if_neg hp]
          refine Agree_bind_same _ _ _ _ (ReadString_noFuel _) ?_
          rintro ⟨command, line'⟩ -
          refine Agree_bind_same _ _ _ _ (trackCommand_noFuel _ _ _) ?_
          intro o _
          cases o with
          | none => exact Or.inr ⟨_, _, rfl, rfl, rfl, hE', s1, s2⟩
          | some track' =>
            refine Agree_mono _ _ _ _ (ih f2 b1' b2' track' hE' (by omega) (by omega)) ?_
            rintro p q ⟨h1, h2, h3, h4⟩
            exact ⟨h1, h2, by omega, by omega⟩

/-- `readTracks` on two related readers: the same tracks, and the readers
stay related. -/
theorem readTracks_Extends (t : List Nat) (ht : 10 ∉ t) (f1 : Nat) :
    ∀ (f2 : Nat) (b1 b2 : Reader) (tracks : List Track), Extends t b1 b2 →
    b1.size < f1 → b2.size < f2 →
    Agree (fun p q => p.1 = q.1 ∧ Extends t p.2 q.2 ∧ p.2.size ≤ b1.size ∧
        q.2.size ≤ b2.size)
      (buffered.readTracks f1 b1 tracks) (buffered.readTracks f2 b2 tracks) := by
  induction f1 with
  | zero => intro _ _ _ _ _ h; omega
  | succ f1 ih =>
    intro f2 b1 b2 tracks hE g1 g2
    cases f2 with
    | zero => omega
    | succ f2 =>
      obtain ⟨l1, l2, e, b1', b2', r1, r2, hE', s1, s2, hfalse⟩ :=
        ReadString_Extends t ht b1 b2 hE
      unfold buffered.readTracks
      simp only [r1, r2, bind, Except.bind]
      cases e with
      | true =>
        simp only [if_true, pure, Except.pure]
        exact Or.inr ⟨_, _, rfl, rfl, rfl, hE', s1, s2⟩
      | false =>
        obtain ⟨hl, s1', s2', hA, sa1, sa2⟩ := hfalse rfl
        subst hl
        simp only [Bool.false_eq_true, if_false]
        by_cases hp : (!HasPrefix l1 (bytes "  ")) = true
        · rw [if_pos hp, if_pos hp]
          exact Or.inr ⟨_, _, rfl, rfl, rfl, hA, sa1, sa2⟩
        · rw [if_neg hp, if_neg hp]
          refine Agree_bind_same _ _ _ _ (ReadString_noFuel _) ?_
          rintro ⟨command, line'⟩ -
          simp only []
          by_cases hc : command = bytes "TRACK"
          · rw [if_pos hc, if_pos hc]
            refine Agree_bind_same _ _ _ _ (ReadUint_noFuel _) ?_
            rintro ⟨n, line2⟩ -
            refine Agree_bind_same _ _ _ _ (ReadString_noFuel _) ?_
            rintro ⟨dataType, line3⟩ -
            refine Agree_bind _ _ _ _ _ _
              (readTrack_Extends t ht (b1'.size + 1) (b2'.size + 1) b1' b2' _ hE'
                (Nat.lt_succ_self _) (Nat.lt_succ_self _)) ?_
            rintro ⟨tr1, c1⟩ ⟨tr2, c2⟩ ⟨h1, h2, h3, h4⟩
            simp only [] at h1 h2 h3 h4
            subst h1
            refine Agree_mono _ _ _ _ (ih f2 c1 c2 _ h2 (by omega) (by omega)) ?_
            rintro p q ⟨k1, k2, k3, k4⟩
            exact ⟨k1, k2, by omega, by omega⟩
          · rw [if_neg hc, if_neg hc]
            exact Or.inr ⟨_, _, rfl, rfl, rfl, hE', s1, s2⟩

/-- The loop of `ReadFile` on two related readers: the same result, and no
lack of fuel. -/
theorem readFileLoop_Extends (t : List Nat) (ht : 10 ∉ t) (f1 : Nat) :
    ∀ (f2 : Nat) (b1 b2 : Reader) (c : Cuesheet), Extends t b1 b2 →
    b1.size < f1 → b2.size < f2 →
    Agree (fun p q => p = q) (buffered.readFileLoop f1 b1 c) (buffered.readFileLoop f2 b2 c) := by
  induction f1 with
  | zero => intro _ _ _ _ _ h; omega
  | succ f1 ih =>
    intro f2 b1 b2 c hE g1 g2
    cases f2 with
    | zero => omega
    | succ f2 =>
      obtain ⟨l1, l2, e, b1', b2', r1, r2, hE', s1, s2, hfalse⟩ :=
        ReadString_Extends t ht b1 b2 hE
      unfold buffered.readFileLoop
      simp only [r1, r2, bind, Except.bind]
      cases e with
      | true =>
        simp only [if_true, pure, Except.pure]
        exact Or.inr ⟨_, _, rfl, rfl, rfl⟩
      | false =>
        obtain ⟨hl, s1', s2', -, -, -⟩ := hfalse rfl
        subst hl
        simp only [Bool.false_eq_true, if_false]
        have hb' : ∀ c', Agree (fun p q => p = q) (buffered.readFileLoop f1 b1' c')
            (buffered.readFileLoop f2 b2' c') :=
          fun c' => ih f2 b1' b2' c' hE' (by omega) (by omega)
        refine Agree_bind_same _ _ _ _ (ReadString_noFuel _) ?_
        rintro ⟨command, line'⟩ -
        simp only []
        by_cases c0 : command = bytes "REM"
        · rw [if_pos c0, if_pos c0]
          exact hb' _
        rw [if_neg c0, if_neg c0]
        by_cases c1 : command = bytes "CATALOG"
        · rw [if_pos c1, if_pos c1]
          exact hb' _
        rw [if_neg c1, if_neg c1]
        by_cases c2 : command = bytes "CDTEXTFILE"
        · rw [if_pos c2, if_pos c2]
          refine Agree_bind_same _ _ _ _ (ReadString_noFuel _) ?_
          rintro ⟨v, r⟩ -
          exact hb' _
        rw [if_neg c2, if_neg c2]
        by_cases c3 : command = bytes "TITLE"
        · rw [if_pos c3, if_pos c3]
          refine Agree_bind_same _ _ _ _ (ReadString_noFuel _) ?_
          rintro ⟨v, r⟩ -
          exact hb' _
        rw [if_neg c3, if_neg c3]
        by_cases c4 : command = bytes "PERFORMER"
        · rw [if_pos c4, if_pos c4]
          refine Agree_bind_same _ _ _ _ (ReadString_noFuel _) ?_
          rintro ⟨v, r⟩ -
          exact hb' _
        rw [if_neg c4, if_neg c4]
        by_cases c5 : command = bytes "SONGWRITER"
        · rw [if_pos c5, if_pos c5]
          refine Agree_bind_same _ _ _ _ (ReadString_noFuel _) ?_
          rintro ⟨v, r⟩ -
          exact hb' _
        rw [if_neg c5, if_neg c5]
        by_cases c6 : command = bytes "PREGAP"
        · rw [if_pos c6, if_pos c6]
          refine Agree_bind_same _ _ _ _ (ReadFrame_noFuel _) ?_
          rintro ⟨v, r⟩ -
          exact hb' _
        rw [if_neg c6, if_neg c6]
        by_cases c7 : command = bytes "POSTGAP"
        · rw [if_pos c7, if_pos c7]
          refine Agree_bind_same _ _ _ _ (ReadFrame_noFuel _) ?_
          rintro ⟨v, r⟩ -
          exact hb' _
        rw [if_neg c7, if_neg c7]
        by_cases c8 : command = bytes "FILE"
        · rw [if_pos c8, if_pos c8]
          refine Agree_bind_same _ _ _ _ (ReadString_noFuel _) ?_
          rintro ⟨fname, line2⟩ -
          refine Agree_bind_same _ _ _ _ (ReadString_noFuel _) ?_
          rintro ⟨ftype, line3⟩ -
          refine Agree_bind _ _ _ _ _ _
            (readTracks_Extends t ht (b1'.size + 1) (b2'.size + 1) b1' b2' [] hE'
              (Nat.lt_succ_self _) (Nat.lt_succ_self _)) ?_
          rintro ⟨tr1, d1⟩ ⟨tr2, d2⟩ ⟨h1, h2, h3, h4⟩
          simp only [] at h1 h2 h3 h4
          subst h1
          exact ih f2 d1 d2 _ h2 (by omega) (by omega)
        rw [if_neg c8, if_neg c8]
        exact hb' _

/-- The reader of `ReadFile` on a text followed by bytes without newline. -/
theorem NewReader_Extends (s t : List Nat) :
    Extends t (NewReader s) (NewReader (s ++ t)) :=
  have h0 : ∀ r : List Nat, 0 < (NewReader r).buf.length := by
    intro r
    show 0 < (List.replicate defaultBufSize 0).length
    rw [List.length_replicate]
    exact Nat.succ_pos _
  ⟨⟨Nat.le_refl _, Nat.zero_le _, h0 s, rfl⟩,
    ⟨Nat.le_refl _, Nat.zero_le _, h0 (s ++ t), rfl⟩, Or.inl rfl⟩

/-- The loops of `ReadFile` over the buffer have fuel enough, and bytes
without a newline after the text do not change what `ReadFile` returns. -/
theorem buffered_ReadFile_append (s t : List Nat) (ht : 10 ∉ t) :
    buffered.ReadFile (s ++ t) = buffered.ReadFile s ∧
      buffered.ReadFile s ≠ .error .outOfFuel := by
  have h := readFileLoop_Extends t ht (s.length + 1) ((s ++ t).length + 1) (NewReader s)
    (NewReader (s ++ t)) Cuesheet.zero (NewReader_Extends s t)
    (by show 0 - 0 + s.length < s.length + 1; omega)
    (by show 0 - 0 + (s ++ t).length < (s ++ t).length + 1; omega)
  unfold buffered.ReadFile
  rcases h with ⟨e, he, hx, hy⟩ | ⟨a, b, hx, hy, hp⟩
  · rw [hx, hy]
    exact ⟨rfl, fun h' => he (by injection h')⟩
  · rw [hx, hy, hp]
    exact ⟨rfl, fun h' => by simp at h'⟩

/-- C19: over the buffer of `bufio`, for every text `s` that is empty or ends
with a newline and every text `t` without a newline, `ReadFile` on `s ++ t`
returns what it returns on `s`, whatever the length of the texts, and its
loops have fuel enough; a text without any newline is read as the zero
sheet. -/
theorem ReadFile_unterminated_line :
    (∀ s t : List Nat, Complete s → 10 ∉ t →
      buffered.ReadFile (s ++ t) = buffered.ReadFile s ∧
        buffered.ReadFile s ≠ .error .outOfFuel) ∧
    (∀ t : List Nat, 10 ∉ t → buffered.ReadFile t = .ok Cuesheet.zero) := by
  refine ⟨fun s t _ ht => buffered_ReadFile_append s t ht, fun t ht => ?_⟩
  have h := (buffered_ReadFile_append [] t ht).1
  rw [List.nil_append] at h
  rw [h]
  have h0 : 0 < (NewReader []).buf.length := by
    show 0 < (List.replicate defaultBufSize 0).length
    rw [List.length_replicate]
    exact Nat.succ_pos _
  obtain ⟨line, b', hr, -⟩ := ReadString_eof (NewReader []) (Nat.le_refl _) (Nat.zero_le _) h0
    rfl (by show 10 ∉ List.take 0 _; rw [List.take_zero]; exact List.not_mem_nil _)
    (List.not_mem_nil _)
  show buffered.readFileLoop (0 + 1) (NewReader []) Cuesheet.zero = _
  unfold buffered.readFileLoop
  simp only [hr, bind, Except.bind]
  rfl

/-- C19, witness: a last line without its newline is dropped at disc level,
in a block of tracks and in a track. -/
theorem ReadFile_unterminated_line_witness :
    buffered.ReadFile (bytes "REM a\n" ++ bytes "TITLE x") =
      buffered.ReadFile (bytes "REM a\n") ∧
    buffered.ReadFile (bytes "FILE a.wav WAVE\n" ++ bytes "  TRACK 01 AUDIO") =
      buffered.ReadFile (bytes "FILE a.wav WAVE\n") ∧
    buffered.ReadFile (bytes "FILE a.wav WAVE\n  TRACK 01 AUDIO\n" ++ bytes "    ISRC ABC") =
      buffered.ReadFile (bytes "FILE a.wav WAVE\n  TRACK 01 AUDIO\n") ∧
    buffered.ReadFile (bytes "TITLE x") = .ok Cuesheet.zero :=
  ⟨(ReadFile_unterminated_line.1 _ _ (Or.inr ⟨bytes "REM a", rfl⟩) (by decide)).1,
   (ReadFile_unterminated_line.1 _ _ (Or.inr ⟨bytes "FILE a.wav WAVE", rfl⟩) (by decide)).1,
   (ReadFile_unterminated_line.1 _ _
     (Or.inr ⟨bytes "FILE a.wav WAVE\n  TRACK 01 AUDIO", rfl⟩) (by decide)).1,
   ReadFile_unterminated_line.2 _ (by decide)⟩

/-! ## Texts that fit into the buffer -/

/-- The line that the stream gives when it holds a newline. -/
theorem bufioReadString_some (s : List Nat) (h : 10 ∈ s) :
    bufioReadString s =
      some (s.take (indexByte 10 s + 1), s.drop (indexByte 10 s + 1)) := by
  have := (indexByte_lt_iff 10 s).2 h
  simp [bufioReadString, this]

/-- `ReadString` over the buffer and over the stream: both are at the end, or
both give the same line; the reader keeps holding the stream, also after
`*b = before` when all the bytes were in the buffer before the call. -/
theorem ReadString_Sim (b : Reader) (s : List Nat) (h : Sim0 b s) :
    (bufioReadString s = none ∧
      ∃ l b', b.ReadString = .ok (l, true, b') ∧ Sim b' s ∧ b'.size ≤ b.size) ∨
    (∃ line s' b', bufioReadString s = some (line, s') ∧
      b.ReadString = .ok (line, false, b') ∧ Sim b' s' ∧ b'.size < b.size ∧
      (Sim b s → Sim (b'.assign b) s ∧ (b'.assign b).size ≤ b.size)) := by
  have hback : ∀ (b : Reader) (k : Nat), ({ b with r := k } : Reader).assign b = b := by
    intro b k
    cases b
    rfl
  have eofCase : b.WF → 10 ∉ b.window → 10 ∉ b.rd → 10 ∉ s →
      (bufioReadString s = none ∧
        ∃ l b', b.ReadString = .ok (l, true, b') ∧ Sim b' s ∧ b'.size ≤ b.size) := by
    rintro ⟨a1, a2, a3, a4⟩ hm hx hs
    obtain ⟨l, b', p1, p2, p3, p4, p5, p6⟩ := ReadString_eof b a1 a2 a3 a4 hm hx
    refine ⟨bufioReadString_none s hs, l, b', p1, ⟨⟨by omega, p3, by omega, p6⟩, p5,
      Or.inr ⟨?_, hs⟩⟩, ?_⟩
    · unfold Reader.window
      rw [p2]
      simp
    · simp only [Reader.size, Reader.Buffered, p5, List.length_nil]
      omega
  rcases h with ⟨wf, hrd, hw | ⟨hm, hs⟩⟩ | ⟨wf, hrw, hrd, hfit⟩
  · obtain ⟨a1, a2, a3, a4⟩ := wf
    have hlen := window_length b a2
    by_cases hm : 10 ∈ s
    · right
      have hmw : 10 ∈ b.window := by rw [hw]; exact hm
      have hlt := (indexByte_lt_iff 10 b.window).2 hmw
      rw [hlen] at hlt
      have F := ReadString_found b a2 hmw
      rw [hw] at F hlt
      refine ⟨_, _, _, bufioReadString_some s hm, F, ⟨⟨by simp only []; omega, a2, a3, a4⟩,
        hrd, Or.inl ?_⟩, ?_, fun hS => ?_⟩
      · rw [Nat.add_assoc, window_advance, hw]
      · simp only [Reader.size, Reader.Buffered]
        omega
      · rw [hback b]
        exact ⟨hS, Nat.le_refl _⟩
    · left
      exact eofCase ⟨a1, a2, a3, a4⟩ (by rw [hw]; exact hm) (by rw [hrd]; simp) hm
  · left
    exact eofCase wf hm (by rw [hrd]; simp) hs
  · obtain ⟨a1, a2, a3, a4⟩ := wf
    have hwin : b.window = [] := by
      unfold Reader.window
      rw [hrw]
      simp
    by_cases hm : 10 ∈ s
    · right
      have hlt := (indexByte_lt_iff 10 s).2 hm
      have hn : min b.rd.length (b.buf.length - (b.w - b.r)) = s.length := by
        rw [hrd]
        omega
      have R := ReadSlice_refill_found (b.rd.length + 1) s.length b a1 a2
        (by rw [hwin]; simp) a4 (by omega) hn.symm (by rw [hrd, List.take_length]; exact hm)
      have F : b.ReadString = _ := collectFragments_nil _ [] b _ _ R
      rw [hwin, hrd] at F
      simp only [List.nil_append, List.take_length, List.drop_length] at F
      refine ⟨_, _, _, bufioReadString_some s hm, F, ⟨⟨by simp only []; omega, ?_, ?_, rfl⟩,
        rfl, Or.inl ?_⟩, ?_, fun hS => ?_⟩
      · simp only [List.length_append, List.length_drop]
        omega
      · simp only [List.length_append, List.length_drop]
        omega
      · have := window_of_parts (s ++ b.buf.drop (b.w - b.r + s.length)) s []
          (b.buf.drop (b.w - b.r + s.length)) [] (b.w - b.r + indexByte 10 s + 1)
          (b.w - b.r + s.length) false (by simp) (by omega) (by simp; omega)
        rw [this, List.append_nil]
        congr 1
        omega
      · simp only [Reader.size, Reader.Buffered, List.length_nil, hrd]
        omega
      · obtain ⟨-, hS2, -⟩ := hS
        rw [hrd] at hS2
        rw [hS2] at hm
        simp at hm
    · left
      exact eofCase ⟨a1, a2, a3, a4⟩ (by rw [hwin]; simp) (by rw [hrd]; exact hm) hm

/-- `readTrack` over the buffer and over the stream: the same track. -/
theorem readTrack_Sim (f1 : Nat) :
    ∀ (f2 : Nat) (b : Reader) (s : List Nat) (track : Track), Sim b s →
    b.size < f1 → s.length < f2 →
    Agree (fun p q => p.1 = q.1 ∧ Sim p.2 q.2 ∧ p.2.size ≤ b.size ∧ q.2.length ≤ s.length)
      (buffered.readTrack f1 b track) (readTrack f2 s track) := by
  induction f1 with
  | zero => intro _ _ _ _ _ h; omega
  | succ f1 ih =>
    intro f2 b s track hS g1 g2
    cases f2 with
    | zero => omega
    | succ f2 =>
      unfold buffered.readTrack readTrack
      rcases ReadString_Sim b s (Or.inl hS) with ⟨hn, l, b', hr, hS', hs'⟩ |
        ⟨line, s', b', hn, hr, hS', hs', hA⟩
      · simp only [hn, hr, bind, Except.bind, if_true, pure, Except.pure]
        exact Or.inr ⟨_, _, rfl, rfl, rfl, hS', hs', Nat.le_refl _⟩
      · obtain ⟨hA1, hA2⟩ := hA hS
        have hlt := bufioReadString_shorter s line s' hn
        simp only [hn, hr, bind, Except.bind, Bool.false_eq_true, if_false]
        by_cases hp : (!HasPrefix line (bytes "    ")) = true
        · rw [if_pos hp, if_pos hp]
          exact Or.inr ⟨_, _, rfl, rfl, rfl, hA1, hA2, Nat.le_refl _⟩
        · rw [if_neg hp, if_neg hp]
          refine Agree_bind_same _ _ _ _ (ReadString_noFuel _) ?_
          rintro ⟨command, line'⟩ -
          refine Agree_bind_same _ _ _ _ (trackCommand_noFuel _ _ _) ?_
          intro o _
          cases o with
          | none =>
            exact Or.inr ⟨_, _, rfl, rfl, rfl, hS', Nat.le_of_lt hs', Nat.le_of_lt hlt⟩
          | some track' =>
            refine Agree_mono _ _ _ _ (ih f2 b' s' track' hS' (by omega) (by omega)) ?_
            rintro p q ⟨h1, h2, h3, h4⟩
            exact ⟨h1, h2, by omega, by omega⟩

/-- `readTracks` over the buffer and over the stream: the same tracks. -/
theorem readTracks_Sim (f1 : Nat) :
    ∀ (f2 : Nat) (b : Reader) (s : List Nat) (tracks : List Track), Sim b s →
    b.size < f1 → s.length < f2 →
    Agree (fun p q => p.1 = q.1 ∧ Sim p.2 q.2 ∧ p.2.size ≤ b.size ∧ q.2.length ≤ s.length)
      (buffered.readTracks f1 b tracks) (readTracks f2 s tracks) := by
  induction f1 with
  | zero => intro _ _ _ _ _ h; omega
  | succ f1 ih =>
    intro f2 b s tracks hS g1 g2
    cases f2 with
    | zero => omega
    | succ f2 =>
      unfold buffered.readTracks readTracks
      rcases ReadString_Sim b s (Or.inl hS) with ⟨hn, l, b', hr, hS', hs'⟩ |
        ⟨line, s', b', hn, hr, hS', hs', hA⟩
      · simp only [hn, hr, bind, Except.bind, if_true, pure, Except.pure]
        exact Or.inr ⟨_, _, rfl, rfl, rfl, hS', hs', Nat.le_refl _⟩
      · obtain ⟨hA1, hA2⟩ := hA hS
        have hlt := bufioReadString_shorter s line s' hn
        simp only [hn, hr, bind, Except.bind, Bool.false_eq_true, if_false]
        by_cases hp : (!HasPrefix line (bytes "  ")) = true
        · rw [if_pos hp, if_pos hp]
          exact Or.inr ⟨_, _, rfl, rfl, rfl, hA1, hA2, Nat.le_refl _⟩
        · rw [if_neg hp, if_neg hp]
          refine Agree_bind_same _ _ _ _ (ReadString_noFuel _) ?_
          rintro ⟨command, line'⟩ -
          simp only []
          by_cases hc : command = bytes "TRACK"
          · rw [if_pos hc, if_pos hc]
            refine Agree_bind_same _ _ _ _ (ReadUint_noFuel _) ?_
            rintro ⟨n, line2⟩ -
            refine Agree_bind_same _ _ _ _ (ReadString_noFuel _) ?_
            rintro ⟨dataType, line3⟩ -
            refine Agree_bind _ _ _ _ _ _
              (readTrack_Sim (b'.size + 1) (s'.length + 1) b' s' _ hS'
                (Nat.lt_succ_self _) (Nat.lt_succ_self _)) ?_
            rintro ⟨tr1, c1⟩ ⟨tr2, c2⟩ ⟨h1, h2, h3, h4⟩
            simp only [] at h1 h2 h3 h4
            subst h1
            refine Agree_mono _ _ _ _ (ih f2 c1 c2 _ h2 (by omega) (by omega)) ?_
            rintro p q ⟨k1, k2, k3, k4⟩
            exact ⟨k1, k2, by omega, by omega⟩
          · rw [if_neg hc, if_neg hc]
            exact Or.inr ⟨_, _, rfl, rfl, rfl, hS', Nat.le_of_lt hs', Nat.le_of_lt hlt⟩

/-- The loop of `ReadFile` over the buffer and over the stream: the same
result. -/
theorem readFileLoop_Sim (f1 : Nat) :
    ∀ (f2 : Nat) (b : Reader) (s : List Nat) (c : Cuesheet), Sim0 b s →
    b.size < f1 → s.length < f2 →
    Agree (fun p q => p = q) (buffered.readFileLoop f1 b c) (readFileLoop f2 s c) := by
  induction f1 with
  | zero => intro _ _ _ _ _ h; omega
  | succ f1 ih =>
    intro f2 b s c hS g1 g2
    cases f2 with
    | zero => omega
    | succ f2 =>
      unfold buffered.readFileLoop readFileLoop
      rcases ReadString_Sim b s hS with ⟨hn, l, b', hr, hS', hs'⟩ |
        ⟨line, s', b', hn, hr, hS', hs', -⟩
      · simp only [hn, hr, bind, Except.bind, if_true, pure, Except.pure]
        exact Or.inr ⟨_, _, rfl, rfl, rfl⟩
      · have hlt := bufioReadString_shorter s line s' hn
        simp only [hn, hr, bind, Except.bind, Bool.false_eq_true, if_false]
        have hb' : ∀ c', Agree (fun p q => p = q) (buffered.readFileLoop f1 b' c')
            (readFileLoop f2 s' c') :=
          fun c' => ih f2 b' s' c' (Or.inl hS') (by omega) (by omega)
        refine Agree_bind_same _ _ _ _ (ReadString_noFuel _) ?_
        rintro ⟨command, line'⟩ -
        simp only []
        by_cases c0 : command = bytes "REM"
        · rw [if_pos c0, if_pos c0]
          exact hb' _
        rw [if_neg c0, if_neg c0]
        by_cases c1 : command = bytes "CATALOG"
        · rw [if_pos c1, if_pos c1]
          exact hb' _
        rw [if_neg c1, if_neg c1]
        by_cases c2 : command = bytes "CDTEXTFILE"
        · rw [if_pos c2, if_pos c2]
          refine Agree_bind_same _ _ _ _ (ReadString_noFuel _) ?_
          rintro ⟨v, r⟩ -
          exact hb' _
        rw [if_neg c2, if_neg c2]
        by_cases c3 : command = bytes "TITLE"
        · rw [if_pos c3, if_pos c3]
          refine Agree_bind_same _ _ _ _ (ReadString_noFuel _) ?_
          rintro ⟨v, r⟩ -
          exact hb' _
        rw [if_neg c3, if_neg c3]
        by_cases c4 : command = bytes "PERFORMER"
        · rw [if_pos c4, if_pos c4]
          refine Agree_bind_same _ _ _ _ (ReadString_noFuel _) ?_
          rintro ⟨v, r⟩ -
          exact hb' _
        rw [if_neg c4, if_neg c4]
        by_cases c5 : command = bytes "SONGWRITER"
        · rw [if_pos c5, if_pos c5]
          refine Agree_bind_same _ _ _ _ (ReadString_noFuel _) ?_
          rintro ⟨v, r⟩ -
          exact hb' _
        rw [if_neg c5, if_neg c5]
        by_cases c6 : command = bytes "PREGAP"
        · rw [if_pos c6, if_pos c6]
          refine Agree_bind_same _ _ _ _ (ReadFrame_noFuel _) ?_
          rintro ⟨v, r⟩ -
          exact hb' _
        rw [if_neg c6, if_neg c6]
        by_cases c7 : command = bytes "POSTGAP"
        · rw [if_pos c7, if_pos c7]
          refine Agree_bind_same _ _ _ _ (ReadFrame_noFuel _) ?_
          rintro ⟨v, r⟩ -
          exact hb' _
        rw [if_neg c7, if_neg c7]
        by_cases c8 : command = bytes "FILE"
        · rw [if_pos c8, if_pos c8]
          refine Agree_bind_same _ _ _ _ (ReadString_noFuel _) ?_
          rintro ⟨fname, line2⟩ -
          refine Agree_bind_same _ _ _ _ (ReadString_noFuel _) ?_
          rintro ⟨ftype, line3⟩ -
          refine Agree_bind _ _ _ _ _ _
            (readTracks_Sim (b'.size + 1) (s'.length + 1) b' s' [] hS'
              (Nat.lt_succ_self _) (Nat.lt_succ_self _)) ?_
          rintro ⟨tr1, d1⟩ ⟨tr2, d2⟩ ⟨h1, h2, h3, h4⟩
          simp only [] at h1 h2 h3 h4
          subst h1
          exact ih f2 d1 d2 _ (Or.inl h2) (by omega) (by omega)
        rw [if_neg c8, if_neg c8]
        exact hb' _

/-- On a text that fits into the buffer of `bufio`, reading through the
buffer and reading the stream of unread bytes give the same result: the
first refill takes the whole text, no later read refills, and every
`*b = before` restores positions over an array that has not changed. -/
theorem buffered_ReadFile_short (r : List Nat) (h : r.length ≤ defaultBufSize) :
    buffered.ReadFile r = ReadFile r := by
  have hl : (NewReader r).buf.length = defaultBufSize := by
    show (List.replicate defaultBufSize 0).length = defaultBufSize
    rw [List.length_replicate]
  have hS : Sim0 (NewReader r) r :=
    Or.inr ⟨⟨Nat.le_refl _, Nat.zero_le _, by rw [hl]; exact Nat.succ_pos _, rfl⟩, rfl, rfl,
      by rw [hl]; exact h⟩
  have hA := readFileLoop_Sim (r.length + 1) (r.length + 1) (NewReader r) r Cuesheet.zero hS
    (by show 0 - 0 + r.length < r.length + 1; omega) (Nat.lt_succ_self _)
  unfold buffered.ReadFile ReadFile
  rcases hA with ⟨e, -, hx, hy⟩ | ⟨a, b, hx, hy, hp⟩
  · rw [hx, hy]
  · rw [hx, hy, hp]

/-- The round trip through the buffer: for every sheet that meets the
conditions of the round trip and that `WriteFile` writes in at most 4096
bytes, `ReadFile` returns the sheet. -/
theorem buffered_ReadFile_WriteFile (D : Cuesheet) (h : Representable D)
    (hl : (WriteFile D).length ≤ defaultBufSize) :
    buffered.ReadFile (WriteFile D) = .ok D := by
  rw [buffered_ReadFile_short _ hl]
  exact ReadFile_WriteFile D h

/-- An unknown command of the disc level through the buffer: in a text of at
most 4096 bytes the line is ignored. -/
theorem buffered_ReadFile_unknown_command (L1 L2 : List (List Nat)) (u : List Nat)
    (c0 : Nat) (t : List Nat) (h1 : ∀ l ∈ L1, 10 ∉ l ∧ NoFileCommand l) (hu : 10 ∉ u)
    (htrim : Trim u = c0 :: t) (hq : c0 ≠ 34 ∧ c0 ≠ 39)
    (hcmd : firstField (Trim u) ∉ discCommands)
    (hl : (linesText (L1 ++ [u] ++ L2)).length ≤ defaultBufSize) :
    buffered.ReadFile (linesText (L1 ++ [u] ++ L2)) =
      buffered.ReadFile (linesText (L1 ++ L2)) := by
  have hl2 : (linesText (L1 ++ L2)).length ≤ defaultBufSize := by
    refine Nat.le_trans ?_ hl
    simp only [linesText, List.map_append, List.flatten_append, List.length_append]
    omega
  rw [buffered_ReadFile_short _ hl, buffered_ReadFile_short _ hl2]
  exact ReadFile_unknown_command L1 L2 u c0 t h1 hu htrim hq hcmd

end cuesheet
